import Mathlib

/-!
# Felzenszwalb lower-envelope kernel (`time_two_kernels.cu.cc`)

A shallow embedding of `calcint`, `BasinFinderCudaKernel` and the launch
computation of `BasinFinderFunctor`, in two readings of the arithmetic.

## Exact reading (the definitions directly in `FelzenszwalbEDT`)

* `float` values are exact rationals; the boundary buffer `z` additionally holds
  the two sentinels `-INFINITY` and `INFINITY` (type `Ext`).  The input `f`
  holds finite values only.
* `int` values are mathematical integers (no wrap-around): dimensions, loop
  counters and the stack pointer `k` are natural numbers, the contents of the
  index buffers `v` and `basins` are integers.
* The flat buffers are lists.  Every access goes through `cell`, `load` and
  `store`: an access fails (`none`) when the logical index leaves the cells of
  the thread's own row or when the flat address lies outside the buffer.
  Decrementing `k` below `0` fails for the same reason: the next statement of
  the source reads `v[offset1 + (-1)*dim2]`.

This is the reading of the statements that are made "in exact arithmetic".

## Machine reading (type `F32`, namespace `FelzenszwalbEDT.Machine`)

* `float` is IEEE binary32: every operation rounds to nearest (ties to even),
  overflows to an infinity and may produce NaN; a conversion from `int` rounds.
* `int` is 32-bit two's complement.
* The stack pointer `k` is an `int` that may go below `0`; an access fails only
  when the flat address lies outside the buffer.

This is what the instantiation `T = float` executes.  It is evaluated on
concrete inputs, where the two readings part: a crossover that is rounded, a
numerator of `calcint` that overflows to `-inf` (the test `s <= Z[0]` against
the sentinel `Z[0] = -inf` then holds and the bottom of the stack is popped),
and the `int` product of line 92.
-/

namespace FelzenszwalbEDT

/-- Exact stand-in for the `float` boundaries: a rational or one of the two
infinities. -/
inductive Ext where
  | negInf : Ext
  | fin : ℚ → Ext
  | posInf : Ext
deriving DecidableEq

namespace Ext

/-- Comparison `a <= b`. -/
def le : Ext → Ext → Bool
  | negInf, _ => true
  | _, posInf => true
  | fin a, fin b => decide (a ≤ b)
  | _, _ => false

/-- Comparison `a < b`. -/
def lt : Ext → Ext → Bool
  | posInf, _ => false
  | _, negInf => false
  | fin a, fin b => decide (a < b)
  | _, _ => true

/-- Unary minus. -/
def neg : Ext → Ext
  | negInf => posInf
  | fin a => fin (-a)
  | posInf => negInf

end Ext

/-- Line 25: `const float verybig = INFINITY;`. -/
def verybig : Ext := Ext.posInf

/-- Lines 35-39 in the exact reading: the abscissa where the parabolas rooted
at `q1` and `q2` cross.  The casts and the four operations are exact (a zero
divisor gives `0`); the binary32 reading is `Machine.calcint`. -/
def calcint (q1 q2 : Int) (f1 f2 : ℚ) : ℚ :=
  let q1f : ℚ := (q1 : ℚ)
  let q2f : ℚ := (q2 : ℚ)
  ((f1 + q1f * q1f) - (f2 + q2f * q2f)) / (2 * q1f - 2 * q2f)

/-- The four buffers a thread writes: `out`, `z`, `v`, `basins`. -/
structure Bufs where
  out : List ℚ
  z : List Ext
  v : List Int
  basins : List Int
deriving DecidableEq

/-- Flat address `offset + i*stride` of logical cell `i` of a row that owns
`len` cells. -/
def cell (offset stride len i : Nat) : Option Nat :=
  if i < len then some (offset + i * stride) else none

/-- An `int` used as a logical index. -/
def index (x : Int) : Option Nat :=
  if 0 ≤ x then some x.toNat else none

/-- Read `buf[a]`. -/
def load {α : Type} (buf : List α) (a : Nat) : Option α := buf[a]?

/-- Write `buf[a] = x`. -/
def store {α : Type} (buf : List α) (a : Nat) (x : α) : Option (List α) :=
  if a < buf.length then some (buf.set a x) else none

/-- Lines 56-59: the first `n` iterations of the initialisation loop. -/
def initLoop (offset1 offset2 dim1 dim2 : Nat) : Nat → Bufs → Option Bufs
  | 0, b => some b
  | i1 + 1, b => do
    let b ← initLoop offset1 offset2 dim1 dim2 i1 b
    let av ← cell offset1 dim2 dim1 i1
    let v ← store b.v av 0
    let az ← cell offset2 dim2 (dim1 + 1) i1
    let z ← store b.z az (Ext.fin 0)
    some { b with v := v, z := z }

/-- The expression of lines 69 and 75:
`calcint(q, v[offset1+k*dim2], f[offset1+q*dim2], f[offset1+v[offset1+k*dim2]*dim2])`. -/
def calcintAt (offset1 dim1 dim2 : Nat) (f : List ℚ) (b : Bufs) (q k : Nat) : Option ℚ := do
  let ak ← cell offset1 dim2 dim1 k
  let vk ← load b.v ak
  let aq ← cell offset1 dim2 dim1 q
  let fq ← load f aq
  let p ← index vk
  let ap ← cell offset1 dim2 dim1 p
  let fp ← load f ap
  some (calcint (q : Int) vk fq fp)

/-- Lines 72-77 in the exact reading:
`while (s <= z[offset2+k*dim2]) { k = k-1; s = calcint(...); }`,
started with stack pointer `k` and intersection `s`; returns the final `k`
and `s`.  Here `s` is a finite rational; the reading in which `s` may be an
infinity or NaN is `Machine.popLoop`. -/
def popLoop (offset1 offset2 dim1 dim2 : Nat) (f : List ℚ) (b : Bufs) (q : Nat) :
    Nat → ℚ → Option (Nat × ℚ)
  | 0, s => do
    let az ← cell offset2 dim2 (dim1 + 1) 0
    let zk ← load b.z az
    if Ext.le (Ext.fin s) zk then none else some (0, s)
  | k + 1, s => do
    let az ← cell offset2 dim2 (dim1 + 1) (k + 1)
    let zk ← load b.z az
    if Ext.le (Ext.fin s) zk then do
      let s ← calcintAt offset1 dim1 dim2 f b q k
      popLoop offset1 offset2 dim1 dim2 f b q k s
    else some (k + 1, s)

/-- Lines 68-81: the body of the envelope loop for candidate `q`. -/
def buildBody (offset1 offset2 dim1 dim2 : Nat) (f : List ℚ) (q : Nat)
    (st : Bufs × Nat) : Option (Bufs × Nat) := do
  let b := st.1
  let s ← calcintAt offset1 dim1 dim2 f b q st.2
  let (k, s) ← popLoop offset1 offset2 dim1 dim2 f b q st.2 s
  let k := k + 1
  let av ← cell offset1 dim2 dim1 k
  let v ← store b.v av (q : Int)
  let az ← cell offset2 dim2 (dim1 + 1) k
  let z ← store b.z az (Ext.fin s)
  let az1 ← cell offset2 dim2 (dim1 + 1) (k + 1)
  let z ← store z az1 verybig
  some ({ b with v := v, z := z }, k)

/-- Lines 67-82: the iterations `q = 1, ..., m` of the envelope loop, started
from buffers `b` with `k = 0`. -/
def buildLoop (offset1 offset2 dim1 dim2 : Nat) (f : List ℚ) (b : Bufs) :
    Nat → Option (Bufs × Nat)
  | 0 => some (b, 0)
  | m + 1 => do
    let st ← buildLoop offset1 offset2 dim1 dim2 f b m
    buildBody offset1 offset2 dim1 dim2 f (m + 1) st

/-- Lines 87-89: `while (z[offset2+(k+1)*dim2] < q) k = k+1;`.  Every iteration
reads a fresh cell of the row's `dim1+1` boundary cells, so `fuel = dim1+1`
iterations cannot be exhausted before a read leaves the row. -/
def advance (offset2 dim1 dim2 : Nat) (z : List Ext) (q : Nat) : Nat → Nat → Option Nat
  | 0, _ => none
  | fuel + 1, k => do
    let az ← cell offset2 dim2 (dim1 + 1) (k + 1)
    let zk ← load z az
    if Ext.lt zk (Ext.fin (q : ℚ)) then advance offset2 dim1 dim2 z q fuel (k + 1)
    else some k

/-- Lines 87-92 in the exact reading: the body of the evaluation loop for
position `q`.  The product `(q-thisv)*(q-thisv)` is taken in the integers and
the sum in the rationals; the 32-bit and binary32 reading is
`Machine.outValue`. -/
def evalBody (offset1 offset2 dim1 dim2 : Nat) (f : List ℚ) (q : Nat)
    (st : Bufs × Nat) : Option (Bufs × Nat) := do
  let b := st.1
  let k ← advance offset2 dim1 dim2 b.z q (dim1 + 1) st.2
  let ak ← cell offset1 dim2 dim1 k
  let thisv ← load b.v ak
  let aq ← cell offset1 dim2 dim1 q
  let basins ← store b.basins aq thisv
  let p ← index thisv
  let ap ← cell offset1 dim2 dim1 p
  let fp ← load f ap
  let out ← store b.out aq ((((q : Int) - thisv) * ((q : Int) - thisv) : Int) + fp)
  some ({ b with out := out, basins := basins }, k)

/-- Lines 85-93: the iterations `q = 0, ..., m-1` of the evaluation loop,
started from buffers `b` with `k = 0`. -/
def evalLoop (offset1 offset2 dim1 dim2 : Nat) (f : List ℚ) (b : Bufs) :
    Nat → Option (Bufs × Nat)
  | 0 => some (b, 0)
  | m + 1 => do
    let st ← evalLoop offset1 offset2 dim1 dim2 f b m
    evalBody offset1 offset2 dim1 dim2 f m st

/-- Lines 55-65: reset of the row's scratch cells and the initial stack
`k = 0`, `V[0] = 0`, `Z[0] = -infinity`, `Z[1] = +infinity`. -/
def initPhase (offset1 offset2 dim1 dim2 : Nat) (b : Bufs) : Option Bufs := do
  let b ← initLoop offset1 offset2 dim1 dim2 dim1 b
  let az ← cell offset2 dim2 (dim1 + 1) dim1
  let z ← store b.z az (Ext.fin 0)
  let a0 ← cell offset2 dim2 (dim1 + 1) 0
  let z ← store z a0 (Ext.neg verybig)
  let a1 ← cell offset2 dim2 (dim1 + 1) 1
  let z ← store z a1 verybig
  some { b with z := z }

/-- Lines 55-82 cut after candidate `m`: initialisation, then the envelope loop
for `q = 1, ..., m`; returns the buffers and the stack pointer `k`. -/
def sweep (offset1 offset2 dim1 dim2 : Nat) (f : List ℚ) (b : Bufs) (m : Nat) :
    Option (Bufs × Nat) := do
  let b ← initPhase offset1 offset2 dim1 dim2 b
  buildLoop offset1 offset2 dim1 dim2 f b m

/-- Lines 55-82: initialisation and the whole envelope loop `q = 1, ..., dim1-1`. -/
def buildPhase (offset1 offset2 dim1 dim2 : Nat) (f : List ℚ) (b : Bufs) :
    Option (Bufs × Nat) :=
  sweep offset1 offset2 dim1 dim2 f b (dim1 - 1)

/-- Lines 52-93: what a thread does once its two offsets are known. -/
def threadBody (offset1 offset2 dim1 dim2 : Nat) (f : List ℚ) (b : Bufs) : Option Bufs := do
  let st ← buildPhase offset1 offset2 dim1 dim2 f b
  let st ← evalLoop offset1 offset2 dim1 dim2 f st.1 dim1
  some st.1

/-- Line 52: `offset1 = i0*dim1*dim2 + i2` with `i0 = batchdim/dim2`,
`i2 = batchdim%dim2`. -/
def offset1 (dim1 dim2 batchdim : Nat) : Nat :=
  (batchdim / dim2) * dim1 * dim2 + batchdim % dim2

/-- Line 53: `offset2 = i0*(dim1+1)*dim2 + i2`. -/
def offset2 (dim1 dim2 batchdim : Nat) : Nat :=
  (batchdim / dim2) * (dim1 + 1) * dim2 + batchdim % dim2

/-- Lines 43-94: the thread with global index `batchdim`.  As in the source,
`dim0` is not used by the body. -/
def BasinFinderCudaKernel (_dim0 dim1 dim2 : Nat) (f : List ℚ) (batchdim : Nat)
    (b : Bufs) : Option Bufs :=
  threadBody (offset1 dim1 dim2 batchdim) (offset2 dim1 dim2 batchdim) dim1 dim2 f b

/-- Line 104: `block_count = 1 + dim0*dim2/8`. -/
def blockCount (dim0 dim2 : Nat) : Nat := 1 + dim0 * dim2 / 8

/-- Line 105: `thread_per_block = 8`. -/
def threadPerBlock : Nat := 8

/-- Lines 106-107: the global indices `threadIdx.x + blockDim.x*blockIdx.x` of
the launched threads. -/
def launchedThreads (dim0 dim2 : Nat) : List Nat :=
  List.range (blockCount dim0 dim2 * threadPerBlock)

/-- Run the threads `ts` one after the other. -/
def runThreads (dim0 dim1 dim2 : Nat) (f : List ℚ) : List Nat → Bufs → Option Bufs
  | [], b => some b
  | t :: ts, b => do
    let b ← BasinFinderCudaKernel dim0 dim1 dim2 f t b
    runThreads dim0 dim1 dim2 f ts b

/-- Lines 99-108: the launch, every launched thread run in turn. -/
def BasinFinderFunctor (dim0 dim1 dim2 : Nat) (f : List ℚ) (b : Bufs) : Option Bufs :=
  runThreads dim0 dim1 dim2 f (launchedThreads dim0 dim2) b

/-- The parabola rooted at sample `p` of the row `g`, at abscissa `x`. -/
def parabola (g : Nat → ℚ) (p : Nat) (x : ℚ) : ℚ := (x - p) * (x - p) + g p

/-- Order on roots at abscissa `x`: lower parabola first, smaller index on a tie. -/
def lexLe (g : Nat → ℚ) (x : ℚ) (a b : Nat) : Prop :=
  parabola g a x < parabola g b x ∨ (parabola g a x = parabola g b x ∧ a ≤ b)

/-- Shape of the stack `V[0..k]`, `Z[0..k]` over the row `g`: the bottom is
sample `0` with boundary `-infinity`, vertices increase, every other boundary is
the crossing with the vertex below, and boundaries increase. -/
structure Chain (g : Nat → ℚ) (V : Nat → Nat) (Z : Nat → Ext) (k : Nat) : Prop where
  v0 : V 0 = 0
  z0 : Z 0 = Ext.negInf
  vmono : ∀ i, i < k → V i < V (i + 1)
  zdef : ∀ i, i < k →
    Z (i + 1) = Ext.fin (calcint (V (i + 1) : Int) (V i : Int) (g (V (i + 1))) (g (V i)))
  zmono : ∀ i, i < k → Ext.lt (Z i) (Z (i + 1)) = true

/-- The stack after samples `0..q-1` were inserted: a chain whose top is `q-1`
and which contains, for every inserted sample and abscissa, a vertex that is
at least as good. -/
structure Envelope (g : Nat → ℚ) (q : Nat) (V : Nat → Nat) (Z : Nat → Ext) (k : Nat) : Prop where
  chain : Chain g V Z k
  top : V k + 1 = q
  cover : ∀ p, p < q → ∀ x : ℚ, ∃ i, i ≤ k ∧ lexLe g x (V i) p

/-- Where the evaluation cursor `j` stops for abscissa `x`: every boundary up
to `Z[j]` is left of `x`, the next one is not. -/
def CursorAt (Z : Nat → Ext) (k : Nat) (x : ℚ) (j : Nat) : Prop :=
  j ≤ k ∧ (∀ i, 1 ≤ i → i ≤ j → Ext.lt (Z i) (Ext.fin x) = true) ∧
    (j < k → Ext.lt (Z (j + 1)) (Ext.fin x) = false)

/-- The buffers are large enough for the row at `off1`/`off2`. -/
structure Fits (off1 off2 dim1 dim2 : Nat) (b : Bufs) : Prop where
  v : ∀ i, i < dim1 → off1 + i * dim2 < b.v.length
  out : ∀ i, i < dim1 → off1 + i * dim2 < b.out.length
  basins : ∀ i, i < dim1 → off1 + i * dim2 < b.basins.length
  z : ∀ i, i < dim1 + 1 → off2 + i * dim2 < b.z.length

/-- The buffer `l'` differs from `l` at most in the `len` cells of the row at `off`. -/
def SameOff {α : Type} (off dim2 len : Nat) (l l' : List α) : Prop :=
  l'.length = l.length ∧ ∀ a, (∀ i, i < len → a ≠ off + i * dim2) → l'[a]? = l[a]?

/-- The buffers `b'` differ from `b` at most in the cells of the row. -/
structure Frame (off1 off2 dim1 dim2 : Nat) (b b' : Bufs) : Prop where
  v : SameOff off1 dim2 dim1 b.v b'.v
  z : SameOff off2 dim2 (dim1 + 1) b.z b'.z
  out : SameOff off1 dim2 dim1 b.out b'.out
  basins : SameOff off1 dim2 dim1 b.basins b'.basins

/-- The row `g` is what `f` holds in the cells of the row at `off1`. -/
def RowOf (off1 dim1 dim2 : Nat) (f : List ℚ) (g : Nat → ℚ) : Prop :=
  ∀ p, p < dim1 → f[off1 + p * dim2]? = some (g p)

/-- The stack `V[0..k]`, `Z[0..k]` is what the scratch cells of the row hold, and
the boundary cell above the top holds `+infinity`. -/
structure Stored (off1 off2 dim2 : Nat) (b : Bufs) (V : Nat → Nat) (Z : Nat → Ext)
    (k : Nat) : Prop where
  v : ∀ i, i ≤ k → b.v[off1 + i * dim2]? = some (V i : Int)
  z : ∀ i, i ≤ k → b.z[off2 + i * dim2]? = some (Z i)
  sentinel : b.z[off2 + (k + 1) * dim2]? = some Ext.posInf

/-- What the evaluation loop has written at position `q`: the vertex under the
cursor for `q` and the value of its parabola there. -/
def Written (off1 dim2 : Nat) (g : Nat → ℚ) (V : Nat → Nat) (Z : Nat → Ext) (k : Nat)
    (b : Bufs) (q : Nat) : Prop :=
  ∃ j, CursorAt Z k (q : ℚ) j ∧ b.out[off1 + q * dim2]? = some (parabola g (V j) q) ∧
    b.basins[off1 + q * dim2]? = some (V j : Int)

/-- Record of one successful thread: the envelope phase turns `b` into `bb` with
final stack pointer `k` and stack `V`, `Z`; the evaluation phase turns `bb` into
`b'` with final cursor `j`. -/
structure ThreadRun (off1 off2 dim1 dim2 : Nat) (f : List ℚ) (g : Nat → ℚ) (b bb : Bufs)
    (k : Nat) (V : Nat → Nat) (Z : Nat → Ext) (b' : Bufs) (j : Nat) : Prop where
  build : buildPhase off1 off2 dim1 dim2 f b = some (bb, k)
  env : Envelope g dim1 V Z k
  stored : Stored off1 off2 dim2 bb V Z k
  eval : evalLoop off1 off2 dim1 dim2 f bb dim1 = some (b', j)
  thread : threadBody off1 off2 dim1 dim2 f b = some b'
  v_eq : b'.v = bb.v
  z_eq : b'.z = bb.z
  fits : Fits off1 off2 dim1 dim2 bb
  frame : Frame off1 off2 dim1 dim2 b b'
  written : ∀ q, q < dim1 → Written off1 dim2 g V Z k b' q

/-- The buffers have the sizes of the launch contract: `dim0*dim1*dim2` cells for
`f`, `out`, `v`, `basins` and `dim0*(dim1+1)*dim2` cells for `z`. -/
structure Sized (dim0 dim1 dim2 : Nat) (f : List ℚ) (b : Bufs) : Prop where
  f : f.length = dim0 * dim1 * dim2
  out : b.out.length = dim0 * dim1 * dim2
  z : b.z.length = dim0 * (dim1 + 1) * dim2
  v : b.v.length = dim0 * dim1 * dim2
  basins : b.basins.length = dim0 * dim1 * dim2

/-- Sample `p` of the row of thread `batchdim`: `f[offset1 + p*dim2]`. -/
def rowOf (dim1 dim2 : Nat) (f : List ℚ) (batchdim p : Nat) : ℚ :=
  (f[offset1 dim1 dim2 batchdim + p * dim2]?).getD 0

/-- The buffers used for the concrete three-sample rows. -/
def scratch3 : Bufs :=
  ⟨[0, 0, 0], [Ext.fin 0, Ext.fin 0, Ext.fin 0, Ext.fin 0], [0, 0, 0], [0, 0, 0]⟩

/-- The buffers of the shape `(1, 1, 1)`: one cell each, two cells of `z`. -/
def oneCell : Bufs := ⟨[0], [Ext.fin 0, Ext.fin 0], [0], [0]⟩

/-- The row at `off1` is finished: every position holds the least parabola value
of the row `g` and the smallest root attaining it. -/
def RowDone (off1 dim1 dim2 : Nat) (g : Nat → ℚ) (b : Bufs) : Prop :=
  ∀ q, q < dim1 → ∃ p, p < dim1 ∧ b.out[off1 + q * dim2]? = some (parabola g p q) ∧
    b.basins[off1 + q * dim2]? = some (p : Int) ∧
    (∀ r, r < dim1 → parabola g p q ≤ parabola g r q) ∧
    (∀ r, r < dim1 → parabola g r q = parabola g p q → p ≤ r)

/-- The row of thread `batchdim`, copied out of `f`. -/
def extractRow (dim1 dim2 : Nat) (f : List ℚ) (batchdim : Nat) : List ℚ :=
  (List.range dim1).map (rowOf dim1 dim2 f batchdim)

/-- Buffers of the shape `(2, 2, 2)` used for the concrete batch. -/
def scratch222 : Bufs :=
  ⟨List.replicate 8 7, List.replicate 12 (Ext.fin 9), List.replicate 8 (-5),
    List.replicate 8 (-3)⟩

/-- Buffers of the shape `(1, 3, 1)` with other scratch contents than
`scratch3`. -/
def scratch3b : Bufs :=
  ⟨[0, 0, 0], [Ext.posInf, Ext.fin 7, Ext.negInf, Ext.fin (-1)], [9, -4, 2], [0, 0, 0]⟩

/-- Comparison `z <= x` of a boundary with a real abscissa. -/
def Ext.leReal : Ext → ℝ → Prop
  | Ext.negInf, _ => True
  | Ext.fin a, x => (a : ℝ) ≤ x
  | Ext.posInf, _ => False

/-- Comparison `x <= z` of a real abscissa with a boundary. -/
def Ext.realLe : ℝ → Ext → Prop
  | _, Ext.posInf => True
  | x, Ext.fin a => x ≤ (a : ℝ)
  | _, Ext.negInf => False

/-- At the real abscissa `x` the parabola rooted at `a` is not above the one
rooted at `p`. -/
def lowerAt (g : Nat → ℚ) (a p : Nat) (x : ℝ) : Prop :=
  (x - (a : ℝ)) * (x - (a : ℝ)) + ((g a : ℚ) : ℝ) ≤ (x - (p : ℝ)) * (x - (p : ℝ)) + ((g p : ℚ) : ℝ)

/-- A binary32 value: NaN, an infinity, or a finite value, given by the rational
it denotes. -/
inductive F32 where
  | nan : F32
  | negInf : F32
  | fin : ℚ → F32
  | posInf : F32
deriving DecidableEq

namespace F32

/-- The power `2^e` for an integer `e`. -/
def pow2 (e : Int) : ℚ :=
  if 0 ≤ e then (2 : ℚ) ^ e.toNat else 1 / (2 : ℚ) ^ (-e).toNat

/-- Number of halvings that bring `n` below `2`, at most `fuel` of them. -/
def halvings : Nat → Nat → Nat
  | 0, _ => 0
  | fuel + 1, n => if n < 2 then 0 else halvings fuel (n / 2) + 1

/-- For `n ≥ 1`: the natural `e` with `2^e ≤ n < 2^(e+1)`. -/
def log2 (n : Nat) : Nat := halvings n n

/-- For `x > 0`: the integer `e` with `2^e ≤ x < 2^(e+1)`. -/
def ilog2 (x : ℚ) : Int :=
  let d : Int := (log2 x.num.natAbs : Int) - (log2 x.den : Int)
  if pow2 d ≤ x then d else d - 1

/-- For `x ≥ 0`: the nearest integer, the even one on a tie. -/
def roundEven (x : ℚ) : Int :=
  let n : Int := x.num / (x.den : Int)
  let r : ℚ := x - n
  if r < 1 / 2 then n
  else if 1 / 2 < r then n + 1
  else if n % 2 = 0 then n else n + 1

/-- Rounding of an exact result to binary32: 24 significant bits, least exponent
`-126` (subnormals), overflow to an infinity from `2^128` on. -/
def round (x : ℚ) : F32 :=
  if x = 0 then fin 0
  else
    let a : ℚ := if 0 < x then x else -x
    let e : Int := max (ilog2 a) (-126)
    let u : ℚ := pow2 (e - 23)
    let y : ℚ := (roundEven (a / u) : ℚ) * u
    if pow2 128 ≤ y then (if 0 < x then posInf else negInf)
    else fin (if 0 < x then y else -y)

/-- Conversion `int` to `float`. -/
def ofInt (n : Int) : F32 := round (n : ℚ)

/-- Unary minus. -/
def neg : F32 → F32
  | nan => nan
  | negInf => posInf
  | fin a => fin (-a)
  | posInf => negInf

/-- Operator `+`. -/
def add : F32 → F32 → F32
  | nan, _ => nan
  | _, nan => nan
  | posInf, negInf => nan
  | negInf, posInf => nan
  | posInf, _ => posInf
  | _, posInf => posInf
  | negInf, _ => negInf
  | _, negInf => negInf
  | fin a, fin b => round (a + b)

/-- Operator `-`. -/
def sub (a b : F32) : F32 := add a (neg b)

/-- Operator `*`. -/
def mul : F32 → F32 → F32
  | nan, _ => nan
  | _, nan => nan
  | fin a, fin b => round (a * b)
  | fin a, posInf => if a = 0 then nan else if 0 < a then posInf else negInf
  | fin a, negInf => if a = 0 then nan else if 0 < a then negInf else posInf
  | posInf, fin b => if b = 0 then nan else if 0 < b then posInf else negInf
  | negInf, fin b => if b = 0 then nan else if 0 < b then negInf else posInf
  | posInf, posInf => posInf
  | negInf, negInf => posInf
  | posInf, negInf => negInf
  | negInf, posInf => negInf

/-- Operator `/`. -/
def div : F32 → F32 → F32
  | nan, _ => nan
  | _, nan => nan
  | fin a, fin b =>
    if b = 0 then (if a = 0 then nan else if 0 < a then posInf else negInf)
    else round (a / b)
  | fin _, posInf => fin 0
  | fin _, negInf => fin 0
  | posInf, fin b => if 0 ≤ b then posInf else negInf
  | negInf, fin b => if 0 ≤ b then negInf else posInf
  | posInf, posInf => nan
  | posInf, negInf => nan
  | negInf, posInf => nan
  | negInf, negInf => nan

/-- Comparison `a <= b`, false when an operand is NaN. -/
def le : F32 → F32 → Bool
  | nan, _ => false
  | _, nan => false
  | negInf, _ => true
  | _, posInf => true
  | fin a, fin b => decide (a ≤ b)
  | _, _ => false

/-- Comparison `a < b`, false when an operand is NaN. -/
def lt : F32 → F32 → Bool
  | nan, _ => false
  | _, nan => false
  | posInf, _ => false
  | _, negInf => false
  | fin a, fin b => decide (a < b)
  | _, _ => true

end F32

/-- Result of 32-bit `int` arithmetic: the representative of `x` modulo `2^32`
in `[-2^31, 2^31)`. -/
def i32 (x : Int) : Int := (x + 2147483648) % 4294967296 - 2147483648

namespace Machine

/-- The four buffers a thread writes: `out`, `z`, `v`, `basins`. -/
structure Bufs where
  out : List F32
  z : List F32
  v : List Int
  basins : List Int
deriving DecidableEq

/-- How a thread leaves the defined behaviour: an access outside a buffer, or a
loop that used up its iteration bound. -/
inductive Fault where
  | readF (i : Int)
  | readZ (i : Int)
  | readV (i : Int)
  | writeZ (i : Int)
  | writeV (i : Int)
  | writeOut (i : Int)
  | writeBasins (i : Int)
  | bound
deriving DecidableEq

/-- Read `buf[i]`. -/
def load {α : Type} (e : Int → Fault) (buf : List α) (i : Int) : Except Fault α :=
  if 0 ≤ i then
    match buf[i.toNat]? with
    | some x => Except.ok x
    | none => Except.error (e i)
  else Except.error (e i)

/-- Write `buf[i] = x`. -/
def store {α : Type} (e : Int → Fault) (buf : List α) (i : Int) (x : α) :
    Except Fault (List α) :=
  if 0 ≤ i ∧ i.toNat < buf.length then Except.ok (buf.set i.toNat x)
  else Except.error (e i)

/-- Address `offset + i*dim2` in `int` arithmetic. -/
def addr (offset i dim2 : Int) : Int := i32 (offset + i32 (i * dim2))

/-- Lines 35-39 in binary32. -/
def calcint (q1 q2 : Int) (f1 f2 : F32) : F32 :=
  let q1f : F32 := F32.ofInt q1
  let q2f : F32 := F32.ofInt q2
  F32.div (F32.sub (F32.add f1 (F32.mul q1f q1f)) (F32.add f2 (F32.mul q2f q2f)))
    (F32.sub (F32.mul (F32.ofInt 2) q1f) (F32.mul (F32.ofInt 2) q2f))

/-- Lines 56-59: the first `n` iterations of the initialisation loop. -/
def initLoop (offset1 offset2 dim2 : Int) : Nat → Bufs → Except Fault Bufs
  | 0, b => Except.ok b
  | i1 + 1, b => do
    let b ← initLoop offset1 offset2 dim2 i1 b
    let v ← store Fault.writeV b.v (addr offset1 (i1 : Int) dim2) 0
    let z ← store Fault.writeZ b.z (addr offset2 (i1 : Int) dim2) (F32.fin 0)
    Except.ok { b with v := v, z := z }

/-- The expression of lines 69 and 75. -/
def calcintAt (offset1 dim2 : Int) (f : List F32) (b : Bufs) (q k : Int) :
    Except Fault F32 := do
  let vk ← load Fault.readV b.v (addr offset1 k dim2)
  let fq ← load Fault.readF f (addr offset1 q dim2)
  let fp ← load Fault.readF f (addr offset1 vk dim2)
  Except.ok (calcint q vk fq fp)

/-- Lines 72-77, at most `n` tests of the loop condition.  Every test reads the
boundary cell one stride below the previous one, so with `dim2 ≥ 1` a bound
above the number of cells of `z` is not reached before a read leaves `z`. -/
def popLoop (offset1 offset2 dim2 : Int) (f : List F32) (b : Bufs) (q : Int) :
    Nat → Int → F32 → Except Fault (Int × F32)
  | 0, _, _ => Except.error Fault.bound
  | n + 1, k, s => do
    let zk ← load Fault.readZ b.z (addr offset2 k dim2)
    if F32.le s zk then do
      let k := i32 (k - 1)
      let s ← calcintAt offset1 dim2 f b q k
      popLoop offset1 offset2 dim2 f b q n k s
    else Except.ok (k, s)

/-- Lines 68-81: the body of the envelope loop for candidate `q`. -/
def buildBody (offset1 offset2 dim2 : Int) (f : List F32) (q : Int)
    (st : Bufs × Int) : Except Fault (Bufs × Int) := do
  let b := st.1
  let s ← calcintAt offset1 dim2 f b q st.2
  let (k, s) ← popLoop offset1 offset2 dim2 f b q (b.z.length + 1) st.2 s
  let k := i32 (k + 1)
  let v ← store Fault.writeV b.v (addr offset1 k dim2) q
  let z ← store Fault.writeZ b.z (addr offset2 k dim2) s
  let z ← store Fault.writeZ z (i32 (addr offset2 k dim2 + dim2)) F32.posInf
  Except.ok ({ b with v := v, z := z }, k)

/-- Lines 67-82: the iterations `q = 1, ..., m` of the envelope loop, started
from buffers `b` with `k = 0`. -/
def buildLoop (offset1 offset2 dim2 : Int) (f : List F32) (b : Bufs) :
    Nat → Except Fault (Bufs × Int)
  | 0 => Except.ok (b, 0)
  | m + 1 => do
    let st ← buildLoop offset1 offset2 dim2 f b m
    buildBody offset1 offset2 dim2 f ((m : Int) + 1) st

/-- Lines 87-89, at most `n` tests of the loop condition. -/
def advance (offset2 dim2 : Int) (z : List F32) (q : Int) : Nat → Int → Except Fault Int
  | 0, _ => Except.error Fault.bound
  | n + 1, k => do
    let zk ← load Fault.readZ z (addr offset2 (i32 (k + 1)) dim2)
    if F32.lt zk (F32.ofInt q) then advance offset2 dim2 z q n (i32 (k + 1))
    else Except.ok k

/-- Line 92: `(q-thisv)*(q-thisv) + f[...]`, the product in `int`. -/
def outValue (q thisv : Int) (fp : F32) : F32 :=
  F32.add (F32.ofInt (i32 (i32 (q - thisv) * i32 (q - thisv)))) fp

/-- Lines 87-92: the body of the evaluation loop for position `q`. -/
def evalBody (offset1 offset2 dim2 : Int) (f : List F32) (q : Int)
    (st : Bufs × Int) : Except Fault (Bufs × Int) := do
  let b := st.1
  let k ← advance offset2 dim2 b.z q (b.z.length + 1) st.2
  let thisv ← load Fault.readV b.v (addr offset1 k dim2)
  let basins ← store Fault.writeBasins b.basins (addr offset1 q dim2) thisv
  let fp ← load Fault.readF f (addr offset1 thisv dim2)
  let out ← store Fault.writeOut b.out (addr offset1 q dim2) (outValue q thisv fp)
  Except.ok ({ b with out := out, basins := basins }, k)

/-- Lines 85-93: the iterations `q = 0, ..., m-1` of the evaluation loop. -/
def evalLoop (offset1 offset2 dim2 : Int) (f : List F32) (b : Bufs) :
    Nat → Except Fault (Bufs × Int)
  | 0 => Except.ok (b, 0)
  | m + 1 => do
    let st ← evalLoop offset1 offset2 dim2 f b m
    evalBody offset1 offset2 dim2 f (m : Int) st

/-- Lines 55-65. -/
def initPhase (offset1 offset2 dim1 dim2 : Int) (b : Bufs) : Except Fault Bufs := do
  let b ← initLoop offset1 offset2 dim2 dim1.toNat b
  let z ← store Fault.writeZ b.z (addr offset2 dim1 dim2) (F32.fin 0)
  let z ← store Fault.writeZ z (i32 (offset2 + 0)) (F32.neg F32.posInf)
  let z ← store Fault.writeZ z (i32 (offset2 + dim2)) F32.posInf
  Except.ok { b with z := z }

/-- Lines 55-82: initialisation and the envelope loop `q = 1, ..., dim1-1`. -/
def buildPhase (offset1 offset2 dim1 dim2 : Int) (f : List F32) (b : Bufs) :
    Except Fault (Bufs × Int) := do
  let b ← initPhase offset1 offset2 dim1 dim2 b
  buildLoop offset1 offset2 dim2 f b (dim1.toNat - 1)

/-- Line 52. -/
def offset1 (dim1 dim2 batchdim : Int) : Int :=
  i32 (i32 (i32 (Int.tdiv batchdim dim2 * dim1) * dim2) + Int.tmod batchdim dim2)

/-- Line 53. -/
def offset2 (dim1 dim2 batchdim : Int) : Int :=
  i32 (i32 (i32 (Int.tdiv batchdim dim2 * i32 (dim1 + 1)) * dim2) + Int.tmod batchdim dim2)

/-- Lines 43-94: the thread with global index `batchdim`. -/
def BasinFinderCudaKernel (_dim0 dim1 dim2 : Int) (f : List F32) (batchdim : Int)
    (b : Bufs) : Except Fault Bufs := do
  let st ← buildPhase (offset1 dim1 dim2 batchdim) (offset2 dim1 dim2 batchdim) dim1 dim2 f b
  let st ← evalLoop (offset1 dim1 dim2 batchdim) (offset2 dim1 dim2 batchdim) dim2 f st.1
    dim1.toNat
  Except.ok st.1

/-- Run the threads `ts` one after the other. -/
def runThreads (dim0 dim1 dim2 : Int) (f : List F32) : List Int → Bufs → Except Fault Bufs
  | [], b => Except.ok b
  | t :: ts, b => do
    let b ← BasinFinderCudaKernel dim0 dim1 dim2 f t b
    runThreads dim0 dim1 dim2 f ts b

end Machine

/-- Equality of two results of a thread is decidable. -/
instance decEqExcept {ε α : Type} [DecidableEq ε] [DecidableEq α] : DecidableEq (Except ε α)
  | Except.ok a, Except.ok b =>
    if h : a = b then isTrue (congrArg Except.ok h)
    else isFalse (fun h' => h (Except.ok.inj h'))
  | Except.error a, Except.error b =>
    if h : a = b then isTrue (congrArg Except.error h)
    else isFalse (fun h' => h (Except.error.inj h'))
  | Except.ok _, Except.error _ => isFalse (fun h => Except.noConfusion h)
  | Except.error _, Except.ok _ => isFalse (fun h => Except.noConfusion h)

/-- The rational a finite binary32 value denotes (`0` for the others). -/
def F32.toRat : F32 → ℚ
  | F32.fin x => x
  | _ => 0

namespace Machine

/-- Sample `p` of a row of shape `(1, n, 1)`, as the rational it denotes. -/
def sample (f : List F32) (p : Nat) : ℚ := F32.toRat (f.getD p (F32.fin 0))

/-- Buffers with `n` cells of `out`, `v`, `basins` and `m` cells of `z`, all
zero. -/
def zeros (n m : Nat) : Bufs :=
  ⟨List.replicate n (F32.fin 0), List.replicate m (F32.fin 0), List.replicate n 0,
    List.replicate n 0⟩

/-- The row `[1.7f, 5.4f, 1.7f]`. -/
def rowTie : List F32 := [F32.round (17 / 10), F32.round (54 / 10), F32.round (17 / 10)]

/-- The finite value `3e38f`. -/
def big : F32 := F32.round (3 * 10 ^ 38)

/-- The finite value `-3e38f`. -/
def negBig : F32 := F32.round (-(3 * 10 ^ 38))

/-- Input of shape `(2, 2, 1)`: the rows `[0, 0]` and `[3e38f, -3e38f]`. -/
def pairInput : List F32 := [F32.fin 0, F32.fin 0, big, negBig]

/-- Input of shape `(2, 3, 1)`: the rows `[0, 0, 0]` and `[3e38f, -3e38f, 0]`. -/
def tripleInput : List F32 := [F32.fin 0, F32.fin 0, F32.fin 0, big, negBig, F32.fin 0]

/-- Input of shape `(3, 3, 1)` with the rows `[0, 0, 0]`, `[0, 0, c]` and
`[3e38f, -3e38f, 0]`. -/
def batchInput (c : F32) : List F32 :=
  [F32.fin 0, F32.fin 0, F32.fin 0, F32.fin 0, F32.fin 0, c, big, negBig, F32.fin 0]

end Machine

/-! ## Lemmas -/

theorem Ext.le_fin_negInf (s : ℚ) : Ext.le (Ext.fin s) Ext.negInf = false := rfl

theorem Ext.lt_of_not_le {a b : Ext} (h : Ext.le a b = false) : Ext.lt b a = true := by
  cases a <;> cases b <;> simp_all [Ext.le, Ext.lt]

theorem Ext.lt_chain {a b c : Ext} (h1 : Ext.lt a b = true) (h2 : Ext.lt b c = true) :
    Ext.lt a c = true := by
  cases a <;> cases b <;> cases c <;> simp_all [Ext.le, Ext.lt]
  exact lt_trans h1 h2

theorem lexLe_refl (g : Nat → ℚ) (x : ℚ) (a : Nat) : lexLe g x a a := Or.inr ⟨rfl, le_refl a⟩

theorem lexLe_trans {g : Nat → ℚ} {x : ℚ} {a b c : Nat} (h1 : lexLe g x a b)
    (h2 : lexLe g x b c) : lexLe g x a c := by
  unfold lexLe at *
  rcases h1 with h1 | ⟨h1, h1'⟩ <;> rcases h2 with h2 | ⟨h2, h2'⟩
  · exact Or.inl (lt_trans h1 h2)
  · exact Or.inl (h2 ▸ h1)
  · exact Or.inl (h1 ▸ h2)
  · exact Or.inr ⟨h1.trans h2, le_trans h1' h2'⟩

theorem calcint_lt_iff (g : Nat → ℚ) {p1 p2 : Nat} (h : p1 < p2) (x : ℚ) :
    calcint (p2 : Int) (p1 : Int) (g p2) (g p1) < x ↔ parabola g p2 x < parabola g p1 x := by
  have hd : (0 : ℚ) < 2 * (p2 : ℚ) - 2 * (p1 : ℚ) := by
    have : (p1 : ℚ) < (p2 : ℚ) := by exact_mod_cast h
    linarith
  simp only [calcint, parabola, Int.cast_natCast]
  rw [div_lt_iff₀ hd]
  constructor <;> intro h' <;> nlinarith

theorem calcint_le_iff (g : Nat → ℚ) {p1 p2 : Nat} (h : p1 < p2) (x : ℚ) :
    calcint (p2 : Int) (p1 : Int) (g p2) (g p1) ≤ x ↔ parabola g p2 x ≤ parabola g p1 x := by
  have hd : (0 : ℚ) < 2 * (p2 : ℚ) - 2 * (p1 : ℚ) := by
    have : (p1 : ℚ) < (p2 : ℚ) := by exact_mod_cast h
    linarith
  simp only [calcint, parabola, Int.cast_natCast]
  rw [div_le_iff₀ hd]
  constructor <;> intro h' <;> nlinarith

theorem Ext.not_lt_of_lt_of_not_lt {a b : Ext} {x : ℚ} (h1 : Ext.lt a b = true)
    (h2 : Ext.lt a (Ext.fin x) = false) : Ext.lt b (Ext.fin x) = false := by
  cases a <;> cases b <;> simp_all [Ext.lt]
  exact le_trans h2 (le_of_lt h1)

theorem Chain.restrict {g : Nat → ℚ} {V : Nat → Nat} {Z : Nat → Ext} {k k' : Nat}
    (h : Chain g V Z k) (hk : k' ≤ k) : Chain g V Z k' :=
  ⟨h.v0, h.z0, fun i hi => h.vmono i (by omega), fun i hi => h.zdef i (by omega),
    fun i hi => h.zmono i (by omega)⟩

theorem Chain.v_lt {g : Nat → ℚ} {V : Nat → Nat} {Z : Nat → Ext} {k : Nat}
    (h : Chain g V Z k) : ∀ j, j ≤ k → ∀ i, i < j → V i < V j := by
  intro j
  induction j with
  | zero => intro _ i hi; omega
  | succ j ih =>
    intro hj i hi
    have h1 := h.vmono j (by omega)
    rcases Nat.lt_succ_iff_lt_or_eq.mp hi with h2 | h2
    · exact lt_trans (ih (by omega) i h2) h1
    · subst h2; exact h1

theorem Chain.le_v {g : Nat → ℚ} {V : Nat → Nat} {Z : Nat → Ext} {k : Nat}
    (h : Chain g V Z k) : ∀ j, j ≤ k → j ≤ V j := by
  intro j
  induction j with
  | zero => intro _; omega
  | succ j ih =>
    intro hj
    have h1 := h.vmono j (by omega)
    have h2 := ih (by omega)
    omega

theorem Chain.z_lt {g : Nat → ℚ} {V : Nat → Nat} {Z : Nat → Ext} {k : Nat}
    (h : Chain g V Z k) : ∀ j, j ≤ k → ∀ i, i < j → Ext.lt (Z i) (Z j) = true := by
  intro j
  induction j with
  | zero => intro _ i hi; omega
  | succ j ih =>
    intro hj i hi
    have h1 := h.zmono j (by omega)
    rcases Nat.lt_succ_iff_lt_or_eq.mp hi with h2 | h2
    · exact Ext.lt_chain (ih (by omega) i h2) h1
    · subst h2; exact h1

/-- A vertex whose crossing with the candidate `q` is not to the right of its own
boundary is beaten everywhere, by the vertex below it or by `q`. -/
theorem pop_dominated {g : Nat → ℚ} {V : Nat → Nat} {Z : Nat → Ext} {k q : Nat}
    (h : Chain g V Z (k + 1)) (hq : V (k + 1) < q)
    (hs : Ext.le (Ext.fin (calcint (q : Int) (V (k + 1) : Int) (g q) (g (V (k + 1)))))
      (Z (k + 1)) = true) (x : ℚ) :
    lexLe g x q (V (k + 1)) ∨ lexLe g x (V k) (V (k + 1)) := by
  have hz := h.zdef k (by omega)
  have hv := h.vmono k (by omega)
  rw [hz] at hs
  simp only [Ext.le, decide_eq_true_eq] at hs
  by_cases hx : calcint (V (k + 1) : Int) (V k : Int) (g (V (k + 1))) (g (V k)) < x
  · left
    exact Or.inl ((calcint_lt_iff g hq x).mp (lt_of_le_of_lt hs hx))
  · right
    have h1 : ¬ parabola g (V (k + 1)) x < parabola g (V k) x :=
      fun h' => hx ((calcint_lt_iff g hv x).mpr h')
    rcases lt_or_eq_of_le (not_lt.mp h1) with h2 | h2
    · exact Or.inl h2
    · exact Or.inr ⟨h2, le_of_lt hv⟩

theorem cursor_below {g : Nat → ℚ} {V : Nat → Nat} {Z : Nat → Ext} {k : Nat}
    (h : Chain g V Z k) {x : ℚ} {j : Nat} (hc : CursorAt Z k x j) :
    ∀ d i, i + d = j → parabola g (V j) x ≤ parabola g (V i) x ∧
      (0 < d → parabola g (V j) x < parabola g (V i) x) := by
  intro d
  induction d with
  | zero =>
    intro i hi
    have : i = j := by omega
    subst this
    exact ⟨le_refl _, fun h0 => absurd h0 (lt_irrefl 0)⟩
  | succ d ih =>
    intro i hi
    have h1 := ih (i + 1) (by omega)
    have hz := hc.2.1 (i + 1) (by omega) (by omega)
    rw [h.zdef i (by have := hc.1; omega)] at hz
    simp only [Ext.lt, decide_eq_true_eq] at hz
    have h2 := (calcint_lt_iff g (h.vmono i (by have := hc.1; omega)) x).mp hz
    exact ⟨le_of_lt (lt_of_le_of_lt h1.1 h2), fun _ => lt_of_le_of_lt h1.1 h2⟩

theorem cursor_above {g : Nat → ℚ} {V : Nat → Nat} {Z : Nat → Ext} {k : Nat}
    (h : Chain g V Z k) {x : ℚ} {j : Nat} (hc : CursorAt Z k x j) :
    ∀ d, j + d ≤ k → parabola g (V j) x ≤ parabola g (V (j + d)) x := by
  intro d
  induction d with
  | zero => intro _; exact le_refl _
  | succ d ih =>
    intro hd
    have h1 := ih (by omega)
    have hstop : Ext.lt (Z (j + 1)) (Ext.fin x) = false := hc.2.2 (by omega)
    have hz : Ext.lt (Z (j + d + 1)) (Ext.fin x) = false := by
      rcases Nat.eq_zero_or_pos d with h0 | h0
      · subst h0; exact hstop
      · exact Ext.not_lt_of_lt_of_not_lt (h.z_lt (j + d + 1) (by omega) (j + 1) (by omega)) hstop
    rw [h.zdef (j + d) (by omega)] at hz
    simp only [Ext.lt, decide_eq_false_iff_not] at hz
    have h2 : ¬ parabola g (V (j + d + 1)) x < parabola g (V (j + d)) x :=
      fun h' => hz ((calcint_lt_iff g (h.vmono (j + d) (by omega)) x).mpr h')
    exact le_trans h1 (not_lt.mp h2)

/-- The vertex under the cursor is the best root at `x`: lowest parabola, and the
smallest index among the lowest. -/
theorem cursor_lexmin {g : Nat → ℚ} {V : Nat → Nat} {Z : Nat → Ext} {k n : Nat}
    (h : Envelope g n V Z k) {x : ℚ} {j : Nat} (hc : CursorAt Z k x j) :
    ∀ p, p < n → lexLe g x (V j) p := by
  intro p hp
  obtain ⟨i, hik, hi⟩ := h.cover p hp x
  refine lexLe_trans ?_ hi
  rcases Nat.lt_trichotomy i j with hij | hij | hij
  · exact Or.inl ((cursor_below h.chain hc (j - i) i (by omega)).2 (by omega))
  · subst hij; exact lexLe_refl g x (V i)
  · have h1 := cursor_above h.chain hc (i - j) (by omega)
    have h2 : j + (i - j) = i := by omega
    rw [h2] at h1
    have h3 := h.chain.v_lt i hik j hij
    rcases lt_or_eq_of_le h1 with h4 | h4
    · exact Or.inl h4
    · exact Or.inr ⟨h4, le_of_lt h3⟩

theorem cell_of_lt {off st len i : Nat} (h : i < len) :
    cell off st len i = some (off + i * st) := by
  simp [cell, h]

theorem store_of_lt {α : Type} {buf : List α} {a : Nat} (x : α) (h : a < buf.length) :
    store buf a x = some (buf.set a x) := by
  simp [store, h]

theorem index_natCast (p : Nat) : index (p : Int) = some p := by
  simp [index]

theorem addr_ne {off st i j : Nat} (hst : 1 ≤ st) (h : i ≠ j) : off + i * st ≠ off + j * st := by
  intro h'
  have h2 : i * st = j * st := by omega
  exact h (Nat.eq_of_mul_eq_mul_right (by omega) h2)

theorem SameOff.same_refl {α : Type} (off dim2 len : Nat) (l : List α) : SameOff off dim2 len l l :=
  ⟨rfl, fun _ _ => rfl⟩

theorem SameOff.same_trans {α : Type} {off dim2 len : Nat} {l1 l2 l3 : List α}
    (h1 : SameOff off dim2 len l1 l2) (h2 : SameOff off dim2 len l2 l3) :
    SameOff off dim2 len l1 l3 :=
  ⟨h2.1.trans h1.1, fun a ha => (h2.2 a ha).trans (h1.2 a ha)⟩

theorem SameOff.set {α : Type} {off dim2 len : Nat} (l : List α) {i : Nat} (hi : i < len)
    (x : α) : SameOff off dim2 len l (l.set (off + i * dim2) x) :=
  ⟨List.length_set _ _ _, fun _ ha => List.getElem?_set_ne (Ne.symm (ha i hi))⟩

theorem Frame.frame_refl (off1 off2 dim1 dim2 : Nat) (b : Bufs) : Frame off1 off2 dim1 dim2 b b :=
  ⟨SameOff.same_refl _ _ _ _, SameOff.same_refl _ _ _ _, SameOff.same_refl _ _ _ _, SameOff.same_refl _ _ _ _⟩

theorem Frame.frame_trans {off1 off2 dim1 dim2 : Nat} {b1 b2 b3 : Bufs}
    (h1 : Frame off1 off2 dim1 dim2 b1 b2) (h2 : Frame off1 off2 dim1 dim2 b2 b3) :
    Frame off1 off2 dim1 dim2 b1 b3 :=
  ⟨h1.v.same_trans h2.v, h1.z.same_trans h2.z, h1.out.same_trans h2.out, h1.basins.same_trans h2.basins⟩

theorem Fits.of_frame {off1 off2 dim1 dim2 : Nat} {b b' : Bufs}
    (h : Fits off1 off2 dim1 dim2 b) (hf : Frame off1 off2 dim1 dim2 b b') :
    Fits off1 off2 dim1 dim2 b' :=
  ⟨fun i hi => hf.v.1 ▸ h.v i hi, fun i hi => hf.out.1 ▸ h.out i hi,
    fun i hi => hf.basins.1 ▸ h.basins i hi, fun i hi => hf.z.1 ▸ h.z i hi⟩

theorem initLoop_spec (off1 off2 : Nat) {dim1 dim2 : Nat} (hd2 : 1 ≤ dim2) :
    ∀ (n : Nat) (b : Bufs), n ≤ dim1 → Fits off1 off2 dim1 dim2 b →
      ∃ b', initLoop off1 off2 dim1 dim2 n b = some b' ∧ Frame off1 off2 dim1 dim2 b b' ∧
        b'.out = b.out ∧ b'.basins = b.basins ∧
        (∀ i, i < n → b'.v[off1 + i * dim2]? = some 0) := by
  intro n
  induction n with
  | zero =>
    intro b _ _
    exact ⟨b, rfl, Frame.frame_refl _ _ _ _ b, rfl, rfl, fun i hi => absurd hi (Nat.not_lt_zero i)⟩
  | succ n ih =>
    intro b hn hfit
    obtain ⟨b1, h1, hfr, hout, hbas, hv⟩ := ih b (by omega) hfit
    have hfit1 := hfit.of_frame hfr
    refine ⟨{ b1 with v := b1.v.set (off1 + n * dim2) 0,
                      z := b1.z.set (off2 + n * dim2) (Ext.fin 0) }, ?_, ?_, hout, hbas, ?_⟩
    · simp [initLoop, h1, cell_of_lt (show n < dim1 by omega),
        cell_of_lt (show n < dim1 + 1 by omega), store_of_lt _ (hfit1.v n (by omega)),
        store_of_lt _ (hfit1.z n (by omega))]
    · refine hfr.frame_trans ⟨SameOff.set _ (by omega) _, SameOff.set _ (by omega) _,
        SameOff.same_refl _ _ _ _, SameOff.same_refl _ _ _ _⟩
    · intro i hi
      rcases Nat.lt_succ_iff_lt_or_eq.mp hi with h2 | h2
      · show (b1.v.set (off1 + n * dim2) 0)[off1 + i * dim2]? = some 0
        rw [List.getElem?_set_ne (addr_ne hd2 (by omega))]
        exact hv i h2
      · subst h2
        show (b1.v.set (off1 + i * dim2) 0)[off1 + i * dim2]? = some 0
        exact List.getElem?_set_self (hfit1.v i (by omega))

theorem calcintAt_eq {off1 dim1 dim2 : Nat} {f : List ℚ} {g : Nat → ℚ} {b : Bufs}
    {V : Nat → Nat} {q i : Nat} (hrow : RowOf off1 dim1 dim2 f g)
    (hv : b.v[off1 + i * dim2]? = some (V i : Int)) (hi : i < dim1) (hvi : V i < dim1)
    (hq : q < dim1) :
    calcintAt off1 dim1 dim2 f b q i = some (calcint (q : Int) (V i : Int) (g q) (g (V i))) := by
  simp [calcintAt, cell_of_lt hi, cell_of_lt hq, cell_of_lt hvi, load, hv, hrow q hq,
    hrow (V i) hvi, index_natCast]

/-- The pop loop, started at a top `k` whose vertex is older than `q`, stops at
some `k' ≤ k` without leaving the stack; the vertices it removes are beaten
everywhere by what is kept or by `q`. -/
theorem popLoop_spec {off1 off2 dim1 dim2 : Nat} {f : List ℚ} {g : Nat → ℚ} {b : Bufs}
    {V : Nat → Nat} {Z : Nat → Ext} {q : Nat} (hrow : RowOf off1 dim1 dim2 f g)
    (hq : q < dim1) :
    ∀ k, Chain g V Z k → V k < q →
      (∀ i, i ≤ k → b.v[off1 + i * dim2]? = some (V i : Int)) →
      (∀ i, i ≤ k → b.z[off2 + i * dim2]? = some (Z i)) →
      ∃ k', k' ≤ k ∧
        popLoop off1 off2 dim1 dim2 f b q k (calcint (q : Int) (V k : Int) (g q) (g (V k)))
          = some (k', calcint (q : Int) (V k' : Int) (g q) (g (V k'))) ∧
        Ext.le (Ext.fin (calcint (q : Int) (V k' : Int) (g q) (g (V k')))) (Z k') = false ∧
        ∀ (x : ℚ) (p : Nat), (lexLe g x q p ∨ ∃ i, i ≤ k ∧ lexLe g x (V i) p) →
          (lexLe g x q p ∨ ∃ i, i ≤ k' ∧ lexLe g x (V i) p) := by
  intro k
  induction k with
  | zero =>
    intro hch _ _ hz
    refine ⟨0, le_refl 0, ?_, ?_, fun x p h => h⟩
    · have h0 := hz 0 (le_refl 0)
      rw [hch.z0] at h0
      simp only [Nat.zero_mul, Nat.add_zero] at h0
      simp [popLoop, cell, load, h0, Ext.le]
    · rw [hch.z0]; rfl
  | succ k ih =>
    intro hch hvq hv hz
    have hk1 : k + 1 < dim1 := by
      have := hch.le_v (k + 1) (le_refl _)
      omega
    have hzk := hz (k + 1) (le_refl _)
    cases hle : Ext.le (Ext.fin (calcint (q : Int) (V (k + 1) : Int) (g q) (g (V (k + 1)))))
        (Z (k + 1)) with
    | false =>
      refine ⟨k + 1, le_refl _, ?_, hle, fun x p h => h⟩
      simp [popLoop, cell_of_lt (show k + 1 < dim1 + 1 by omega), load, hzk, hle]
    | true =>
      have hvk : V k < V (k + 1) := hch.vmono k (by omega)
      obtain ⟨k', hk', hpop, hstop, hdom⟩ := ih (hch.restrict (by omega)) (by omega)
        (fun i hi => hv i (by omega)) (fun i hi => hz i (by omega))
      refine ⟨k', by omega, ?_, hstop, ?_⟩
      · have hc := calcintAt_eq (V := V) (q := q) (i := k) hrow (hv k (by omega)) (by omega)
          (by omega) hq
        simp [popLoop, cell_of_lt (show k + 1 < dim1 + 1 by omega), load, hzk, hle, hc, hpop]
      · intro x p h
        apply hdom x p
        rcases h with h | ⟨i, hi, h⟩
        · exact Or.inl h
        · rcases Nat.lt_succ_iff_lt_or_eq.mp (Nat.lt_succ_of_le hi) with h2 | h2
          · exact Or.inr ⟨i, by omega, h⟩
          · subst h2
            rcases pop_dominated hch hvq hle x with h3 | h3
            · exact Or.inl (lexLe_trans h3 h)
            · exact Or.inr ⟨k, le_refl k, lexLe_trans h3 h⟩

/-- One iteration of the envelope loop keeps the envelope invariant, stays in
the row's cells and touches only `v` and `z`. -/
theorem buildBody_spec {off1 off2 dim1 dim2 : Nat} {f : List ℚ} {g : Nat → ℚ} {b : Bufs}
    {V : Nat → Nat} {Z : Nat → Ext} {q k : Nat} (hd2 : 1 ≤ dim2)
    (hrow : RowOf off1 dim1 dim2 f g) (hq : q < dim1) (henv : Envelope g q V Z k)
    (hst : Stored off1 off2 dim2 b V Z k) (hfit : Fits off1 off2 dim1 dim2 b) :
    ∃ b' k' V' Z', buildBody off1 off2 dim1 dim2 f q (b, k) = some (b', k') ∧
      Envelope g (q + 1) V' Z' k' ∧ Stored off1 off2 dim2 b' V' Z' k' ∧
      Frame off1 off2 dim1 dim2 b b' ∧ b'.out = b.out ∧ b'.basins = b.basins := by
  have hch := henv.chain
  have hvq : V k < q := by have := henv.top; omega
  obtain ⟨k', hk', hpop, hstop, hdom⟩ := popLoop_spec (b := b) hrow hq k hch hvq hst.v hst.z
  have hvk' : V k' < q := by
    rcases Nat.lt_or_eq_of_le hk' with h | h
    · exact lt_trans (hch.v_lt k (le_refl k) k' h) hvq
    · rw [h]; exact hvq
  have hk'v : k' ≤ V k' := hch.le_v k' hk'
  have hkd : k < dim1 := by have := hch.le_v k (le_refl k); omega
  have hc := calcintAt_eq (V := V) (q := q) (i := k) hrow (hst.v k (le_refl k)) hkd
    (by omega) hq
  have hb1 : k' + 1 < dim1 := by omega
  have hb2 : k' + 1 + 1 < dim1 + 1 := by omega
  have hne : off2 + (k' + 1) * dim2 ≠ off2 + (k' + 1 + 1) * dim2 := addr_ne hd2 (by omega)
  let s := calcint (q : Int) (V k' : Int) (g q) (g (V k'))
  have hlen1 : off2 + (k' + 1) * dim2 < b.z.length := hfit.z (k' + 1) (by omega)
  have hlen2 : off2 + (k' + 1 + 1) * dim2
      < (b.z.set (off2 + (k' + 1) * dim2) (Ext.fin s)).length := by
    rw [List.length_set]; exact hfit.z (k' + 1 + 1) hb2
  refine ⟨{ b with v := b.v.set (off1 + (k' + 1) * dim2) (q : Int),
                   z := (b.z.set (off2 + (k' + 1) * dim2) (Ext.fin s)).set
                          (off2 + (k' + 1 + 1) * dim2) verybig },
    k' + 1, Function.update V (k' + 1) q, Function.update Z (k' + 1) (Ext.fin s), ?_, ?_, ?_,
    ?_, rfl, rfl⟩
  · simp [buildBody, hc, hpop, cell_of_lt hb1, cell_of_lt (show k' + 1 < dim1 + 1 by omega),
      cell_of_lt hb2, store_of_lt _ (hfit.v (k' + 1) hb1), store_of_lt _ hlen1,
      store_of_lt _ hlen2, s]
  · refine ⟨⟨?_, ?_, ?_, ?_, ?_⟩, ?_, ?_⟩
    · rw [Function.update_noteq (by omega)]; exact hch.v0
    · rw [Function.update_noteq (by omega)]; exact hch.z0
    · intro i hi
      rcases Nat.lt_succ_iff_lt_or_eq.mp hi with h | h
      · rw [Function.update_noteq (by omega), Function.update_noteq (by omega)]
        exact hch.vmono i (by omega)
      · subst h
        rw [Function.update_noteq (by omega), Function.update_same]
        exact hvk'
    · intro i hi
      rcases Nat.lt_succ_iff_lt_or_eq.mp hi with h | h
      · have e1 : Function.update V (k' + 1) q i = V i := Function.update_noteq (by omega) _ _
        have e2 : Function.update V (k' + 1) q (i + 1) = V (i + 1) :=
          Function.update_noteq (by omega) _ _
        have e3 : Function.update Z (k' + 1) (Ext.fin s) (i + 1) = Z (i + 1) :=
          Function.update_noteq (by omega) _ _
        rw [e1, e2, e3]
        exact hch.zdef i (by omega)
      · have e1 : Function.update V (k' + 1) q i = V k' := by
          rw [h]; exact Function.update_noteq (by omega) _ _
        have e2 : Function.update V (k' + 1) q (i + 1) = q := by
          rw [h]; exact Function.update_same _ _ _
        have e3 : Function.update Z (k' + 1) (Ext.fin s) (i + 1) = Ext.fin s := by
          rw [h]; exact Function.update_same _ _ _
        rw [e1, e2, e3]
    · intro i hi
      rcases Nat.lt_succ_iff_lt_or_eq.mp hi with h | h
      · rw [Function.update_noteq (by omega), Function.update_noteq (by omega)]
        exact hch.zmono i (by omega)
      · subst h
        rw [Function.update_noteq (by omega), Function.update_same]
        exact Ext.lt_of_not_le hstop
    · rw [Function.update_same]
    · intro p hp x
      have h1 : lexLe g x q p ∨ ∃ i, i ≤ k ∧ lexLe g x (V i) p := by
        rcases Nat.lt_succ_iff_lt_or_eq.mp hp with h | h
        · exact Or.inr (henv.cover p h x)
        · subst h; exact Or.inl (lexLe_refl g x p)
      rcases hdom x p h1 with h2 | ⟨i, hi, h2⟩
      · exact ⟨k' + 1, le_refl _, by rw [Function.update_same]; exact h2⟩
      · exact ⟨i, by omega, by rw [Function.update_noteq (by omega)]; exact h2⟩
  · refine ⟨?_, ?_, ?_⟩
    · intro i hi
      show (b.v.set (off1 + (k' + 1) * dim2) (q : Int))[off1 + i * dim2]? = _
      rcases Nat.lt_succ_iff_lt_or_eq.mp (Nat.lt_succ_of_le hi) with h | h
      · rw [List.getElem?_set_ne (addr_ne hd2 (by omega)), Function.update_noteq (by omega)]
        exact hst.v i (by omega)
      · subst h
        rw [List.getElem?_set_self (hfit.v (k' + 1) hb1), Function.update_same]
    · intro i hi
      show ((b.z.set (off2 + (k' + 1) * dim2) (Ext.fin s)).set
        (off2 + (k' + 1 + 1) * dim2) verybig)[off2 + i * dim2]? = _
      rw [List.getElem?_set_ne (addr_ne hd2 (by omega))]
      rcases Nat.lt_succ_iff_lt_or_eq.mp (Nat.lt_succ_of_le hi) with h | h
      · rw [List.getElem?_set_ne (addr_ne hd2 (by omega)), Function.update_noteq (by omega)]
        exact hst.z i (by omega)
      · subst h
        rw [List.getElem?_set_self hlen1, Function.update_same]
    · show ((b.z.set (off2 + (k' + 1) * dim2) (Ext.fin s)).set
        (off2 + (k' + 1 + 1) * dim2) verybig)[off2 + (k' + 1 + 1) * dim2]? = _
      rw [List.getElem?_set_self hlen2]; rfl
  · exact ⟨SameOff.set _ hb1 _, (SameOff.set _ (by omega) _).same_trans (SameOff.set _ hb2 _),
      SameOff.same_refl _ _ _ _, SameOff.same_refl _ _ _ _⟩

theorem initPhase_spec {off1 off2 dim1 dim2 : Nat} {b : Bufs} (hd1 : 1 ≤ dim1)
    (hd2 : 1 ≤ dim2) (hfit : Fits off1 off2 dim1 dim2 b) :
    ∃ b', initPhase off1 off2 dim1 dim2 b = some b' ∧
      Stored off1 off2 dim2 b' (fun _ => 0) (fun _ => Ext.negInf) 0 ∧
      Frame off1 off2 dim1 dim2 b b' ∧ b'.out = b.out ∧ b'.basins = b.basins := by
  obtain ⟨b1, h1, hfr, hout, hbas, hv⟩ := initLoop_spec off1 off2 hd2 dim1 b
    (le_refl _) hfit
  have hfit1 := hfit.of_frame hfr
  have l1 : off2 + dim1 * dim2 < b1.z.length := hfit1.z dim1 (by omega)
  have l2 : off2 + 0 * dim2 < (b1.z.set (off2 + dim1 * dim2) (Ext.fin 0)).length := by
    rw [List.length_set]; exact hfit1.z 0 (by omega)
  have l3 : off2 + 1 * dim2 < ((b1.z.set (off2 + dim1 * dim2) (Ext.fin 0)).set
      (off2 + 0 * dim2) (Ext.neg verybig)).length := by
    rw [List.length_set, List.length_set]; exact hfit1.z 1 (by omega)
  refine ⟨{ b1 with z := ((b1.z.set (off2 + dim1 * dim2) (Ext.fin 0)).set
      (off2 + 0 * dim2) (Ext.neg verybig)).set (off2 + 1 * dim2) verybig }, ?_, ?_, ?_,
      hout, hbas⟩
  · simp only [initPhase, h1, cell_of_lt (show dim1 < dim1 + 1 by omega),
      cell_of_lt (show 0 < dim1 + 1 by omega), cell_of_lt (show 1 < dim1 + 1 by omega),
      store_of_lt _ l1, store_of_lt _ l2, store_of_lt _ l3, Option.bind_eq_bind,
      Option.some_bind]
  · refine ⟨?_, ?_, ?_⟩
    · intro i hi
      have : i = 0 := by omega
      subst this
      simpa using hv 0 (by omega)
    · intro i hi
      have : i = 0 := by omega
      subst this
      show (((b1.z.set (off2 + dim1 * dim2) (Ext.fin 0)).set
        (off2 + 0 * dim2) (Ext.neg verybig)).set (off2 + 1 * dim2) verybig)[off2 + 0 * dim2]? = _
      rw [List.getElem?_set_ne (addr_ne hd2 (by omega)), List.getElem?_set_self l2]
      rfl
    · show (((b1.z.set (off2 + dim1 * dim2) (Ext.fin 0)).set
        (off2 + 0 * dim2) (Ext.neg verybig)).set (off2 + 1 * dim2) verybig)[off2 + (0 + 1) * dim2]? = _
      rw [Nat.zero_add, List.getElem?_set_self l3]
      rfl
  · refine hfr.frame_trans ⟨SameOff.same_refl _ _ _ _, ?_, SameOff.same_refl _ _ _ _, SameOff.same_refl _ _ _ _⟩
    exact ((SameOff.set _ (show dim1 < dim1 + 1 by omega) _).same_trans
      (SameOff.set _ (show 0 < dim1 + 1 by omega) _)).same_trans
      (SameOff.set _ (show 1 < dim1 + 1 by omega) _)

theorem envelope_init (g : Nat → ℚ) : Envelope g 1 (fun _ => 0) (fun _ => Ext.negInf) 0 := by
  refine ⟨⟨rfl, rfl, fun i hi => absurd hi (Nat.not_lt_zero i),
    fun i hi => absurd hi (Nat.not_lt_zero i), fun i hi => absurd hi (Nat.not_lt_zero i)⟩,
    rfl, ?_⟩
  intro p hp x
  have : p = 0 := by omega
  subst this
  exact ⟨0, le_refl 0, lexLe_refl g x 0⟩

/-- After the candidates `1..m` the scratch cells hold the envelope of the
samples `0..m`. -/
theorem buildLoop_spec {off1 off2 dim1 dim2 : Nat} {f : List ℚ} {g : Nat → ℚ} {b : Bufs}
    (hd2 : 1 ≤ dim2) (hrow : RowOf off1 dim1 dim2 f g)
    (hst : Stored off1 off2 dim2 b (fun _ => 0) (fun _ => Ext.negInf) 0)
    (hfit : Fits off1 off2 dim1 dim2 b) :
    ∀ m, m < dim1 → ∃ b' k V Z, buildLoop off1 off2 dim1 dim2 f b m = some (b', k) ∧
      Envelope g (m + 1) V Z k ∧ Stored off1 off2 dim2 b' V Z k ∧
      Frame off1 off2 dim1 dim2 b b' ∧ b'.out = b.out ∧ b'.basins = b.basins := by
  intro m
  induction m with
  | zero =>
    intro _
    exact ⟨b, 0, _, _, rfl, envelope_init g, hst, Frame.frame_refl _ _ _ _ b, rfl, rfl⟩
  | succ m ih =>
    intro hm
    obtain ⟨b1, k1, V1, Z1, h1, henv, hst1, hfr, hout, hbas⟩ := ih (by omega)
    obtain ⟨b2, k2, V2, Z2, h2, henv2, hst2, hfr2, hout2, hbas2⟩ :=
      buildBody_spec hd2 hrow hm henv hst1 (hfit.of_frame hfr)
    refine ⟨b2, k2, V2, Z2, ?_, henv2, hst2, hfr.frame_trans hfr2, hout2.trans hout,
      hbas2.trans hbas⟩
    simp [buildLoop, h1, h2]

theorem sweep_spec {off1 off2 dim1 dim2 : Nat} {f : List ℚ} {g : Nat → ℚ} {b : Bufs}
    (hd2 : 1 ≤ dim2) (hrow : RowOf off1 dim1 dim2 f g)
    (hfit : Fits off1 off2 dim1 dim2 b) (m : Nat) (hm : m < dim1) :
    ∃ b' k V Z, sweep off1 off2 dim1 dim2 f b m = some (b', k) ∧
      Envelope g (m + 1) V Z k ∧ Stored off1 off2 dim2 b' V Z k ∧
      Frame off1 off2 dim1 dim2 b b' ∧ b'.out = b.out ∧ b'.basins = b.basins := by
  obtain ⟨b0, h0, hst0, hfr0, hout0, hbas0⟩ := initPhase_spec (by omega) hd2 hfit
  obtain ⟨b1, k, V, Z, h1, henv, hst, hfr, hout, hbas⟩ :=
    buildLoop_spec hd2 hrow hst0 (hfit.of_frame hfr0) m hm
  refine ⟨b1, k, V, Z, ?_, henv, hst, hfr0.frame_trans hfr, hout.trans hout0, hbas.trans hbas0⟩
  simp [sweep, h0, h1]

theorem Ext.lt_fin_mono {a : Ext} {x y : ℚ} (h : Ext.lt a (Ext.fin x) = true) (hxy : x ≤ y) :
    Ext.lt a (Ext.fin y) = true := by
  cases a <;> simp_all [Ext.lt]
  exact lt_of_lt_of_le h hxy

/-- The cursor scan stops inside the stack, at the segment that contains `q`. -/
theorem advance_spec {off1 off2 dim1 dim2 : Nat} {b : Bufs} {V : Nat → Nat} {Z : Nat → Ext}
    {k q : Nat} (hst : Stored off1 off2 dim2 b V Z k) (hk : k < dim1) :
    ∀ fuel j, j ≤ k → k - j < fuel →
      (∀ i, 1 ≤ i → i ≤ j → Ext.lt (Z i) (Ext.fin (q : ℚ)) = true) →
      ∃ j', j ≤ j' ∧ advance off2 dim1 dim2 b.z q fuel j = some j' ∧
        CursorAt Z k (q : ℚ) j' := by
  intro fuel
  induction fuel with
  | zero => intro j _ h; omega
  | succ fuel ih =>
    intro j hj hfuel hpass
    rcases Nat.lt_or_eq_of_le hj with hlt | heq
    · have hz := hst.z (j + 1) (by omega)
      cases hc : Ext.lt (Z (j + 1)) (Ext.fin (q : ℚ)) with
      | true =>
        obtain ⟨j', hj', hadv, hcur⟩ := ih (j + 1) (by omega) (by omega) (by
          intro i h1 h2
          rcases Nat.lt_succ_iff_lt_or_eq.mp (Nat.lt_succ_of_le h2) with h3 | h3
          · exact hpass i h1 (by omega)
          · rw [h3]; exact hc)
        refine ⟨j', by omega, ?_, hcur⟩
        simp [advance, cell_of_lt (show j + 1 < dim1 + 1 by omega), load, hz, hc, hadv]
      | false =>
        refine ⟨j, le_refl j, ?_, hj, hpass, fun _ => hc⟩
        simp [advance, cell_of_lt (show j + 1 < dim1 + 1 by omega), load, hz, hc]
    · subst heq
      refine ⟨j, le_refl j, ?_, le_refl j, hpass, fun h => absurd h (lt_irrefl j)⟩
      simp [advance, cell_of_lt (show j + 1 < dim1 + 1 by omega), load, hst.sentinel, Ext.lt]

/-- One iteration of the evaluation loop writes, at position `q`, the vertex
under the cursor and the value of its parabola, and nothing else. -/
theorem evalBody_spec {off1 off2 dim1 dim2 : Nat} {f : List ℚ} {g : Nat → ℚ} {b : Bufs}
    {V : Nat → Nat} {Z : Nat → Ext} {k q j : Nat}
    (hrow : RowOf off1 dim1 dim2 f g) (hq : q < dim1) (henv : Envelope g dim1 V Z k)
    (hst : Stored off1 off2 dim2 b V Z k) (hfit : Fits off1 off2 dim1 dim2 b) (hj : j ≤ k)
    (hpass : ∀ i, 1 ≤ i → i ≤ j → Ext.lt (Z i) (Ext.fin (q : ℚ)) = true) :
    ∃ j', j ≤ j' ∧ CursorAt Z k (q : ℚ) j' ∧
      evalBody off1 off2 dim1 dim2 f q (b, j)
        = some ({ b with out := b.out.set (off1 + q * dim2) (parabola g (V j') q),
                         basins := b.basins.set (off1 + q * dim2) (V j' : Int) }, j') := by
  have hch := henv.chain
  have hkd : k < dim1 := by have := hch.le_v k (le_refl k); have := henv.top; omega
  obtain ⟨j', hjj', hadv, hcur⟩ := advance_spec (q := q) hst hkd (dim1 + 1) j hj (by omega) hpass
  have hj'k : j' ≤ k := hcur.1
  have hvj' : V j' < dim1 := by
    have := henv.top
    rcases Nat.lt_or_eq_of_le hj'k with h | h
    · have := hch.v_lt k (le_refl k) j' h; omega
    · rw [h]; omega
  have hval : ((((q : Int) - (V j' : Int)) * ((q : Int) - (V j' : Int)) : Int) : ℚ) + g (V j')
      = parabola g (V j') q := by
    simp only [parabola]; push_cast; ring
  refine ⟨j', hjj', hcur, ?_⟩
  simp only [evalBody, hadv, cell_of_lt (show j' < dim1 by omega), load, hst.v j' hj'k,
    cell_of_lt hq, store_of_lt _ (hfit.basins q hq), index_natCast, cell_of_lt hvj',
    hrow (V j') hvj', store_of_lt _ (hfit.out q hq), Option.bind_eq_bind, Option.some_bind,
    hval]

theorem evalLoop_spec {off1 off2 dim1 dim2 : Nat} {f : List ℚ} {g : Nat → ℚ} {b : Bufs}
    {V : Nat → Nat} {Z : Nat → Ext} {k : Nat} (hd2 : 1 ≤ dim2)
    (hrow : RowOf off1 dim1 dim2 f g) (henv : Envelope g dim1 V Z k)
    (hst : Stored off1 off2 dim2 b V Z k) (hfit : Fits off1 off2 dim1 dim2 b) :
    ∀ m, m ≤ dim1 → ∃ b' j, evalLoop off1 off2 dim1 dim2 f b m = some (b', j) ∧
      b'.v = b.v ∧ b'.z = b.z ∧ SameOff off1 dim2 dim1 b.out b'.out ∧
      SameOff off1 dim2 dim1 b.basins b'.basins ∧ j ≤ k ∧
      (∀ i, 1 ≤ i → i ≤ j → Ext.lt (Z i) (Ext.fin (m : ℚ)) = true) ∧
      ∀ q, q < m → Written off1 dim2 g V Z k b' q := by
  intro m
  induction m with
  | zero =>
    intro _
    exact ⟨b, 0, rfl, rfl, rfl, SameOff.same_refl _ _ _ _, SameOff.same_refl _ _ _ _, Nat.zero_le k,
      fun i h1 h2 => by omega, fun q hq => absurd hq (Nat.not_lt_zero q)⟩
  | succ m ih =>
    intro hm
    obtain ⟨b1, j1, h1, hv1, hz1, hout1, hbas1, hj1, hpass1, hw1⟩ := ih (by omega)
    have hst1 : Stored off1 off2 dim2 b1 V Z k :=
      ⟨by rw [hv1]; exact hst.v, by rw [hz1]; exact hst.z, by rw [hz1]; exact hst.sentinel⟩
    have hfit1 : Fits off1 off2 dim1 dim2 b1 :=
      ⟨by rw [hv1]; exact hfit.v, by rw [hout1.1]; exact hfit.out,
        by rw [hbas1.1]; exact hfit.basins, by rw [hz1]; exact hfit.z⟩
    obtain ⟨j2, hj12, hcur, h2⟩ := evalBody_spec hrow (show m < dim1 by omega) henv hst1 hfit1
      hj1 hpass1
    refine ⟨{ b1 with out := b1.out.set (off1 + m * dim2) (parabola g (V j2) m),
                      basins := b1.basins.set (off1 + m * dim2) (V j2 : Int) },
      j2, by simp [evalLoop, h1, h2], hv1, hz1,
      hout1.same_trans (SameOff.set _ (show m < dim1 by omega) _),
      hbas1.same_trans (SameOff.set _ (show m < dim1 by omega) _), hcur.1, ?_, ?_⟩
    · intro i hi1 hi2
      refine Ext.lt_fin_mono (hcur.2.1 i hi1 hi2) ?_
      push_cast; linarith
    · intro q hq
      rcases Nat.lt_succ_iff_lt_or_eq.mp hq with h | h
      · obtain ⟨j, hc, ho, hb⟩ := hw1 q h
        refine ⟨j, hc, ?_, ?_⟩
        · show (b1.out.set (off1 + m * dim2) _)[off1 + q * dim2]? = _
          rw [List.getElem?_set_ne (addr_ne hd2 (by omega))]; exact ho
        · show (b1.basins.set (off1 + m * dim2) _)[off1 + q * dim2]? = _
          rw [List.getElem?_set_ne (addr_ne hd2 (by omega))]; exact hb
      · subst h
        refine ⟨j2, hcur, ?_, ?_⟩
        · show (b1.out.set (off1 + q * dim2) _)[off1 + q * dim2]? = _
          exact List.getElem?_set_self (hfit1.out q (by omega))
        · show (b1.basins.set (off1 + q * dim2) _)[off1 + q * dim2]? = _
          exact List.getElem?_set_self (hfit1.basins q (by omega))

/-- The whole thread: the envelope phase succeeds and leaves the envelope of
the row in the scratch cells, the evaluation phase succeeds, leaves the scratch
cells alone and writes every position of the row. -/
theorem threadBody_spec {off1 off2 dim1 dim2 : Nat} {f : List ℚ} {g : Nat → ℚ} {b : Bufs}
    (hd1 : 1 ≤ dim1) (hd2 : 1 ≤ dim2) (hrow : RowOf off1 dim1 dim2 f g)
    (hfit : Fits off1 off2 dim1 dim2 b) :
    ∃ bb k V Z b' j, ThreadRun off1 off2 dim1 dim2 f g b bb k V Z b' j := by
  obtain ⟨bb, k, V, Z, hb, henv, hst, hfr, hout, hbas⟩ :=
    sweep_spec hd2 hrow hfit (dim1 - 1) (by omega)
  have hd : dim1 - 1 + 1 = dim1 := by omega
  rw [hd] at henv
  obtain ⟨b', j, he, hv, hz, hso, hsb, _, _, hw⟩ :=
    evalLoop_spec hd2 hrow henv hst (hfit.of_frame hfr) dim1 (le_refl _)
  have hb' : buildPhase off1 off2 dim1 dim2 f b = some (bb, k) := hb
  exact ⟨bb, k, V, Z, b', j, hb', henv, hst, he, by simp [threadBody, hb', he], hv, hz,
    hfit.of_frame hfr,
    ⟨by rw [hv]; exact hfr.v, by rw [hz]; exact hfr.z, hfr.out.same_trans hso,
      hfr.basins.same_trans hsb⟩, hw⟩

theorem row_addr_lt {dim0 dim2 batchdim : Nat} (n : Nat) (hb : batchdim < dim0 * dim2)
    {i : Nat} (hi : i < n) :
    (batchdim / dim2) * n * dim2 + batchdim % dim2 + i * dim2 < dim0 * n * dim2 := by
  have hd2 : 0 < dim2 := by
    rcases Nat.eq_zero_or_pos dim2 with h | h
    · subst h; simp at hb
    · exact h
  have h0 : batchdim / dim2 < dim0 := Nat.div_lt_of_lt_mul (by rw [Nat.mul_comm]; exact hb)
  have h2 : batchdim % dim2 < dim2 := Nat.mod_lt _ hd2
  have h3 : (batchdim / dim2) * n + (i + 1) ≤ dim0 * n := by
    calc (batchdim / dim2) * n + (i + 1) ≤ (batchdim / dim2) * n + n := by omega
      _ = (batchdim / dim2 + 1) * n := by ring
      _ ≤ dim0 * n := Nat.mul_le_mul_right n h0
  have h4 := Nat.mul_le_mul_right dim2 h3
  have h5 : ((batchdim / dim2) * n + (i + 1)) * dim2
      = (batchdim / dim2) * n * dim2 + i * dim2 + dim2 := by ring
  omega

theorem fits_of_sized {dim0 dim1 dim2 batchdim : Nat} {f : List ℚ} {b : Bufs}
    (hb : batchdim < dim0 * dim2) (hs : Sized dim0 dim1 dim2 f b) :
    Fits (offset1 dim1 dim2 batchdim) (offset2 dim1 dim2 batchdim) dim1 dim2 b :=
  ⟨fun i hi => by rw [hs.v]; exact row_addr_lt dim1 hb hi,
    fun i hi => by rw [hs.out]; exact row_addr_lt dim1 hb hi,
    fun i hi => by rw [hs.basins]; exact row_addr_lt dim1 hb hi,
    fun i hi => by rw [hs.z]; exact row_addr_lt (dim1 + 1) hb hi⟩

theorem rowOf_spec {dim0 dim1 dim2 batchdim : Nat} {f : List ℚ}
    (hb : batchdim < dim0 * dim2) (hf : f.length = dim0 * dim1 * dim2) :
    RowOf (offset1 dim1 dim2 batchdim) dim1 dim2 f (rowOf dim1 dim2 f batchdim) := by
  intro p hp
  have h : offset1 dim1 dim2 batchdim + p * dim2 < f.length := by
    rw [hf]; exact row_addr_lt dim1 hb hp
  simp [rowOf, List.getElem?_eq_getElem h]

theorem dim2_pos {dim0 dim2 batchdim : Nat} (hb : batchdim < dim0 * dim2) : 1 ≤ dim2 := by
  rcases Nat.eq_zero_or_pos dim2 with h | h
  · subst h; simp at hb
  · exact h

/-- The kernel thread of an existing row, on buffers of the contract sizes:
`threadBody_spec` at the thread's offsets. -/
theorem kernel_spec {dim0 dim1 dim2 batchdim : Nat} {f : List ℚ} {b : Bufs}
    (hd1 : 1 ≤ dim1) (hb : batchdim < dim0 * dim2) (hs : Sized dim0 dim1 dim2 f b) :
    ∃ bb k V Z b' j,
      ThreadRun (offset1 dim1 dim2 batchdim) (offset2 dim1 dim2 batchdim) dim1 dim2 f
        (rowOf dim1 dim2 f batchdim) b bb k V Z b' j ∧
      BasinFinderCudaKernel dim0 dim1 dim2 f batchdim b = some b' := by
  obtain ⟨bb, k, V, Z, b', j, h⟩ :=
    threadBody_spec hd1 (dim2_pos hb) (rowOf_spec hb hs.f) (fits_of_sized hb hs)
  exact ⟨bb, k, V, Z, b', j, h, h.thread⟩

theorem cursor_unique {Z : Nat → Ext} {k : Nat} {x : ℚ} {j j' : Nat}
    (h : CursorAt Z k x j) (h' : CursorAt Z k x j') : j = j' := by
  rcases Nat.lt_trichotomy j j' with hlt | heq | hgt
  · have h1 := h.2.2 (by have := h'.1; omega)
    have h2 := h'.2.1 (j + 1) (by omega) (by omega)
    rw [h1] at h2; cases h2
  · exact heq
  · have h1 := h'.2.2 (by have := h.1; omega)
    have h2 := h.2.1 (j' + 1) (by omega) (by omega)
    rw [h1] at h2; cases h2

theorem Envelope.v_lt_top {g : Nat → ℚ} {n : Nat} {V : Nat → Nat} {Z : Nat → Ext} {k : Nat}
    (h : Envelope g n V Z k) {j : Nat} (hj : j ≤ k) : V j < n := by
  have := h.top
  rcases Nat.lt_or_eq_of_le hj with h1 | h1
  · have := h.chain.v_lt k (le_refl k) j h1; omega
  · rw [h1]; omega

/-- What the kernel leaves at position `q` of a row: the least parabola value
and the smallest root that attains it. -/
theorem written_lexmin {off1 dim2 n : Nat} {g : Nat → ℚ} {V : Nat → Nat} {Z : Nat → Ext}
    {k : Nat} {b : Bufs} {q : Nat} (henv : Envelope g n V Z k)
    (hw : Written off1 dim2 g V Z k b q) :
    ∃ p, p < n ∧ b.out[off1 + q * dim2]? = some (parabola g p q) ∧
      b.basins[off1 + q * dim2]? = some (p : Int) ∧
      (∀ p', p' < n → parabola g p q ≤ parabola g p' q) ∧
      (∀ p', p' < n → parabola g p' q = parabola g p q → p ≤ p') := by
  obtain ⟨j, hc, ho, hb⟩ := hw
  refine ⟨V j, henv.v_lt_top hc.1, ho, hb, ?_, ?_⟩
  · intro p' hp'
    rcases cursor_lexmin henv hc p' hp' with h | ⟨h, _⟩
    · exact le_of_lt h
    · exact le_of_eq h
  · intro p' hp' heq
    rcases cursor_lexmin henv hc p' hp' with h | ⟨_, h⟩
    · rw [heq] at h; exact absurd h (lt_irrefl _)
    · exact h

theorem parabola_congr {g g' : Nat → ℚ} {p : Nat} (h : g p = g' p) (x : ℚ) :
    parabola g p x = parabola g' p x := by
  simp [parabola, h]

/-- Two runs over rows with the same samples leave the same value and basin at
every position. -/
theorem lexmin_unique {n : Nat} {g g' : Nat → ℚ} (hg : ∀ p, p < n → g p = g' p) {x : ℚ}
    {p p' : Nat} (hp : p < n) (hp' : p' < n)
    (h1 : ∀ r, r < n → parabola g p x ≤ parabola g r x)
    (h2 : ∀ r, r < n → parabola g r x = parabola g p x → p ≤ r)
    (h1' : ∀ r, r < n → parabola g' p' x ≤ parabola g' r x)
    (h2' : ∀ r, r < n → parabola g' r x = parabola g' p' x → p' ≤ r) : p = p' := by
  have e1 : parabola g p x ≤ parabola g p' x := h1 p' hp'
  have e2 : parabola g' p' x ≤ parabola g' p x := h1' p hp
  rw [← parabola_congr (hg p hp) x, ← parabola_congr (hg p' hp') x] at e2
  have e3 : parabola g p' x = parabola g p x := le_antisymm e2 e1
  have e4 := h2 p' hp' e3
  have e5 : parabola g' p x = parabola g' p' x := by
    rw [← parabola_congr (hg p hp) x, ← parabola_congr (hg p' hp') x]; exact e3.symm
  have e6 := h2' p hp e5
  omega

/-- C1 (exactness).  For every thread of an existing row, on buffers of the
contract sizes and with `dim1 ≥ 1`, the kernel returns, and the value it leaves
in `out` at position `q` of the row is the minimum over the samples `p` of the
row of `(q-p)^2 + f[p]`: it is attained by some `p` and is below every other. -/
theorem exactness (dim0 dim1 dim2 batchdim : Nat) (f : List ℚ) (b : Bufs)
    (hd1 : 1 ≤ dim1) (hb : batchdim < dim0 * dim2) (hs : Sized dim0 dim1 dim2 f b) :
    ∃ b', BasinFinderCudaKernel dim0 dim1 dim2 f batchdim b = some b' ∧
      ∀ q, q < dim1 → ∃ y, b'.out[offset1 dim1 dim2 batchdim + q * dim2]? = some y ∧
        (∃ p, p < dim1 ∧ y = ((q : ℚ) - p) * ((q : ℚ) - p) + rowOf dim1 dim2 f batchdim p) ∧
        ∀ p, p < dim1 → y ≤ ((q : ℚ) - p) * ((q : ℚ) - p) + rowOf dim1 dim2 f batchdim p := by
  obtain ⟨bb, k, V, Z, b', j, hrun, hker⟩ := kernel_spec hd1 hb hs
  refine ⟨b', hker, fun q hq => ?_⟩
  obtain ⟨p, hp, ho, _, hmin, _⟩ := written_lexmin hrun.env (hrun.written q hq)
  exact ⟨_, ho, ⟨p, hp, rfl⟩, hmin⟩

/-- Witness for C1: the row `f = [5, 0, 5]`. -/
theorem exactness_witness :
    (1 ≤ 3 ∧ 0 < 1 * 1 ∧ Sized 1 3 1 [5, 0, 5] scratch3) ∧
    ∃ b', BasinFinderCudaKernel 1 3 1 [5, 0, 5] 0 scratch3 = some b' ∧
      ∀ q, q < 3 → ∃ y, b'.out[offset1 3 1 0 + q * 1]? = some y ∧
        (∃ p, p < 3 ∧ y = ((q : ℚ) - p) * ((q : ℚ) - p) + rowOf 3 1 [5, 0, 5] 0 p) ∧
        ∀ p, p < 3 → y ≤ ((q : ℚ) - p) * ((q : ℚ) - p) + rowOf 3 1 [5, 0, 5] 0 p :=
  ⟨⟨by decide, by decide, ⟨rfl, rfl, rfl, rfl, rfl⟩⟩,
    exactness 1 3 1 0 [5, 0, 5] scratch3 (by decide) (by decide) ⟨rfl, rfl, rfl, rfl, rfl⟩⟩

/-- C2 (amended: the arithmetic read as exact, rationals with the two infinite
sentinels).  For every thread of an existing row the kernel returns, and `basins` at position `q` of the row holds an index `p` with
`0 ≤ p < dim1` whose parabola is the lowest at `q` and which is the smallest
such index. -/
theorem basins_smallest_argmin (dim0 dim1 dim2 batchdim : Nat) (f : List ℚ) (b : Bufs)
    (hd1 : 1 ≤ dim1) (hb : batchdim < dim0 * dim2) (hs : Sized dim0 dim1 dim2 f b) :
    ∃ b', BasinFinderCudaKernel dim0 dim1 dim2 f batchdim b = some b' ∧
      ∀ q, q < dim1 → ∃ p : Nat,
        b'.basins[offset1 dim1 dim2 batchdim + q * dim2]? = some (p : Int) ∧ p < dim1 ∧
        (∀ r, r < dim1 →
          ((q : ℚ) - p) * ((q : ℚ) - p) + rowOf dim1 dim2 f batchdim p
            ≤ ((q : ℚ) - r) * ((q : ℚ) - r) + rowOf dim1 dim2 f batchdim r) ∧
        (∀ r, r < dim1 →
          ((q : ℚ) - r) * ((q : ℚ) - r) + rowOf dim1 dim2 f batchdim r
            = ((q : ℚ) - p) * ((q : ℚ) - p) + rowOf dim1 dim2 f batchdim p → p ≤ r) := by
  obtain ⟨bb, k, V, Z, b', j, hrun, hker⟩ := kernel_spec hd1 hb hs
  refine ⟨b', hker, fun q hq => ?_⟩
  obtain ⟨p, hp, _, hbas, hmin, hsm⟩ := written_lexmin hrun.env (hrun.written q hq)
  exact ⟨p, hbas, hp, hmin, hsm⟩

/-- Witness for the amended C2: the row `f = [0, 5, 0]`, where the roots `0` and `2` tie at
position `1`. -/
theorem basins_smallest_argmin_witness :
    (1 ≤ 3 ∧ 0 < 1 * 1 ∧ Sized 1 3 1 [0, 5, 0] scratch3) ∧
    ∃ b', BasinFinderCudaKernel 1 3 1 [0, 5, 0] 0 scratch3 = some b' ∧
      ∀ q, q < 3 → ∃ p : Nat,
        b'.basins[offset1 3 1 0 + q * 1]? = some (p : Int) ∧ p < 3 ∧
        (∀ r, r < 3 →
          ((q : ℚ) - p) * ((q : ℚ) - p) + rowOf 3 1 [0, 5, 0] 0 p
            ≤ ((q : ℚ) - r) * ((q : ℚ) - r) + rowOf 3 1 [0, 5, 0] 0 r) ∧
        (∀ r, r < 3 →
          ((q : ℚ) - r) * ((q : ℚ) - r) + rowOf 3 1 [0, 5, 0] 0 r
            = ((q : ℚ) - p) * ((q : ℚ) - p) + rowOf 3 1 [0, 5, 0] 0 p → p ≤ r) :=
  ⟨⟨by decide, by decide, ⟨rfl, rfl, rfl, rfl, rfl⟩⟩,
    basins_smallest_argmin 1 3 1 0 [0, 5, 0] scratch3 (by decide) (by decide)
      ⟨rfl, rfl, rfl, rfl, rfl⟩⟩

theorem eval_050_init :
    initPhase 0 0 3 1 scratch3
      = some ⟨[0, 0, 0], [Ext.negInf, Ext.posInf, Ext.fin 0, Ext.fin 0], [0, 0, 0], [0, 0, 0]⟩ := by
  simp [initPhase, initLoop, cell, store, scratch3, verybig, Ext.neg]

theorem eval_050_build1 :
    buildLoop 0 0 3 1 [0, 5, 0]
        ⟨[0, 0, 0], [Ext.negInf, Ext.posInf, Ext.fin 0, Ext.fin 0], [0, 0, 0], [0, 0, 0]⟩ 1
      = some (⟨[0, 0, 0], [Ext.negInf, Ext.fin 3, Ext.posInf, Ext.fin 0], [0, 1, 0], [0, 0, 0]⟩,
          1) := by
  norm_num [buildLoop, buildBody, popLoop, calcintAt, calcint, cell, load, store, index,
    verybig, Ext.le]

theorem eval_050_build2 :
    buildLoop 0 0 3 1 [0, 5, 0]
        ⟨[0, 0, 0], [Ext.negInf, Ext.posInf, Ext.fin 0, Ext.fin 0], [0, 0, 0], [0, 0, 0]⟩ 2
      = some (⟨[0, 0, 0], [Ext.negInf, Ext.fin 1, Ext.posInf, Ext.fin 0], [0, 2, 0], [0, 0, 0]⟩,
          1) := by
  rw [buildLoop, eval_050_build1]
  norm_num [buildBody, popLoop, calcintAt, calcint, cell, load, store, index,
    verybig, Ext.le]

theorem eval_050_buildPhase :
    buildPhase 0 0 3 1 [0, 5, 0] scratch3
      = some (⟨[0, 0, 0], [Ext.negInf, Ext.fin 1, Ext.posInf, Ext.fin 0], [0, 2, 0], [0, 0, 0]⟩,
          1) := by
  simp only [buildPhase, sweep, eval_050_init, Option.bind_eq_bind, Option.some_bind]
  exact eval_050_build2

theorem eval_050_eval1 :
    evalLoop 0 0 3 1 [0, 5, 0]
        ⟨[0, 0, 0], [Ext.negInf, Ext.fin 1, Ext.posInf, Ext.fin 0], [0, 2, 0], [0, 0, 0]⟩ 1
      = some (⟨[0, 0, 0], [Ext.negInf, Ext.fin 1, Ext.posInf, Ext.fin 0], [0, 2, 0], [0, 0, 0]⟩,
          0) := by
  norm_num [evalLoop, evalBody, advance, cell, load, store, index, Ext.lt]

theorem eval_050_eval2 :
    evalLoop 0 0 3 1 [0, 5, 0]
        ⟨[0, 0, 0], [Ext.negInf, Ext.fin 1, Ext.posInf, Ext.fin 0], [0, 2, 0], [0, 0, 0]⟩ 2
      = some (⟨[0, 1, 0], [Ext.negInf, Ext.fin 1, Ext.posInf, Ext.fin 0], [0, 2, 0], [0, 0, 0]⟩,
          0) := by
  rw [evalLoop, eval_050_eval1]
  norm_num [evalBody, advance, cell, load, store, index, Ext.lt]

theorem eval_050_eval3 :
    evalLoop 0 0 3 1 [0, 5, 0]
        ⟨[0, 0, 0], [Ext.negInf, Ext.fin 1, Ext.posInf, Ext.fin 0], [0, 2, 0], [0, 0, 0]⟩ 3
      = some (⟨[0, 1, 0], [Ext.negInf, Ext.fin 1, Ext.posInf, Ext.fin 0], [0, 2, 0], [0, 0, 2]⟩,
          1) := by
  rw [evalLoop, eval_050_eval2]
  have h : Int.toNat 2 = 2 := rfl
  norm_num [evalBody, advance, cell, load, store, index, Ext.lt, h]

theorem eval_050_kernel :
    BasinFinderCudaKernel 1 3 1 [0, 5, 0] 0 scratch3
      = some ⟨[0, 1, 0], [Ext.negInf, Ext.fin 1, Ext.posInf, Ext.fin 0], [0, 2, 0], [0, 0, 2]⟩ := by
  have h1 : offset1 3 1 0 = 0 := by decide
  have h2 : offset2 3 1 0 = 0 := by decide
  simp only [BasinFinderCudaKernel, h1, h2, threadBody, eval_050_buildPhase, eval_050_eval3,
    Option.bind_eq_bind, Option.some_bind]

/-- C3, as stated, fails on the row `f = [0, 5, 0]`: the finished envelope is
`V = [0, 2]`, `Z[1] = 1`, so position `q = 1` lies on the boundary `Z[1]`, and
the claim would give `basins[1] = V[1] = 2`; the kernel writes `basins[1] = 0`. -/
theorem boundary_tie_later_refuted :
    ¬ (∀ bb k b', buildPhase (offset1 3 1 0) (offset2 3 1 0) 3 1 [0, 5, 0] scratch3 = some (bb, k) →
        BasinFinderCudaKernel 1 3 1 [0, 5, 0] 0 scratch3 = some b' →
        ∀ q j : Nat, q < 3 → j < k →
          b'.z[offset2 3 1 0 + (j + 1) * 1]? = some (Ext.fin (q : ℚ)) →
          b'.basins[offset1 3 1 0 + q * 1]? = b'.v[offset1 3 1 0 + (j + 1) * 1]?) := by
  intro h
  have h1 : offset1 3 1 0 = 0 := by decide
  have h2 : offset2 3 1 0 = 0 := by decide
  rw [h1, h2] at h
  have h3 := h _ _ _ eval_050_buildPhase eval_050_kernel 1 0 (by decide) (by decide)
    (by simp)
  simp at h3

/-- C3 (amended).  For every thread of an existing row: if position `q` of the
row lies exactly on the boundary `Z[j+1]` between the segments `V[j]` and
`V[j+1]` of the finished envelope (`j + 1 ≤ k`), the kernel writes
`basins[q] = V[j]`, the earlier-constructed segment. -/
theorem boundary_tie_earlier (dim0 dim1 dim2 batchdim : Nat) (f : List ℚ) (b : Bufs)
    (hd1 : 1 ≤ dim1) (hb : batchdim < dim0 * dim2) (hs : Sized dim0 dim1 dim2 f b) :
    ∃ bb k b',
      buildPhase (offset1 dim1 dim2 batchdim) (offset2 dim1 dim2 batchdim) dim1 dim2 f b
        = some (bb, k) ∧
      BasinFinderCudaKernel dim0 dim1 dim2 f batchdim b = some b' ∧
      b'.v = bb.v ∧ b'.z = bb.z ∧
      ∀ q j : Nat, q < dim1 → j < k →
        b'.z[offset2 dim1 dim2 batchdim + (j + 1) * dim2]? = some (Ext.fin (q : ℚ)) →
        b'.basins[offset1 dim1 dim2 batchdim + q * dim2]?
          = b'.v[offset1 dim1 dim2 batchdim + j * dim2]? := by
  obtain ⟨bb, k, V, Z, b', j, hrun, hker⟩ := kernel_spec hd1 hb hs
  have henv := hrun.env
  have hst := hrun.stored
  have hv := hrun.v_eq
  have hz := hrun.z_eq
  refine ⟨bb, k, b', hrun.build, hker, hv, hz, fun q i hq hi hzq => ?_⟩
  obtain ⟨jq, hc, _, hbas⟩ := hrun.written q hq
  have hZ : Z (i + 1) = Ext.fin (q : ℚ) := by
    rw [hz, hst.z (i + 1) (by omega)] at hzq
    exact Option.some.inj hzq
  have hci : CursorAt Z k (q : ℚ) i := by
    refine ⟨by omega, fun m _ hm => ?_, fun _ => ?_⟩
    · rw [← hZ]; exact henv.chain.z_lt (i + 1) (by omega) m (by omega)
    · rw [hZ]; simp [Ext.lt]
  have hji : jq = i := cursor_unique hc hci
  rw [hbas, hv, hst.v i (by omega), hji]

/-- Witness for the amended C3: the row `f = [0, 5, 0]`. -/
theorem boundary_tie_earlier_witness :
    (1 ≤ 3 ∧ 0 < 1 * 1 ∧ Sized 1 3 1 [0, 5, 0] scratch3) ∧
    ∃ bb k b',
      buildPhase (offset1 3 1 0) (offset2 3 1 0) 3 1 [0, 5, 0] scratch3 = some (bb, k) ∧
      BasinFinderCudaKernel 1 3 1 [0, 5, 0] 0 scratch3 = some b' ∧
      b'.v = bb.v ∧ b'.z = bb.z ∧
      ∀ q j : Nat, q < 3 → j < k →
        b'.z[offset2 3 1 0 + (j + 1) * 1]? = some (Ext.fin (q : ℚ)) →
        b'.basins[offset1 3 1 0 + q * 1]? = b'.v[offset1 3 1 0 + j * 1]? :=
  ⟨⟨by decide, by decide, ⟨rfl, rfl, rfl, rfl, rfl⟩⟩,
    boundary_tie_earlier 1 3 1 0 [0, 5, 0] scratch3 (by decide) (by decide)
      ⟨rfl, rfl, rfl, rfl, rfl⟩⟩

/-- C8 (single-sample row).  On a row of length one, `f = [c]`, whatever the
buffers held before, the envelope loop makes no iteration, the stack is
`V = [0]`, `Z = [-infinity, +infinity]`, and the kernel writes `out = [c]`,
`basins = [0]`. -/
theorem single_sample_row (c o : ℚ) (z0 z1 : Ext) (v0 b0 : Int) :
    buildPhase (offset1 1 1 0) (offset2 1 1 0) 1 1 [c] ⟨[o], [z0, z1], [v0], [b0]⟩
      = some (⟨[o], [Ext.negInf, Ext.posInf], [0], [b0]⟩, 0) ∧
    BasinFinderCudaKernel 1 1 1 [c] 0 ⟨[o], [z0, z1], [v0], [b0]⟩
      = some ⟨[c], [Ext.negInf, Ext.posInf], [0], [0]⟩ := by
  constructor
  · simp [buildPhase, sweep, initPhase, initLoop, buildLoop, cell, store, offset1, offset2,
      Ext.neg, verybig]
  · simp [BasinFinderCudaKernel, threadBody, buildPhase, sweep, initPhase, initLoop, buildLoop,
      evalLoop, evalBody, advance, cell, load, store, index, offset1, offset2, Ext.lt,
      Ext.neg, verybig]

/-- C9 (totality of the envelope builder).  For every thread of an existing row:
a finite `s` is never `<= -infinity`; after each candidate the boundary cell
`Z[0]` holds `-infinity`; for every candidate `q` the pop loop returns, at a
stack pointer `k' ≥ 0` not above the one it started from (popping the bottom is
a failure of the model); and the whole envelope phase returns. -/
theorem builder_total (dim0 dim1 dim2 batchdim : Nat) (f : List ℚ) (b : Bufs)
    (hd1 : 1 ≤ dim1) (hb : batchdim < dim0 * dim2) (hs : Sized dim0 dim1 dim2 f b) :
    (∀ s : ℚ, Ext.le (Ext.fin s) Ext.negInf = false) ∧
    (∀ m, m < dim1 → ∃ bb k,
      sweep (offset1 dim1 dim2 batchdim) (offset2 dim1 dim2 batchdim) dim1 dim2 f b m
        = some (bb, k) ∧ k ≤ m ∧
      bb.z[offset2 dim1 dim2 batchdim + 0 * dim2]? = some Ext.negInf) ∧
    (∀ q, 1 ≤ q → q < dim1 → ∃ bb k s k' s',
      sweep (offset1 dim1 dim2 batchdim) (offset2 dim1 dim2 batchdim) dim1 dim2 f b (q - 1)
        = some (bb, k) ∧
      calcintAt (offset1 dim1 dim2 batchdim) dim1 dim2 f bb q k = some s ∧
      popLoop (offset1 dim1 dim2 batchdim) (offset2 dim1 dim2 batchdim) dim1 dim2 f bb q k s
        = some (k', s') ∧ k' ≤ k) ∧
    ∃ bb k,
      buildPhase (offset1 dim1 dim2 batchdim) (offset2 dim1 dim2 batchdim) dim1 dim2 f b
        = some (bb, k) := by
  have hd2 := dim2_pos hb
  have hrow := rowOf_spec hb hs.f
  have hfit := fits_of_sized hb hs
  refine ⟨fun s => rfl, ?_, ?_, ?_⟩
  · intro m hm
    obtain ⟨bb, k, V, Z, h, henv, hst, _⟩ := sweep_spec hd2 hrow hfit m hm
    refine ⟨bb, k, h, ?_, ?_⟩
    · have := henv.chain.le_v k (le_refl k); have := henv.top; omega
    · rw [hst.z 0 (Nat.zero_le k), henv.chain.z0]
  · intro q hq1 hq
    obtain ⟨bb, k, V, Z, h, henv, hst, _⟩ := sweep_spec hd2 hrow hfit (q - 1) (by omega)
    have hq' : q - 1 + 1 = q := by omega
    rw [hq'] at henv
    have hvq : V k < q := by have := henv.top; omega
    have hkd : k < dim1 := by have := henv.chain.le_v k (le_refl k); omega
    obtain ⟨k', hk', hpop, _, _⟩ := popLoop_spec (b := bb) hrow hq k henv.chain hvq hst.v hst.z
    exact ⟨bb, k, _, k', _, h,
      calcintAt_eq (V := V) (q := q) (i := k) hrow (hst.v k (le_refl k)) hkd (by omega) hq,
      hpop, hk'⟩
  · obtain ⟨bb, k, V, Z, h, _⟩ := sweep_spec hd2 hrow hfit (dim1 - 1) (by omega)
    exact ⟨bb, k, h⟩

/-- Witness for C9: the row `f = [0, 5, 0]`, whose second candidate pops a vertex. -/
theorem builder_total_witness :
    (1 ≤ 3 ∧ 0 < 1 * 1 ∧ Sized 1 3 1 [0, 5, 0] scratch3) ∧
    ((∀ s : ℚ, Ext.le (Ext.fin s) Ext.negInf = false) ∧
    (∀ m, m < 3 → ∃ bb k,
      sweep (offset1 3 1 0) (offset2 3 1 0) 3 1 [0, 5, 0] scratch3 m = some (bb, k) ∧ k ≤ m ∧
      bb.z[offset2 3 1 0 + 0 * 1]? = some Ext.negInf) ∧
    (∀ q, 1 ≤ q → q < 3 → ∃ bb k s k' s',
      sweep (offset1 3 1 0) (offset2 3 1 0) 3 1 [0, 5, 0] scratch3 (q - 1) = some (bb, k) ∧
      calcintAt (offset1 3 1 0) 3 1 [0, 5, 0] bb q k = some s ∧
      popLoop (offset1 3 1 0) (offset2 3 1 0) 3 1 [0, 5, 0] bb q k s = some (k', s') ∧
      k' ≤ k) ∧
    ∃ bb k,
      buildPhase (offset1 3 1 0) (offset2 3 1 0) 3 1 [0, 5, 0] scratch3 = some (bb, k)) :=
  ⟨⟨by decide, by decide, ⟨rfl, rfl, rfl, rfl, rfl⟩⟩,
    builder_total 1 3 1 0 [0, 5, 0] scratch3 (by decide) (by decide)
      ⟨rfl, rfl, rfl, rfl, rfl⟩⟩

/-- Scratch capacity in the exact reading.  An address computation succeeds only for a logical
index inside the row (`cell`), and a read or write only inside the buffer
(`load`, `store`).  For every thread of an existing row, with `dim1` cells of
`v` and `dim1 + 1` cells of `z` per row, the envelope phase returns with a stack
pointer `k < dim1` and `Z[k+1] = +infinity`, the evaluation loop returns after
every number of positions with a cursor not above `k`, and the kernel returns. -/
theorem scratch_capacity (dim0 dim1 dim2 batchdim : Nat) (f : List ℚ) (b : Bufs)
    (hd1 : 1 ≤ dim1) (hb : batchdim < dim0 * dim2) (hs : Sized dim0 dim1 dim2 f b) :
    (∀ off st len i a, cell off st len i = some a → i < len ∧ a = off + i * st) ∧
    (∀ (z : List Ext) a x, load z a = some x → a < z.length) ∧
    (∀ (v : List Int) a x, load v a = some x → a < v.length) ∧
    (∀ (z z' : List Ext) a x, store z a x = some z' → a < z.length) ∧
    (∀ (v v' : List Int) a x, store v a x = some v' → a < v.length) ∧
    ∃ bb k b',
      buildPhase (offset1 dim1 dim2 batchdim) (offset2 dim1 dim2 batchdim) dim1 dim2 f b
        = some (bb, k) ∧
      k < dim1 ∧
      bb.z[offset2 dim1 dim2 batchdim + (k + 1) * dim2]? = some Ext.posInf ∧
      (∀ m, m ≤ dim1 → ∃ st,
        evalLoop (offset1 dim1 dim2 batchdim) (offset2 dim1 dim2 batchdim) dim1 dim2 f bb m
          = some st ∧ st.2 ≤ k) ∧
      BasinFinderCudaKernel dim0 dim1 dim2 f batchdim b = some b' := by
  refine ⟨?_, ?_, ?_, ?_, ?_, ?_⟩
  · intro off st len i a h
    unfold cell at h
    split at h
    · exact ⟨by assumption, (Option.some.inj h).symm⟩
    · cases h
  · intro z a x h
    unfold load at h
    exact (List.getElem?_eq_some.mp h).1
  · intro v a x h
    unfold load at h
    exact (List.getElem?_eq_some.mp h).1
  · intro z z' a x h
    unfold store at h
    split at h
    · assumption
    · cases h
  · intro v v' a x h
    unfold store at h
    split at h
    · assumption
    · cases h
  · obtain ⟨bb, k, V, Z, b', j, hrun, hker⟩ := kernel_spec hd1 hb hs
    refine ⟨bb, k, b', hrun.build, ?_, hrun.stored.sentinel, ?_, hker⟩
    · have := hrun.env.chain.le_v k (le_refl k)
      have := hrun.env.top
      omega
    · intro m hm
      obtain ⟨b1, j1, h1, _, _, _, _, hj1, _⟩ :=
        evalLoop_spec (dim2_pos hb) (rowOf_spec hb hs.f) hrun.env hrun.stored hrun.fits m hm
      exact ⟨(b1, j1), h1, hj1⟩

/-- Instance of `scratch_capacity`: one row of three samples with exactly three cells of `v`
and four cells of `z`. -/
theorem scratch_capacity_witness :
    (1 ≤ 3 ∧ 0 < 1 * 1 ∧ Sized 1 3 1 [0, 5, 0] scratch3) ∧
    ((∀ off st len i a, cell off st len i = some a → i < len ∧ a = off + i * st) ∧
    (∀ (z : List Ext) a x, load z a = some x → a < z.length) ∧
    (∀ (v : List Int) a x, load v a = some x → a < v.length) ∧
    (∀ (z z' : List Ext) a x, store z a x = some z' → a < z.length) ∧
    (∀ (v v' : List Int) a x, store v a x = some v' → a < v.length) ∧
    ∃ bb k b',
      buildPhase (offset1 3 1 0) (offset2 3 1 0) 3 1 [0, 5, 0] scratch3 = some (bb, k) ∧
      k < 3 ∧
      bb.z[offset2 3 1 0 + (k + 1) * 1]? = some Ext.posInf ∧
      (∀ m, m ≤ 3 → ∃ st,
        evalLoop (offset1 3 1 0) (offset2 3 1 0) 3 1 [0, 5, 0] bb m = some st ∧ st.2 ≤ k) ∧
      BasinFinderCudaKernel 1 3 1 [0, 5, 0] 0 scratch3 = some b') :=
  ⟨⟨by decide, by decide, ⟨rfl, rfl, rfl, rfl, rfl⟩⟩,
    scratch_capacity 1 3 1 0 [0, 5, 0] scratch3 (by decide) (by decide)
      ⟨rfl, rfl, rfl, rfl, rfl⟩⟩

/-- A flat index splits in one way only into row, position and column. -/
theorem addr_decomp_unique {n dim2 i0 q i2 j0 r j2 : Nat} (hq : q < n) (hr : r < n)
    (hi2 : i2 < dim2) (hj2 : j2 < dim2)
    (h : i0 * n * dim2 + q * dim2 + i2 = j0 * n * dim2 + r * dim2 + j2) :
    i0 = j0 ∧ q = r ∧ i2 = j2 := by
  have hd2 : 0 < dim2 := by omega
  have hn : 0 < n := by omega
  have e1 : i2 + (i0 * n + q) * dim2 = j2 + (j0 * n + r) * dim2 := by
    have a1 : (i0 * n + q) * dim2 = i0 * n * dim2 + q * dim2 := by ring
    have a2 : (j0 * n + r) * dim2 = j0 * n * dim2 + r * dim2 := by ring
    omega
  have e2 : i2 = j2 := by
    have := congrArg (fun x => x % dim2) e1
    simp only [Nat.add_mul_mod_self_right] at this
    rwa [Nat.mod_eq_of_lt hi2, Nat.mod_eq_of_lt hj2] at this
  have e3 : i0 * n + q = j0 * n + r := by
    have : (i0 * n + q) * dim2 = (j0 * n + r) * dim2 := by omega
    exact Nat.eq_of_mul_eq_mul_right hd2 this
  have e4 : q = r := by
    have e3' : q + i0 * n = r + j0 * n := by omega
    have := congrArg (fun x => x % n) e3'
    simp only [Nat.add_mul_mod_self_right] at this
    rwa [Nat.mod_eq_of_lt hq, Nat.mod_eq_of_lt hr] at this
  have e5 : i0 = j0 := by
    have : i0 * n = j0 * n := by omega
    exact Nat.eq_of_mul_eq_mul_right hn this
  exact ⟨e5, e4, e2⟩

theorem offset1_of_row {dim2 i2 : Nat} (dim1 i0 : Nat) (hi2 : i2 < dim2) :
    offset1 dim1 dim2 (i0 * dim2 + i2) = i0 * dim1 * dim2 + i2 := by
  have hd2 : 0 < dim2 := by omega
  have h1 : (i0 * dim2 + i2) / dim2 = i0 := by
    rw [Nat.add_comm, Nat.add_mul_div_right _ _ hd2, Nat.div_eq_of_lt hi2, Nat.zero_add]
  have h2 : (i0 * dim2 + i2) % dim2 = i2 := by
    rw [Nat.add_comm, Nat.add_mul_mod_self_right, Nat.mod_eq_of_lt hi2]
  simp only [offset1, h1, h2]

theorem offset2_of_row {dim2 i2 : Nat} (dim1 i0 : Nat) (hi2 : i2 < dim2) :
    offset2 dim1 dim2 (i0 * dim2 + i2) = i0 * (dim1 + 1) * dim2 + i2 := by
  have hd2 : 0 < dim2 := by omega
  have h1 : (i0 * dim2 + i2) / dim2 = i0 := by
    rw [Nat.add_comm, Nat.add_mul_div_right _ _ hd2, Nat.div_eq_of_lt hi2, Nat.zero_add]
  have h2 : (i0 * dim2 + i2) % dim2 = i2 := by
    rw [Nat.add_comm, Nat.add_mul_mod_self_right, Nat.mod_eq_of_lt hi2]
  simp only [offset2, h1, h2]

/-- The cells of two different rows are different cells. -/
theorem offset1_disjoint {dim1 dim2 t t' q i : Nat} (hd2 : 1 ≤ dim2) (hne : t ≠ t')
    (hq : q < dim1) (hi : i < dim1) :
    offset1 dim1 dim2 t' + q * dim2 ≠ offset1 dim1 dim2 t + i * dim2 := by
  intro h
  have h1 : t' / dim2 * dim1 * dim2 + q * dim2 + t' % dim2
      = t / dim2 * dim1 * dim2 + i * dim2 + t % dim2 := by
    simp only [offset1] at h; omega
  obtain ⟨e1, _, e3⟩ := addr_decomp_unique hq hi (Nat.mod_lt _ (by omega))
    (Nat.mod_lt _ (by omega)) h1
  have a1 := Nat.div_add_mod t dim2
  have a2 := Nat.div_add_mod t' dim2
  rw [e1, e3] at a2
  exact hne (a1.symm.trans a2)

/-- Every launch contains a thread whose index is not a row. -/
theorem launch_has_excess_thread (dim0 dim2 : Nat) :
    ∃ t, t ∈ launchedThreads dim0 dim2 ∧ dim0 * dim2 ≤ t := by
  refine ⟨8 * (dim0 * dim2 / 8) + 7, ?_, ?_⟩
  · simp only [launchedThreads, blockCount, threadPerBlock, List.mem_range]
    omega
  · omega

theorem initLoop_fault {off1 off2 dim1 dim2 : Nat} {b : Bufs} (hoff : b.v.length ≤ off1) :
    ∀ n, 1 ≤ n → n ≤ dim1 → initLoop off1 off2 dim1 dim2 n b = none := by
  intro n
  induction n with
  | zero => intro h; omega
  | succ n ih =>
    intro _ hn
    rcases Nat.eq_zero_or_pos n with h0 | h0
    · subst h0
      have : ¬ off1 < b.v.length := by omega
      simp [initLoop, cell_of_lt (show 0 < dim1 by omega), store, this]
    · simp [initLoop, ih h0 (by omega)]

/-- A thread whose index is not a row faults at its first write, whatever the
shape. -/
theorem excess_thread_faults {dim0 dim1 dim2 t : Nat} {f : List ℚ} {b : Bufs}
    (hd1 : 1 ≤ dim1) (hd2 : 1 ≤ dim2) (ht : dim0 * dim2 ≤ t)
    (hs : Sized dim0 dim1 dim2 f b) :
    BasinFinderCudaKernel dim0 dim1 dim2 f t b = none := by
  have h0 : dim0 ≤ t / dim2 := (Nat.le_div_iff_mul_le (by omega)).mpr ht
  have h1 : b.v.length ≤ offset1 dim1 dim2 t := by
    rw [hs.v]
    have := Nat.mul_le_mul_right dim2 (Nat.mul_le_mul_right dim1 h0)
    simp only [offset1]
    omega
  simp [BasinFinderCudaKernel, threadBody, buildPhase, sweep, initPhase,
    initLoop_fault h1 dim1 hd1 (le_refl _)]

/-- C6, failing input.  With `dim0 = dim1 = dim2 = 1` the launch starts the
threads `0..7` although there is one row.  Thread `1` is not below
`dim0*dim2 = 1`; its offsets are `offset1 = 1` and `offset2 = 2`, past the end
of the one-cell buffers, and it faults, so the launch as a whole faults. -/
theorem launch_leaves_rows :
    launchedThreads 1 1 = [0, 1, 2, 3, 4, 5, 6, 7] ∧ ¬ (1 < 1 * 1) ∧
    offset1 1 1 1 = 1 ∧ offset2 1 1 1 = 2 ∧
    oneCell.v.length = 1 ∧ oneCell.z.length = 2 ∧
    BasinFinderCudaKernel 1 1 1 [3] 0 oneCell
      = some ⟨[3], [Ext.negInf, Ext.posInf], [0], [0]⟩ ∧
    BasinFinderCudaKernel 1 1 1 [3] 1 oneCell = none ∧
    BasinFinderCudaKernel 1 1 1 [3] 1 ⟨[3], [Ext.negInf, Ext.posInf], [0], [0]⟩ = none ∧
    BasinFinderFunctor 1 1 1 [3] oneCell = none := by
  have h0 : BasinFinderCudaKernel 1 1 1 [3] 0 oneCell
      = some ⟨[3], [Ext.negInf, Ext.posInf], [0], [0]⟩ := by
    simp [oneCell, BasinFinderCudaKernel, threadBody, buildPhase, sweep, initPhase, initLoop,
      buildLoop, evalLoop, evalBody, advance, cell, load, store, index, offset1, offset2,
      Ext.lt, Ext.neg, verybig]
  have h1 : BasinFinderCudaKernel 1 1 1 [3] 1 ⟨[3], [Ext.negInf, Ext.posInf], [0], [0]⟩
      = none := by decide
  have hl : launchedThreads 1 1 = [0, 1, 2, 3, 4, 5, 6, 7] := by decide
  refine ⟨hl, by decide, by decide, by decide, rfl, rfl, h0, by decide, h1, ?_⟩
  simp only [BasinFinderFunctor, hl, runThreads, h0, h1, Option.bind_eq_bind,
    Option.some_bind, Option.none_bind]

/-- Two finished rows over the same samples hold the same outputs. -/
theorem rowDone_agree {dim1 off st off' st' : Nat} {g g' : Nat → ℚ} {b b2 : Bufs}
    (hg : ∀ p, p < dim1 → g p = g' p) (h : RowDone off dim1 st g b)
    (h' : RowDone off' dim1 st' g' b2) :
    ∀ q, q < dim1 → b.out[off + q * st]? = b2.out[off' + q * st']? ∧
      b.basins[off + q * st]? = b2.basins[off' + q * st']? := by
  intro q hq
  obtain ⟨p, hp, ho, hb, h1, h2⟩ := h q hq
  obtain ⟨p', hp', ho', hb', h1', h2'⟩ := h' q hq
  have e : p = p' := lexmin_unique hg hp hp' h1 h2 h1' h2'
  subst e
  rw [ho, ho', hb, hb', parabola_congr (hg p hp)]
  exact ⟨rfl, rfl⟩

theorem rowDone_of_same {off1 dim1 dim2 : Nat} {g : Nat → ℚ} {b b' : Bufs}
    (h : RowDone off1 dim1 dim2 g b)
    (hs : ∀ q, q < dim1 → b'.out[off1 + q * dim2]? = b.out[off1 + q * dim2]? ∧
      b'.basins[off1 + q * dim2]? = b.basins[off1 + q * dim2]?) :
    RowDone off1 dim1 dim2 g b' := by
  intro q hq
  obtain ⟨p, hp, ho, hb, h1, h2⟩ := h q hq
  exact ⟨p, hp, (hs q hq).1.trans ho, (hs q hq).2.trans hb, h1, h2⟩

theorem Sized.sized_of_frame {dim0 dim1 dim2 off1 off2 : Nat} {f : List ℚ} {b b' : Bufs}
    (hs : Sized dim0 dim1 dim2 f b) (hf : Frame off1 off2 dim1 dim2 b b') :
    Sized dim0 dim1 dim2 f b' :=
  ⟨hs.f, hf.out.1.trans hs.out, hf.z.1.trans hs.z, hf.v.1.trans hs.v,
    hf.basins.1.trans hs.basins⟩

/-- One thread of an existing row finishes its row and touches no other cell. -/
theorem kernel_rowDone {dim0 dim1 dim2 batchdim : Nat} {f : List ℚ} {b : Bufs}
    (hd1 : 1 ≤ dim1) (hb : batchdim < dim0 * dim2) (hs : Sized dim0 dim1 dim2 f b) :
    ∃ b', BasinFinderCudaKernel dim0 dim1 dim2 f batchdim b = some b' ∧
      RowDone (offset1 dim1 dim2 batchdim) dim1 dim2 (rowOf dim1 dim2 f batchdim) b' ∧
      Frame (offset1 dim1 dim2 batchdim) (offset2 dim1 dim2 batchdim) dim1 dim2 b b' := by
  obtain ⟨bb, k, V, Z, b', j, hrun, hker⟩ := kernel_spec hd1 hb hs
  exact ⟨b', hker, fun q hq => written_lexmin hrun.env (hrun.written q hq), hrun.frame⟩

/-- Running the threads of existing rows one after the other finishes each of
their rows and leaves the outputs of every other row as they were. -/
theorem runThreads_spec {dim0 dim1 dim2 : Nat} {f : List ℚ} (hd1 : 1 ≤ dim1) :
    ∀ (ts : List Nat), (∀ t, t ∈ ts → t < dim0 * dim2) →
      ∀ b, Sized dim0 dim1 dim2 f b →
        ∃ b', runThreads dim0 dim1 dim2 f ts b = some b' ∧ Sized dim0 dim1 dim2 f b' ∧
          (∀ t, t ∈ ts →
            RowDone (offset1 dim1 dim2 t) dim1 dim2 (rowOf dim1 dim2 f t) b') ∧
          (∀ t, t ∉ ts → ∀ q, q < dim1 →
            b'.out[offset1 dim1 dim2 t + q * dim2]? = b.out[offset1 dim1 dim2 t + q * dim2]? ∧
            b'.basins[offset1 dim1 dim2 t + q * dim2]?
              = b.basins[offset1 dim1 dim2 t + q * dim2]?) := by
  intro ts
  induction ts with
  | nil =>
    intro _ b hs
    exact ⟨b, rfl, hs, fun t ht => absurd ht (List.not_mem_nil t), fun _ _ _ _ => ⟨rfl, rfl⟩⟩
  | cons t ts ih =>
    intro hts b hs
    have ht : t < dim0 * dim2 := hts t (List.mem_cons_self t ts)
    have hd2 := dim2_pos ht
    obtain ⟨b1, hk, hdone, hfr⟩ := kernel_rowDone hd1 ht hs
    obtain ⟨b', hrun, hs', hall, hrest⟩ := ih (fun u hu => hts u (List.mem_cons_of_mem t hu))
      b1 (hs.sized_of_frame hfr)
    refine ⟨b', by simp [runThreads, hk, hrun], hs', ?_, ?_⟩
    · intro u hu
      by_cases hmem : u ∈ ts
      · exact hall u hmem
      · have hut : u = t := by
          rcases List.mem_cons.mp hu with h | h
          · exact h
          · exact absurd h hmem
        subst hut
        exact rowDone_of_same hdone (hrest u hmem)
    · intro u hu q hq
      have hne : t ≠ u := fun h => hu (h ▸ List.mem_cons_self t ts)
      have hmem : u ∉ ts := fun h => hu (List.mem_cons_of_mem t h)
      have h1 := hrest u hmem q hq
      have h2 := hfr.out.2 (offset1 dim1 dim2 u + q * dim2)
        (fun i hi => offset1_disjoint hd2 hne hq hi)
      have h3 := hfr.basins.2 (offset1 dim1 dim2 u + q * dim2)
        (fun i hi => offset1_disjoint hd2 hne hq hi)
      exact ⟨h1.1.trans h2, h1.2.trans h3⟩

theorem extractRow_length (dim1 dim2 : Nat) (f : List ℚ) (batchdim : Nat) :
    (extractRow dim1 dim2 f batchdim).length = dim1 := by
  simp [extractRow]

theorem rowOf_extractRow {dim1 dim2 : Nat} (f : List ℚ) (batchdim : Nat) {p : Nat}
    (hp : p < dim1) :
    rowOf dim1 1 (extractRow dim1 dim2 f batchdim) 0 p = rowOf dim1 dim2 f batchdim p := by
  have h0 : offset1 dim1 1 0 = 0 := by simp [offset1]
  have h1 : (extractRow dim1 dim2 f batchdim)[p]? = some (rowOf dim1 dim2 f batchdim p) := by
    simp [extractRow, List.getElem?_map, List.getElem?_range hp]
  unfold rowOf at *
  rw [h0, Nat.zero_add, Nat.mul_one, h1]
  rfl

/-- Batch equals per-row in the exact reading.  On buffers of the contract
sizes the threads of the `dim0*dim2` rows, run one after the other, all return.
For every row `(i0, i2)`: the thread `i0*dim2 + i2` alone, and the run of all
rows, leave at the flat index `i0*dim1*dim2 + q*dim2 + i2` of `out` and
`basins` exactly what the kernel leaves at index `q` when it is run on the
extracted row as a batch of shape `(1, dim1, 1)`, whatever the single-row
buffers held; and a second input `f2` that agrees with `f` on that row gives the
same outputs on that row, however its other rows and its buffers differ. -/
theorem batch_equals_row (dim0 dim1 dim2 : Nat) (f : List ℚ) (b : Bufs) (hd1 : 1 ≤ dim1)
    (hs : Sized dim0 dim1 dim2 f b) :
    ∃ bAll, runThreads dim0 dim1 dim2 f (List.range (dim0 * dim2)) b = some bAll ∧
      ∀ i0 i2, i0 < dim0 → i2 < dim2 →
        (∀ b1, Sized 1 dim1 1 (extractRow dim1 dim2 f (i0 * dim2 + i2)) b1 →
          ∃ bT r, BasinFinderCudaKernel dim0 dim1 dim2 f (i0 * dim2 + i2) b = some bT ∧
            BasinFinderCudaKernel 1 dim1 1 (extractRow dim1 dim2 f (i0 * dim2 + i2)) 0 b1
              = some r ∧
            ∀ q, q < dim1 →
              bT.out[i0 * dim1 * dim2 + q * dim2 + i2]? = r.out[q]? ∧
              bT.basins[i0 * dim1 * dim2 + q * dim2 + i2]? = r.basins[q]? ∧
              bAll.out[i0 * dim1 * dim2 + q * dim2 + i2]? = r.out[q]? ∧
              bAll.basins[i0 * dim1 * dim2 + q * dim2 + i2]? = r.basins[q]?) ∧
        (∀ f2 b2, Sized dim0 dim1 dim2 f2 b2 →
          (∀ p, p < dim1 → f2[i0 * dim1 * dim2 + p * dim2 + i2]?
            = f[i0 * dim1 * dim2 + p * dim2 + i2]?) →
          ∃ bAll2, runThreads dim0 dim1 dim2 f2 (List.range (dim0 * dim2)) b2 = some bAll2 ∧
            ∀ q, q < dim1 →
              bAll2.out[i0 * dim1 * dim2 + q * dim2 + i2]?
                = bAll.out[i0 * dim1 * dim2 + q * dim2 + i2]? ∧
              bAll2.basins[i0 * dim1 * dim2 + q * dim2 + i2]?
                = bAll.basins[i0 * dim1 * dim2 + q * dim2 + i2]?) := by
  have hmem : ∀ t, t ∈ List.range (dim0 * dim2) → t < dim0 * dim2 :=
    fun t ht => List.mem_range.mp ht
  obtain ⟨bAll, hall, _, hdoneAll, _⟩ := runThreads_spec hd1 _ hmem b hs
  refine ⟨bAll, hall, fun i0 i2 hi0 hi2 => ?_⟩
  have hb : i0 * dim2 + i2 < dim0 * dim2 := by
    have := Nat.mul_le_mul_right dim2 (show i0 + 1 ≤ dim0 by omega)
    have e : (i0 + 1) * dim2 = i0 * dim2 + dim2 := by ring
    omega
  have haddr : ∀ q, i0 * dim1 * dim2 + q * dim2 + i2
      = offset1 dim1 dim2 (i0 * dim2 + i2) + q * dim2 := by
    intro q; rw [offset1_of_row dim1 i0 hi2]; omega
  have hA := hdoneAll (i0 * dim2 + i2) (List.mem_range.mpr hb)
  constructor
  · intro b1 hs1
    obtain ⟨bT, hkT, hdoneT, _⟩ := kernel_rowDone hd1 hb hs
    obtain ⟨r, hkr, hdoner, _⟩ := kernel_rowDone hd1 (show 0 < 1 * 1 by decide) hs1
    have h0 : offset1 dim1 1 0 = 0 := by simp [offset1]
    have hg : ∀ p, p < dim1 → rowOf dim1 dim2 f (i0 * dim2 + i2) p
        = rowOf dim1 1 (extractRow dim1 dim2 f (i0 * dim2 + i2)) 0 p :=
      fun p hp => (rowOf_extractRow f (i0 * dim2 + i2) hp).symm
    refine ⟨bT, r, hkT, hkr, fun q hq => ?_⟩
    have e1 := rowDone_agree hg hdoneT hdoner q hq
    have e2 := rowDone_agree hg hA hdoner q hq
    rw [h0, Nat.zero_add, Nat.mul_one] at e1 e2
    rw [haddr q]
    exact ⟨e1.1, e1.2, e2.1, e2.2⟩
  · intro f2 b2 hs2 hagree
    obtain ⟨bAll2, hall2, _, hdoneAll2, _⟩ := runThreads_spec hd1 _ hmem b2 hs2
    have hA2 := hdoneAll2 (i0 * dim2 + i2) (List.mem_range.mpr hb)
    have hg : ∀ p, p < dim1 → rowOf dim1 dim2 f2 (i0 * dim2 + i2) p
        = rowOf dim1 dim2 f (i0 * dim2 + i2) p := by
      intro p hp
      have := hagree p hp
      rw [haddr p] at this
      simp only [rowOf, this]
    refine ⟨bAll2, hall2, fun q hq => ?_⟩
    rw [haddr q]
    exact rowDone_agree hg hA2 hA q hq

/-- Instance of `batch_equals_row`: a batch of shape `(2, 2, 2)`. -/
theorem batch_equals_row_witness :
    (1 ≤ 2 ∧ Sized 2 2 2 [5, 0, 0, 5, 1, 2, 3, 4] scratch222) ∧
    ∃ bAll, runThreads 2 2 2 [5, 0, 0, 5, 1, 2, 3, 4] (List.range (2 * 2)) scratch222
        = some bAll ∧
      ∀ i0 i2, i0 < 2 → i2 < 2 →
        (∀ b1, Sized 1 2 1 (extractRow 2 2 [5, 0, 0, 5, 1, 2, 3, 4] (i0 * 2 + i2)) b1 →
          ∃ bT r,
            BasinFinderCudaKernel 2 2 2 [5, 0, 0, 5, 1, 2, 3, 4] (i0 * 2 + i2) scratch222
              = some bT ∧
            BasinFinderCudaKernel 1 2 1
              (extractRow 2 2 [5, 0, 0, 5, 1, 2, 3, 4] (i0 * 2 + i2)) 0 b1 = some r ∧
            ∀ q, q < 2 →
              bT.out[i0 * 2 * 2 + q * 2 + i2]? = r.out[q]? ∧
              bT.basins[i0 * 2 * 2 + q * 2 + i2]? = r.basins[q]? ∧
              bAll.out[i0 * 2 * 2 + q * 2 + i2]? = r.out[q]? ∧
              bAll.basins[i0 * 2 * 2 + q * 2 + i2]? = r.basins[q]?) ∧
        (∀ f2 b2, Sized 2 2 2 f2 b2 →
          (∀ p, p < 2 → f2[i0 * 2 * 2 + p * 2 + i2]?
            = ([5, 0, 0, 5, 1, 2, 3, 4] : List ℚ)[i0 * 2 * 2 + p * 2 + i2]?) →
          ∃ bAll2, runThreads 2 2 2 f2 (List.range (2 * 2)) b2 = some bAll2 ∧
            ∀ q, q < 2 →
              bAll2.out[i0 * 2 * 2 + q * 2 + i2]? = bAll.out[i0 * 2 * 2 + q * 2 + i2]? ∧
              bAll2.basins[i0 * 2 * 2 + q * 2 + i2]?
                = bAll.basins[i0 * 2 * 2 + q * 2 + i2]?) :=
  ⟨⟨by decide, ⟨rfl, rfl, rfl, rfl, rfl⟩⟩,
    batch_equals_row 2 2 2 [5, 0, 0, 5, 1, 2, 3, 4] scratch222 (by decide)
      ⟨rfl, rfl, rfl, rfl, rfl⟩⟩

/-- C16 (calcint is the crossover point).  For indices `q1 ≠ q2` and values `f1`,
`f2`, `calcint q1 q2 f1 f2` is the quotient of the source, it is an abscissa
where the parabolas rooted at `q1` and `q2` meet, it is the only one, and when
`q2 < q1` the parabola rooted at `q1` is strictly below the one rooted at `q2`
exactly to the right of it. -/
theorem calcint_crossover (q1 q2 : Int) (f1 f2 : ℚ) (h : q1 ≠ q2) :
    calcint q1 q2 f1 f2
      = ((f1 + (q1 : ℚ) ^ 2) - (f2 + (q2 : ℚ) ^ 2)) / (2 * (q1 : ℚ) - 2 * (q2 : ℚ)) ∧
    (calcint q1 q2 f1 f2 - q1) ^ 2 + f1 = (calcint q1 q2 f1 f2 - q2) ^ 2 + f2 ∧
    (∀ x : ℚ, (x - q1) ^ 2 + f1 = (x - q2) ^ 2 + f2 → x = calcint q1 q2 f1 f2) ∧
    (q2 < q1 → ∀ x : ℚ,
      ((x - q1) ^ 2 + f1 < (x - q2) ^ 2 + f2 ↔ calcint q1 q2 f1 f2 < x)) := by
  have hne : (q1 : ℚ) ≠ (q2 : ℚ) := fun h' => h (by exact_mod_cast h')
  have hd : 2 * (q1 : ℚ) - 2 * (q2 : ℚ) ≠ 0 := fun h' => hne (by linarith)
  have hs : calcint q1 q2 f1 f2 * (2 * (q1 : ℚ) - 2 * (q2 : ℚ))
      = (f1 + (q1 : ℚ) * q1) - (f2 + (q2 : ℚ) * q2) := by
    simp only [calcint]
    exact div_mul_cancel₀ _ hd
  refine ⟨by simp only [calcint, pow_two], by nlinarith [hs], fun x hx => ?_, fun hlt x => ?_⟩
  · have h1 : x * (2 * (q1 : ℚ) - 2 * (q2 : ℚ))
        = calcint q1 q2 f1 f2 * (2 * (q1 : ℚ) - 2 * (q2 : ℚ)) := by
      rw [hs]; nlinarith [hx]
    exact mul_right_cancel₀ hd h1
  · have hpos : (0 : ℚ) < 2 * (q1 : ℚ) - 2 * (q2 : ℚ) := by
      have : (q2 : ℚ) < (q1 : ℚ) := by exact_mod_cast hlt
      linarith
    constructor
    · intro hx
      have : calcint q1 q2 f1 f2 * (2 * (q1 : ℚ) - 2 * (q2 : ℚ))
          < x * (2 * (q1 : ℚ) - 2 * (q2 : ℚ)) := by rw [hs]; nlinarith [hx]
      exact lt_of_mul_lt_mul_right this (le_of_lt hpos)
    · intro hx
      have := mul_lt_mul_of_pos_right hx hpos
      rw [hs] at this
      nlinarith [this]

/-- Witness for C16: the roots `2` and `0` with equal heights cross at `1`. -/
theorem calcint_crossover_witness :
    ((2 : Int) ≠ 0) ∧
    (calcint 2 0 0 0
      = (((0 : ℚ) + ((2 : Int) : ℚ) ^ 2) - ((0 : ℚ) + ((0 : Int) : ℚ) ^ 2))
          / (2 * ((2 : Int) : ℚ) - 2 * ((0 : Int) : ℚ)) ∧
    (calcint 2 0 0 0 - (2 : Int)) ^ 2 + (0 : ℚ) = (calcint 2 0 0 0 - (0 : Int)) ^ 2 + (0 : ℚ) ∧
    (∀ x : ℚ, (x - (2 : Int)) ^ 2 + (0 : ℚ) = (x - (0 : Int)) ^ 2 + (0 : ℚ) →
      x = calcint 2 0 0 0) ∧
    ((0 : Int) < 2 → ∀ x : ℚ,
      ((x - (2 : Int)) ^ 2 + (0 : ℚ) < (x - (0 : Int)) ^ 2 + (0 : ℚ) ↔ calcint 2 0 0 0 < x))) :=
  ⟨by decide, calcint_crossover 2 0 0 0 (by decide)⟩

theorem Ext.le_true_of_lt {a b : Ext} (h : Ext.lt a b = true) : Ext.le a b = true := by
  cases a <;> cases b <;> simp_all [Ext.le, Ext.lt]
  exact le_of_lt h

theorem Chain.z_ne_posInf {g : Nat → ℚ} {V : Nat → Nat} {Z : Nat → Ext} {k : Nat}
    (h : Chain g V Z k) : ∀ i, i ≤ k → Ext.lt (Z i) Ext.posInf = true := by
  intro i hi
  rcases Nat.eq_zero_or_pos i with h0 | h0
  · subst h0; rw [h.z0]; rfl
  · obtain ⟨j, rfl⟩ : ∃ j, i = j + 1 := ⟨i - 1, by omega⟩
    rw [h.zdef j (by omega)]; rfl

/-- Monotonicity of `V` in the exact reading.  For every thread of an existing row and every
number `m < dim1` of candidates processed (`m = dim1 - 1` is the end of the
sweep), the envelope loop has returned and the vertex cells `0..k` hold indices
`V[0] < V[1] < ... < V[k]` with `V[0] = 0` and `V[k] = m`, the sample pushed
last.  The pop loop writes nothing and only lowers `k`, so the same holds for
every prefix it passes through. -/
theorem vertices_increasing (dim0 dim1 dim2 batchdim : Nat) (f : List ℚ) (b : Bufs)
    (hb : batchdim < dim0 * dim2) (hs : Sized dim0 dim1 dim2 f b) :
    ∀ m, m < dim1 → ∃ bb k, ∃ V : Nat → Nat,
      sweep (offset1 dim1 dim2 batchdim) (offset2 dim1 dim2 batchdim) dim1 dim2 f b m
        = some (bb, k) ∧
      (∀ i, i ≤ k → bb.v[offset1 dim1 dim2 batchdim + i * dim2]? = some (V i : Int)) ∧
      V 0 = 0 ∧ V k = m ∧ ∀ i j, i < j → j ≤ k → V i < V j := by
  intro m hm
  obtain ⟨bb, k, V, Z, h, henv, hst, _⟩ :=
    sweep_spec (dim2_pos hb) (rowOf_spec hb hs.f) (fits_of_sized hb hs) m hm
  refine ⟨bb, k, V, h, hst.v, henv.chain.v0, ?_, fun i j hij hj => henv.chain.v_lt j hj i hij⟩
  have := henv.top
  omega

/-- Instance of `vertices_increasing`: the row `f = [0, 5, 0]`. -/
theorem vertices_increasing_witness :
    (0 < 1 * 1 ∧ Sized 1 3 1 [0, 5, 0] scratch3) ∧
    ∀ m, m < 3 → ∃ bb k, ∃ V : Nat → Nat,
      sweep (offset1 3 1 0) (offset2 3 1 0) 3 1 [0, 5, 0] scratch3 m = some (bb, k) ∧
      (∀ i, i ≤ k → bb.v[offset1 3 1 0 + i * 1]? = some (V i : Int)) ∧
      V 0 = 0 ∧ V k = m ∧ ∀ i j, i < j → j ≤ k → V i < V j :=
  ⟨⟨by decide, ⟨rfl, rfl, rfl, rfl, rfl⟩⟩,
    vertices_increasing 1 3 1 0 [0, 5, 0] scratch3 (by decide) ⟨rfl, rfl, rfl, rfl, rfl⟩⟩

/-- Monotonicity of `Z` in the exact reading.  For every thread of an existing row and every
number `m < dim1` of candidates processed, the boundary cells `0..k+1` hold
`Z[0] <= Z[1] <= ... <= Z[k] <= Z[k+1]` with `Z[0] = -infinity` and
`Z[k+1] = +infinity`; the inequalities are in fact strict. -/
theorem boundaries_nondecreasing (dim0 dim1 dim2 batchdim : Nat) (f : List ℚ) (b : Bufs)
    (hb : batchdim < dim0 * dim2) (hs : Sized dim0 dim1 dim2 f b) :
    ∀ m, m < dim1 → ∃ bb k, ∃ Z : Nat → Ext,
      sweep (offset1 dim1 dim2 batchdim) (offset2 dim1 dim2 batchdim) dim1 dim2 f b m
        = some (bb, k) ∧
      (∀ i, i ≤ k + 1 → bb.z[offset2 dim1 dim2 batchdim + i * dim2]? = some (Z i)) ∧
      Z 0 = Ext.negInf ∧ Z (k + 1) = Ext.posInf ∧
      (∀ i, i ≤ k → Ext.le (Z i) (Z (i + 1)) = true) ∧
      (∀ i, i ≤ k → Ext.lt (Z i) (Z (i + 1)) = true) := by
  intro m hm
  obtain ⟨bb, k, V, Z, h, henv, hst, _⟩ :=
    sweep_spec (dim2_pos hb) (rowOf_spec hb hs.f) (fits_of_sized hb hs) m hm
  have hlt : ∀ i, i ≤ k →
      Ext.lt ((fun i => if i ≤ k then Z i else Ext.posInf) i)
        ((fun i => if i ≤ k then Z i else Ext.posInf) (i + 1)) = true := by
    intro i hi
    rcases Nat.lt_or_eq_of_le hi with h1 | h1
    · simp only [if_pos hi, if_pos (show i + 1 ≤ k by omega)]
      exact henv.chain.zmono i h1
    · simp only [if_pos hi, if_neg (show ¬ i + 1 ≤ k by omega)]
      exact henv.chain.z_ne_posInf i hi
  refine ⟨bb, k, fun i => if i ≤ k then Z i else Ext.posInf, h, ?_, ?_, ?_,
    fun i hi => Ext.le_true_of_lt (hlt i hi), hlt⟩
  · intro i hi
    rcases Nat.lt_or_eq_of_le hi with h1 | h1
    · simp only [if_pos (show i ≤ k by omega)]
      exact hst.z i (by omega)
    · subst h1
      simp only [if_neg (show ¬ k + 1 ≤ k by omega)]
      exact hst.sentinel
  · simp only [if_pos (Nat.zero_le k)]; exact henv.chain.z0
  · simp only [if_neg (show ¬ k + 1 ≤ k by omega)]

/-- Instance of `boundaries_nondecreasing`: the row `f = [0, 5, 0]`. -/
theorem boundaries_nondecreasing_witness :
    (0 < 1 * 1 ∧ Sized 1 3 1 [0, 5, 0] scratch3) ∧
    ∀ m, m < 3 → ∃ bb k, ∃ Z : Nat → Ext,
      sweep (offset1 3 1 0) (offset2 3 1 0) 3 1 [0, 5, 0] scratch3 m = some (bb, k) ∧
      (∀ i, i ≤ k + 1 → bb.z[offset2 3 1 0 + i * 1]? = some (Z i)) ∧
      Z 0 = Ext.negInf ∧ Z (k + 1) = Ext.posInf ∧
      (∀ i, i ≤ k → Ext.le (Z i) (Z (i + 1)) = true) ∧
      (∀ i, i ≤ k → Ext.lt (Z i) (Z (i + 1)) = true) :=
  ⟨⟨by decide, ⟨rfl, rfl, rfl, rfl, rfl⟩⟩,
    boundaries_nondecreasing 1 3 1 0 [0, 5, 0] scratch3 (by decide) ⟨rfl, rfl, rfl, rfl, rfl⟩⟩

/-- Meaning of the stored boundaries in the exact reading.  For every thread of an existing row
the envelope phase returns a finished envelope `(V, Z, k)` in which `Z[0]` is
`-infinity`, `Z[k+1]` is `+infinity` and, for every `j` in `1..k`, `Z[j]` is
`calcint(V[j], V[j-1], f[V[j]], f[V[j-1]])`, the crossing of the parabola rooted
at `V[j]` with the one rooted at the vertex stored just below it. -/
theorem boundaries_are_crossovers (dim0 dim1 dim2 batchdim : Nat) (f : List ℚ) (b : Bufs)
    (hd1 : 1 ≤ dim1) (hb : batchdim < dim0 * dim2) (hs : Sized dim0 dim1 dim2 f b) :
    ∃ bb k, ∃ V : Nat → Nat,
      buildPhase (offset1 dim1 dim2 batchdim) (offset2 dim1 dim2 batchdim) dim1 dim2 f b
        = some (bb, k) ∧
      (∀ i, i ≤ k → V i < dim1 ∧
        bb.v[offset1 dim1 dim2 batchdim + i * dim2]? = some (V i : Int)) ∧
      bb.z[offset2 dim1 dim2 batchdim + 0 * dim2]? = some Ext.negInf ∧
      bb.z[offset2 dim1 dim2 batchdim + (k + 1) * dim2]? = some Ext.posInf ∧
      ∀ j, 1 ≤ j → j ≤ k → ∃ fj fj1 : ℚ,
        f[offset1 dim1 dim2 batchdim + V j * dim2]? = some fj ∧
        f[offset1 dim1 dim2 batchdim + V (j - 1) * dim2]? = some fj1 ∧
        bb.z[offset2 dim1 dim2 batchdim + j * dim2]?
          = some (Ext.fin (calcint (V j : Int) (V (j - 1) : Int) fj fj1)) := by
  obtain ⟨bb, k, V, Z, b', j, hrun, _⟩ := kernel_spec hd1 hb hs
  have hrow := rowOf_spec hb hs.f
  refine ⟨bb, k, V, hrun.build, fun i hi => ⟨hrun.env.v_lt_top hi, hrun.stored.v i hi⟩, ?_,
    hrun.stored.sentinel, fun i hi1 hik => ?_⟩
  · rw [hrun.stored.z 0 (Nat.zero_le k), hrun.env.chain.z0]
  · obtain ⟨m, rfl⟩ : ∃ m, i = m + 1 := ⟨i - 1, by omega⟩
    refine ⟨_, _, hrow (V (m + 1)) (hrun.env.v_lt_top hik),
      hrow (V (m + 1 - 1)) (hrun.env.v_lt_top (by omega)), ?_⟩
    rw [hrun.stored.z (m + 1) hik, hrun.env.chain.zdef m (by omega)]
    rfl

/-- Instance of `boundaries_are_crossovers`: the row `f = [0, 5, 0]`, whose vertex `1` is popped. -/
theorem boundaries_are_crossovers_witness :
    (1 ≤ 3 ∧ 0 < 1 * 1 ∧ Sized 1 3 1 [0, 5, 0] scratch3) ∧
    ∃ bb k, ∃ V : Nat → Nat,
      buildPhase (offset1 3 1 0) (offset2 3 1 0) 3 1 [0, 5, 0] scratch3 = some (bb, k) ∧
      (∀ i, i ≤ k → V i < 3 ∧ bb.v[offset1 3 1 0 + i * 1]? = some (V i : Int)) ∧
      bb.z[offset2 3 1 0 + 0 * 1]? = some Ext.negInf ∧
      bb.z[offset2 3 1 0 + (k + 1) * 1]? = some Ext.posInf ∧
      ∀ j, 1 ≤ j → j ≤ k → ∃ fj fj1 : ℚ,
        ([0, 5, 0] : List ℚ)[offset1 3 1 0 + V j * 1]? = some fj ∧
        ([0, 5, 0] : List ℚ)[offset1 3 1 0 + V (j - 1) * 1]? = some fj1 ∧
        bb.z[offset2 3 1 0 + j * 1]?
          = some (Ext.fin (calcint (V j : Int) (V (j - 1) : Int) fj fj1)) :=
  ⟨⟨by decide, by decide, ⟨rfl, rfl, rfl, rfl, rfl⟩⟩,
    boundaries_are_crossovers 1 3 1 0 [0, 5, 0] scratch3 (by decide) (by decide)
      ⟨rfl, rfl, rfl, rfl, rfl⟩⟩

/-- The boundary cells of two different rows are different cells. -/
theorem offset2_disjoint {dim1 dim2 t t' q i : Nat} (hd2 : 1 ≤ dim2) (hne : t ≠ t')
    (hq : q < dim1 + 1) (hi : i < dim1 + 1) :
    offset2 dim1 dim2 t' + q * dim2 ≠ offset2 dim1 dim2 t + i * dim2 := by
  intro h
  have h1 : t' / dim2 * (dim1 + 1) * dim2 + q * dim2 + t' % dim2
      = t / dim2 * (dim1 + 1) * dim2 + i * dim2 + t % dim2 := by
    simp only [offset2] at h; omega
  obtain ⟨e1, _, e3⟩ := addr_decomp_unique hq hi (Nat.mod_lt _ (by omega))
    (Nat.mod_lt _ (by omega)) h1
  have a1 := Nat.div_add_mod t dim2
  have a2 := Nat.div_add_mod t' dim2
  rw [e1, e3] at a2
  exact hne (a1.symm.trans a2)

/-- Disjoint stride addressing, and the frame of a thread in the exact reading.
With `offset1 = i0*dim1*dim2 + i2`,
`offset2 = i0*(dim1+1)*dim2 + i2`, `i0 = b/dim2`, `i2 = b%dim2`: for two
different rows `t ≠ t'` below `dim0*dim2` no address `offset1(t) + i*dim2`,
`i < dim1`, is an address `offset1(t') + i'*dim2`, `i' < dim1`, and no address
`offset2(t) + i*dim2`, `i ≤ dim1`, is an address `offset2(t') + i'*dim2`,
`i' ≤ dim1`; and the thread of row `t` returns and leaves every `out`, `basins`,
`v` and `z` cell of row `t'` as it was. -/
theorem rows_disjoint (dim0 dim1 dim2 t t' : Nat) (f : List ℚ) (b : Bufs)
    (hd1 : 1 ≤ dim1) (ht : t < dim0 * dim2) (ht' : t' < dim0 * dim2) (hne : t ≠ t')
    (hs : Sized dim0 dim1 dim2 f b) :
    offset1 dim1 dim2 t = (t / dim2) * dim1 * dim2 + t % dim2 ∧
    offset2 dim1 dim2 t = (t / dim2) * (dim1 + 1) * dim2 + t % dim2 ∧
    (∀ i i', i < dim1 → i' < dim1 →
      offset1 dim1 dim2 t + i * dim2 ≠ offset1 dim1 dim2 t' + i' * dim2) ∧
    (∀ i i', i ≤ dim1 → i' ≤ dim1 →
      offset2 dim1 dim2 t + i * dim2 ≠ offset2 dim1 dim2 t' + i' * dim2) ∧
    ∃ b', BasinFinderCudaKernel dim0 dim1 dim2 f t b = some b' ∧
      (∀ i, i < dim1 →
        b'.out[offset1 dim1 dim2 t' + i * dim2]? = b.out[offset1 dim1 dim2 t' + i * dim2]? ∧
        b'.basins[offset1 dim1 dim2 t' + i * dim2]?
          = b.basins[offset1 dim1 dim2 t' + i * dim2]? ∧
        b'.v[offset1 dim1 dim2 t' + i * dim2]? = b.v[offset1 dim1 dim2 t' + i * dim2]?) ∧
      (∀ i, i ≤ dim1 →
        b'.z[offset2 dim1 dim2 t' + i * dim2]? = b.z[offset2 dim1 dim2 t' + i * dim2]?) := by
  have hd2 := dim2_pos ht
  have _ := ht'
  refine ⟨rfl, rfl, fun i i' hi hi' => offset1_disjoint hd2 hne.symm hi hi',
    fun i i' hi hi' => offset2_disjoint hd2 hne.symm (by omega) (by omega), ?_⟩
  obtain ⟨bb, k, V, Z, b', j, hrun, hker⟩ := kernel_spec hd1 ht hs
  have hfr := hrun.frame
  refine ⟨b', hker, fun i hi => ⟨?_, ?_, ?_⟩, fun i hi => ?_⟩
  · exact hfr.out.2 _ (fun i' hi' => offset1_disjoint hd2 hne hi hi')
  · exact hfr.basins.2 _ (fun i' hi' => offset1_disjoint hd2 hne hi hi')
  · exact hfr.v.2 _ (fun i' hi' => offset1_disjoint hd2 hne hi hi')
  · exact hfr.z.2 _ (fun i' hi' => offset2_disjoint hd2 hne (by omega) hi')

/-- Instance of `rows_disjoint`: rows `0` and `3` of a batch of shape `(2, 2, 2)`. -/
theorem rows_disjoint_witness :
    (1 ≤ 2 ∧ 0 < 2 * 2 ∧ 3 < 2 * 2 ∧ (0 : Nat) ≠ 3 ∧
      Sized 2 2 2 [5, 0, 0, 5, 1, 2, 3, 4] scratch222) ∧
    (offset1 2 2 0 = (0 / 2) * 2 * 2 + 0 % 2 ∧
    offset2 2 2 0 = (0 / 2) * (2 + 1) * 2 + 0 % 2 ∧
    (∀ i i', i < 2 → i' < 2 → offset1 2 2 0 + i * 2 ≠ offset1 2 2 3 + i' * 2) ∧
    (∀ i i', i ≤ 2 → i' ≤ 2 → offset2 2 2 0 + i * 2 ≠ offset2 2 2 3 + i' * 2) ∧
    ∃ b', BasinFinderCudaKernel 2 2 2 [5, 0, 0, 5, 1, 2, 3, 4] 0 scratch222 = some b' ∧
      (∀ i, i < 2 →
        b'.out[offset1 2 2 3 + i * 2]? = scratch222.out[offset1 2 2 3 + i * 2]? ∧
        b'.basins[offset1 2 2 3 + i * 2]? = scratch222.basins[offset1 2 2 3 + i * 2]? ∧
        b'.v[offset1 2 2 3 + i * 2]? = scratch222.v[offset1 2 2 3 + i * 2]?) ∧
      (∀ i, i ≤ 2 →
        b'.z[offset2 2 2 3 + i * 2]? = scratch222.z[offset2 2 2 3 + i * 2]?)) :=
  ⟨⟨by decide, by decide, by decide, by decide, ⟨rfl, rfl, rfl, rfl, rfl⟩⟩,
    rows_disjoint 2 2 2 0 3 [5, 0, 0, 5, 1, 2, 3, 4] scratch222 (by decide) (by decide)
      (by decide) (by decide) ⟨rfl, rfl, rfl, rfl, rfl⟩⟩

/-- Two buffers that agree outside a row and on the first `dim1` cells of the
row are equal. -/
theorem list_eq_of_row {α : Type} {off dim2 dim1 : Nat} {l0 l0' l l' : List α}
    (hl : SameOff off dim2 dim1 l0 l) (hl' : SameOff off dim2 dim1 l0' l') (h0 : l0' = l0)
    (hrow : ∀ q, q < dim1 → l'[off + q * dim2]? = l[off + q * dim2]?) : l' = l := by
  apply List.ext_getElem?
  intro a
  by_cases h : ∃ q, q < dim1 ∧ a = off + q * dim2
  · obtain ⟨q, hq, rfl⟩ := h
    exact hrow q hq
  · have hn : ∀ i, i < dim1 → a ≠ off + i * dim2 := fun i hi he => h ⟨i, hi, he⟩
    rw [hl'.2 a hn, hl.2 a hn, h0]

/-- Independence of the incoming scratch contents in the exact reading.  For every
thread of an existing row and any two states `b`, `b2` of the buffers of the
contract sizes: on both, the initialisation returns with `V[0] = 0`,
`Z[0] = -infinity`, `Z[1] = +infinity` in the row's scratch cells, the kernel
returns, and the two runs leave the same `out` and `basins` in every cell of the
row; when `b` and `b2` hold the same `out` (`basins`) and differ only in `z` and
`v`, the two runs return the same `out` (`basins`) buffer. -/
theorem scratch_independent (dim0 dim1 dim2 batchdim : Nat) (f : List ℚ) (b b2 : Bufs)
    (hd1 : 1 ≤ dim1) (hb : batchdim < dim0 * dim2) (hs : Sized dim0 dim1 dim2 f b)
    (hs2 : Sized dim0 dim1 dim2 f b2) :
    (∃ bi bi2,
      initPhase (offset1 dim1 dim2 batchdim) (offset2 dim1 dim2 batchdim) dim1 dim2 b
        = some bi ∧
      initPhase (offset1 dim1 dim2 batchdim) (offset2 dim1 dim2 batchdim) dim1 dim2 b2
        = some bi2 ∧
      bi.v[offset1 dim1 dim2 batchdim + 0 * dim2]? = some 0 ∧
      bi2.v[offset1 dim1 dim2 batchdim + 0 * dim2]? = some 0 ∧
      bi.z[offset2 dim1 dim2 batchdim + 0 * dim2]? = some Ext.negInf ∧
      bi2.z[offset2 dim1 dim2 batchdim + 0 * dim2]? = some Ext.negInf ∧
      bi.z[offset2 dim1 dim2 batchdim + (0 + 1) * dim2]? = some Ext.posInf ∧
      bi2.z[offset2 dim1 dim2 batchdim + (0 + 1) * dim2]? = some Ext.posInf) ∧
    ∃ b' b2', BasinFinderCudaKernel dim0 dim1 dim2 f batchdim b = some b' ∧
      BasinFinderCudaKernel dim0 dim1 dim2 f batchdim b2 = some b2' ∧
      (∀ q, q < dim1 →
        b2'.out[offset1 dim1 dim2 batchdim + q * dim2]?
          = b'.out[offset1 dim1 dim2 batchdim + q * dim2]? ∧
        b2'.basins[offset1 dim1 dim2 batchdim + q * dim2]?
          = b'.basins[offset1 dim1 dim2 batchdim + q * dim2]?) ∧
      (b2.out = b.out → b2'.out = b'.out) ∧
      (b2.basins = b.basins → b2'.basins = b'.basins) := by
  have hd2 := dim2_pos hb
  constructor
  · obtain ⟨bi, h1, hst1, _⟩ := initPhase_spec hd1 hd2 (fits_of_sized hb hs)
    obtain ⟨bi2, h2, hst2, _⟩ := initPhase_spec hd1 hd2 (fits_of_sized hb hs2)
    exact ⟨bi, bi2, h1, h2, hst1.v 0 (le_refl 0), hst2.v 0 (le_refl 0),
      hst1.z 0 (le_refl 0), hst2.z 0 (le_refl 0), hst1.sentinel, hst2.sentinel⟩
  · obtain ⟨bb, k, V, Z, b', j, hrun, hker⟩ := kernel_spec hd1 hb hs
    obtain ⟨bb2, k2, V2, Z2, b2', j2, hrun2, hker2⟩ := kernel_spec hd1 hb hs2
    have hd : RowDone (offset1 dim1 dim2 batchdim) dim1 dim2 (rowOf dim1 dim2 f batchdim) b' :=
      fun q hq => written_lexmin hrun.env (hrun.written q hq)
    have hd' : RowDone (offset1 dim1 dim2 batchdim) dim1 dim2 (rowOf dim1 dim2 f batchdim)
        b2' := fun q hq => written_lexmin hrun2.env (hrun2.written q hq)
    have hag := rowDone_agree (fun _ _ => rfl) hd' hd
    exact ⟨b', b2', hker, hker2, hag,
      fun h0 => list_eq_of_row hrun.frame.out hrun2.frame.out h0 (fun q hq => (hag q hq).1),
      fun h0 => list_eq_of_row hrun.frame.basins hrun2.frame.basins h0
        (fun q hq => (hag q hq).2)⟩

/-- Instance of `scratch_independent`: the row `f = [0, 5, 0]` on `scratch3` and on `scratch3b`. -/
theorem scratch_independent_witness :
    (1 ≤ 3 ∧ 0 < 1 * 1 ∧ Sized 1 3 1 [0, 5, 0] scratch3 ∧
      Sized 1 3 1 [0, 5, 0] scratch3b) ∧
    ((∃ bi bi2,
      initPhase (offset1 3 1 0) (offset2 3 1 0) 3 1 scratch3 = some bi ∧
      initPhase (offset1 3 1 0) (offset2 3 1 0) 3 1 scratch3b = some bi2 ∧
      bi.v[offset1 3 1 0 + 0 * 1]? = some 0 ∧
      bi2.v[offset1 3 1 0 + 0 * 1]? = some 0 ∧
      bi.z[offset2 3 1 0 + 0 * 1]? = some Ext.negInf ∧
      bi2.z[offset2 3 1 0 + 0 * 1]? = some Ext.negInf ∧
      bi.z[offset2 3 1 0 + (0 + 1) * 1]? = some Ext.posInf ∧
      bi2.z[offset2 3 1 0 + (0 + 1) * 1]? = some Ext.posInf) ∧
    ∃ b' b2', BasinFinderCudaKernel 1 3 1 [0, 5, 0] 0 scratch3 = some b' ∧
      BasinFinderCudaKernel 1 3 1 [0, 5, 0] 0 scratch3b = some b2' ∧
      (∀ q, q < 3 →
        b2'.out[offset1 3 1 0 + q * 1]? = b'.out[offset1 3 1 0 + q * 1]? ∧
        b2'.basins[offset1 3 1 0 + q * 1]? = b'.basins[offset1 3 1 0 + q * 1]?) ∧
      (scratch3b.out = scratch3.out → b2'.out = b'.out) ∧
      (scratch3b.basins = scratch3.basins → b2'.basins = b'.basins)) :=
  ⟨⟨by decide, by decide, ⟨rfl, rfl, rfl, rfl, rfl⟩, ⟨rfl, rfl, rfl, rfl, rfl⟩⟩,
    scratch_independent 1 3 1 0 [0, 5, 0] scratch3 scratch3b (by decide) (by decide)
      ⟨rfl, rfl, rfl, rfl, rfl⟩ ⟨rfl, rfl, rfl, rfl, rfl⟩⟩

theorem lowerAt_trans {g : Nat → ℚ} {a b c : Nat} {x : ℝ} (h1 : lowerAt g a b x)
    (h2 : lowerAt g b c x) : lowerAt g a c x :=
  le_trans h1 h2

theorem calcint_le_real (g : Nat → ℚ) {p1 p2 : Nat} (h : p1 < p2) (x : ℝ) :
    ((calcint (p2 : Int) (p1 : Int) (g p2) (g p1) : ℚ) : ℝ) ≤ x ↔ lowerAt g p2 p1 x := by
  have hd : (0 : ℝ) < 2 * (p2 : ℝ) - 2 * (p1 : ℝ) := by
    have : (p1 : ℝ) < (p2 : ℝ) := by exact_mod_cast h
    linarith
  simp only [calcint, lowerAt, Int.cast_natCast]
  push_cast
  rw [div_le_iff₀ hd]
  constructor <;> intro h' <;> nlinarith

theorem real_le_calcint (g : Nat → ℚ) {p1 p2 : Nat} (h : p1 < p2) (x : ℝ) :
    x ≤ ((calcint (p2 : Int) (p1 : Int) (g p2) (g p1) : ℚ) : ℝ) ↔ lowerAt g p1 p2 x := by
  have hd : (0 : ℝ) < 2 * (p2 : ℝ) - 2 * (p1 : ℝ) := by
    have : (p1 : ℝ) < (p2 : ℝ) := by exact_mod_cast h
    linarith
  simp only [calcint, lowerAt, Int.cast_natCast]
  push_cast
  rw [le_div_iff₀ hd]
  constructor <;> intro h' <;> nlinarith

theorem Ext.leReal_of_lt {a b : Ext} {x : ℝ} (h : Ext.lt a b = true) (hb : Ext.leReal b x) :
    Ext.leReal a x := by
  cases a with
  | negInf => trivial
  | posInf => simp [Ext.lt] at h
  | fin a =>
    cases b with
    | negInf => simp [Ext.lt] at h
    | posInf => exact absurd hb (by simp [Ext.leReal])
    | fin b =>
      simp only [Ext.lt, decide_eq_true_eq] at h
      simp only [Ext.leReal] at hb ⊢
      have : (a : ℝ) < (b : ℝ) := by exact_mod_cast h
      linarith

theorem Ext.realLe_of_lt {a b : Ext} {x : ℝ} (h : Ext.lt a b = true) (ha : Ext.realLe x a) :
    Ext.realLe x b := by
  cases b with
  | posInf => trivial
  | negInf => cases a <;> simp [Ext.lt] at h
  | fin b =>
    cases a with
    | posInf => simp [Ext.lt] at h
    | negInf => exact absurd ha (by simp [Ext.realLe])
    | fin a =>
      simp only [Ext.lt, decide_eq_true_eq] at h
      simp only [Ext.realLe] at ha ⊢
      have : (a : ℝ) < (b : ℝ) := by exact_mod_cast h
      linarith

/-- A finite family of affine inequalities with rational coefficients, one of
which holds at every rational abscissa, has one that holds at every real
abscissa. -/
theorem affine_cover_real {k : Nat} (A B : Nat → ℚ)
    (h : ∀ x : ℚ, ∃ i, i ≤ k ∧ A i * x + B i ≤ 0) (x : ℝ) :
    ∃ i, i ≤ k ∧ ((A i : ℚ) : ℝ) * x + ((B i : ℚ) : ℝ) ≤ 0 := by
  let S : Set ℝ := ⋃ i ∈ Finset.range (k + 1), {y : ℝ | ((A i : ℚ) : ℝ) * y + ((B i : ℚ) : ℝ) ≤ 0}
  have hcl : IsClosed S := by
    apply isClosed_biUnion_finset
    intro i _
    exact isClosed_le (by fun_prop) continuous_const
  have hsub : Set.range ((fun y : ℚ => (y : ℝ))) ⊆ S := by
    rintro _ ⟨y, rfl⟩
    obtain ⟨i, hi, h'⟩ := h y
    simp only [S, Set.mem_iUnion, Finset.mem_range, Set.mem_setOf_eq]
    refine ⟨i, by omega, ?_⟩
    have : ((A i * y + B i : ℚ) : ℝ) ≤ ((0 : ℚ) : ℝ) := by exact_mod_cast h'
    push_cast at this
    exact this
  have hdense : closure (Set.range ((fun y : ℚ => (y : ℝ)))) = Set.univ :=
    Rat.denseRange_cast.closure_range
  have hx : x ∈ S := by
    have h1 : closure (Set.range ((fun y : ℚ => (y : ℝ)))) ⊆ S :=
      (IsClosed.closure_subset_iff hcl).mpr hsub
    rw [hdense] at h1
    exact h1 (Set.mem_univ x)
  simp only [S, Set.mem_iUnion, Finset.mem_range, Set.mem_setOf_eq] at hx
  obtain ⟨i, hi, h'⟩ := hx
  exact ⟨i, by omega, h'⟩

/-- The stack of an envelope contains, for every inserted sample and every real
abscissa, a vertex whose parabola is not above the sample's. -/
theorem Envelope.cover_real {g : Nat → ℚ} {q : Nat} {V : Nat → Nat} {Z : Nat → Ext} {k : Nat}
    (h : Envelope g q V Z k) {p : Nat} (hp : p < q) (x : ℝ) :
    ∃ i, i ≤ k ∧ lowerAt g (V i) p x := by
  have hq : ∀ y : ℚ, ∃ i, i ≤ k ∧
      (2 * (p : ℚ) - 2 * (V i : ℚ)) * y
        + ((V i : ℚ) * (V i : ℚ) + g (V i) - ((p : ℚ) * (p : ℚ) + g p)) ≤ 0 := by
    intro y
    obtain ⟨i, hi, hl⟩ := h.cover p hp y
    refine ⟨i, hi, ?_⟩
    have hle : parabola g (V i) y ≤ parabola g p y := by
      rcases hl with h1 | ⟨h1, _⟩
      · exact le_of_lt h1
      · exact le_of_eq h1
    simp only [parabola] at hle
    nlinarith
  obtain ⟨i, hi, h'⟩ := affine_cover_real
    (fun i => 2 * (p : ℚ) - 2 * (V i : ℚ))
    (fun i => (V i : ℚ) * (V i : ℚ) + g (V i) - ((p : ℚ) * (p : ℚ) + g p)) hq x
  refine ⟨i, hi, ?_⟩
  simp only [lowerAt]
  push_cast at h'
  nlinarith

theorem segment_below {g : Nat → ℚ} {V : Nat → Nat} {Z : Nat → Ext} {k : Nat}
    (h : Chain g V Z k) {x : ℝ} {j : Nat} (hj : j ≤ k) (hx : Ext.leReal (Z j) x) :
    ∀ d i, i + d = j → lowerAt g (V j) (V i) x := by
  intro d
  induction d with
  | zero =>
    intro i hi
    have : i = j := by omega
    subst this
    exact le_refl _
  | succ d ih =>
    intro i hi
    have h1 := ih (i + 1) (by omega)
    have hz : Ext.leReal (Z (i + 1)) x := by
      rcases Nat.eq_zero_or_pos d with h0 | h0
      · have : i + 1 = j := by omega
        rw [this]; exact hx
      · exact Ext.leReal_of_lt (h.z_lt j hj (i + 1) (by omega)) hx
    rw [h.zdef i (by omega)] at hz
    exact lowerAt_trans h1 ((calcint_le_real g (h.vmono i (by omega)) x).mp hz)

theorem segment_above {g : Nat → ℚ} {V : Nat → Nat} {Z : Nat → Ext} {k : Nat}
    (h : Chain g V Z k) {x : ℝ} {j : Nat} (hx : j < k → Ext.realLe x (Z (j + 1))) :
    ∀ d, j + d ≤ k → lowerAt g (V j) (V (j + d)) x := by
  intro d
  induction d with
  | zero => intro _; exact le_refl _
  | succ d ih =>
    intro hd
    have h1 := ih (by omega)
    have hz : Ext.realLe x (Z (j + d + 1)) := by
      rcases Nat.eq_zero_or_pos d with h0 | h0
      · subst h0; exact hx (by omega)
      · exact Ext.realLe_of_lt (h.z_lt (j + d + 1) (by omega) (j + 1) (by omega))
          (hx (by omega))
    rw [h.zdef (j + d) (by omega)] at hz
    exact lowerAt_trans h1 ((real_le_calcint g (h.vmono (j + d) (by omega)) x).mp hz)

/-- On the segment `Z[j] <= x <= Z[j+1]` the vertex `V[j]` is lowest among all
inserted samples. -/
theorem Envelope.segment_min {g : Nat → ℚ} {q : Nat} {V : Nat → Nat} {Z : Nat → Ext}
    {k : Nat} (h : Envelope g q V Z k) {x : ℝ} {j : Nat} (hj : j ≤ k)
    (hlo : Ext.leReal (Z j) x) (hhi : j < k → Ext.realLe x (Z (j + 1))) {p : Nat}
    (hp : p < q) : lowerAt g (V j) p x := by
  obtain ⟨i, hi, hc⟩ := h.cover_real hp x
  refine lowerAt_trans ?_ hc
  rcases Nat.lt_or_ge i j with hij | hij
  · exact segment_below h.chain hj hlo (j - i) i (by omega)
  · have := segment_above h.chain hhi (i - j) (by omega)
    have e : j + (i - j) = i := by omega
    rw [e] at this
    exact this

/-- C11 (amended: the arithmetic read as exact, rationals with the two infinite
sentinels).  For every thread of an existing row and every `q` in `1..dim1`, once the samples `0..q-1` are pushed (the sweep cut
after candidate `q-1`, stack pointer `k`): for every `j` in `0..k` the cells
hold a vertex `V[j] < q` and boundaries `Z[j]`, `Z[j+1]`, and for every real
abscissa `x` with `Z[j] <= x <= Z[j+1]` the value `(x-V[j])^2 + f[V[j]]` is the
minimum over `p` in `0..q-1` of `(x-p)^2 + f[p]`: it is one of these values and
it is below each of them. -/
theorem envelope_invariant (dim0 dim1 dim2 batchdim : Nat) (f : List ℚ) (b : Bufs)
    (hb : batchdim < dim0 * dim2) (hs : Sized dim0 dim1 dim2 f b) :
    ∀ q, 1 ≤ q → q ≤ dim1 → ∃ bb k,
      sweep (offset1 dim1 dim2 batchdim) (offset2 dim1 dim2 batchdim) dim1 dim2 f b (q - 1)
        = some (bb, k) ∧
      ∀ j, j ≤ k → ∃ (vj : Nat) (zj zj1 : Ext),
        bb.v[offset1 dim1 dim2 batchdim + j * dim2]? = some (vj : Int) ∧
        bb.z[offset2 dim1 dim2 batchdim + j * dim2]? = some zj ∧
        bb.z[offset2 dim1 dim2 batchdim + (j + 1) * dim2]? = some zj1 ∧
        vj < q ∧
        ∀ x : ℝ, Ext.leReal zj x → Ext.realLe x zj1 → ∀ p, p < q →
          (x - (vj : ℝ)) * (x - (vj : ℝ)) + ((rowOf dim1 dim2 f batchdim vj : ℚ) : ℝ)
            ≤ (x - (p : ℝ)) * (x - (p : ℝ)) + ((rowOf dim1 dim2 f batchdim p : ℚ) : ℝ) := by
  intro q hq1 hq
  obtain ⟨bb, k, V, Z, h, henv, hst, _⟩ :=
    sweep_spec (dim2_pos hb) (rowOf_spec hb hs.f) (fits_of_sized hb hs) (q - 1) (by omega)
  have hq' : q - 1 + 1 = q := by omega
  rw [hq'] at henv
  refine ⟨bb, k, h, fun j hj => ?_⟩
  rcases Nat.lt_or_eq_of_le hj with hlt | heq
  · refine ⟨V j, Z j, Z (j + 1), hst.v j hj, hst.z j hj, hst.z (j + 1) (by omega),
      henv.v_lt_top hj, fun x hlo hhi p hp => ?_⟩
    exact henv.segment_min hj hlo (fun _ => hhi) hp
  · refine ⟨V j, Z j, Ext.posInf, hst.v j hj, hst.z j hj, by rw [heq]; exact hst.sentinel,
      henv.v_lt_top hj, fun x hlo _ p hp => ?_⟩
    exact henv.segment_min hj hlo (fun h' => absurd h' (by omega)) hp

/-- Witness for the amended C11: the row `f = [0, 5, 0]`. -/
theorem envelope_invariant_witness :
    (0 < 1 * 1 ∧ Sized 1 3 1 [0, 5, 0] scratch3) ∧
    ∀ q, 1 ≤ q → q ≤ 3 → ∃ bb k,
      sweep (offset1 3 1 0) (offset2 3 1 0) 3 1 [0, 5, 0] scratch3 (q - 1) = some (bb, k) ∧
      ∀ j, j ≤ k → ∃ (vj : Nat) (zj zj1 : Ext),
        bb.v[offset1 3 1 0 + j * 1]? = some (vj : Int) ∧
        bb.z[offset2 3 1 0 + j * 1]? = some zj ∧
        bb.z[offset2 3 1 0 + (j + 1) * 1]? = some zj1 ∧
        vj < q ∧
        ∀ x : ℝ, Ext.leReal zj x → Ext.realLe x zj1 → ∀ p, p < q →
          (x - (vj : ℝ)) * (x - (vj : ℝ)) + ((rowOf 3 1 [0, 5, 0] 0 vj : ℚ) : ℝ)
            ≤ (x - (p : ℝ)) * (x - (p : ℝ)) + ((rowOf 3 1 [0, 5, 0] 0 p : ℚ) : ℝ) :=
  ⟨⟨by decide, ⟨rfl, rfl, rfl, rfl, rfl⟩⟩,
    envelope_invariant 1 3 1 0 [0, 5, 0] scratch3 (by decide) ⟨rfl, rfl, rfl, rfl, rfl⟩⟩

theorem calcint_shift (q1 q2 : Int) (f1 f2 c : ℚ) :
    calcint q1 q2 (f1 + c) (f2 + c) = calcint q1 q2 f1 f2 := by
  simp only [calcint]
  congr 1
  ring

theorem load_shift (f : List ℚ) (c : ℚ) (a : Nat) :
    load (f.map (fun y => y + c)) a = (load f a).map (fun y => y + c) := by
  simp [load, List.getElem?_map]

theorem calcintAt_shift (off1 dim1 dim2 : Nat) (f : List ℚ) (c : ℚ) (b : Bufs) (q k : Nat) :
    calcintAt off1 dim1 dim2 (f.map (fun y => y + c)) b q k
      = calcintAt off1 dim1 dim2 f b q k := by
  simp only [calcintAt, load_shift, Option.bind_eq_bind, Option.bind_map, Function.comp_def,
    calcint_shift]

theorem popLoop_shift (off1 off2 dim1 dim2 : Nat) (f : List ℚ) (c : ℚ) (b : Bufs) (q : Nat) :
    ∀ k s, popLoop off1 off2 dim1 dim2 (f.map (fun y => y + c)) b q k s
      = popLoop off1 off2 dim1 dim2 f b q k s := by
  intro k
  induction k with
  | zero => intro s; simp only [popLoop]
  | succ k ih =>
    intro s
    simp only [popLoop, calcintAt_shift, ih]

theorem buildBody_shift (off1 off2 dim1 dim2 : Nat) (f : List ℚ) (c : ℚ) (q : Nat)
    (st : Bufs × Nat) :
    buildBody off1 off2 dim1 dim2 (f.map (fun y => y + c)) q st
      = buildBody off1 off2 dim1 dim2 f q st := by
  simp only [buildBody, calcintAt_shift, popLoop_shift]

theorem buildLoop_shift (off1 off2 dim1 dim2 : Nat) (f : List ℚ) (c : ℚ) (b : Bufs) :
    ∀ m, buildLoop off1 off2 dim1 dim2 (f.map (fun y => y + c)) b m
      = buildLoop off1 off2 dim1 dim2 f b m := by
  intro m
  induction m with
  | zero => rfl
  | succ m ih => simp only [buildLoop, ih, buildBody_shift]

theorem sweep_shift (off1 off2 dim1 dim2 : Nat) (f : List ℚ) (c : ℚ) (b : Bufs) (m : Nat) :
    sweep off1 off2 dim1 dim2 (f.map (fun y => y + c)) b m
      = sweep off1 off2 dim1 dim2 f b m := by
  simp only [sweep, buildLoop_shift]

theorem rowOf_shift {dim0 dim1 dim2 batchdim : Nat} {f : List ℚ} (c : ℚ)
    (hb : batchdim < dim0 * dim2) (hf : f.length = dim0 * dim1 * dim2) {p : Nat}
    (hp : p < dim1) :
    rowOf dim1 dim2 (f.map (fun y => y + c)) batchdim p = rowOf dim1 dim2 f batchdim p + c := by
  have h := rowOf_spec hb hf p hp
  unfold rowOf
  rw [List.getElem?_map, h]
  rfl

/-- C20 (shift equivariance).  For every thread of an existing row and every
constant `c`: on the input `f + c` (`c` added to every sample) the envelope
phase returns exactly what it returns on `f` (same buffers, hence the same
`V` and `Z`, and the same `k`), both kernels return, with equal `v`, `z` and
`basins` buffers, and at every position of the row `out` on `f + c` is `out`
on `f` plus `c`. -/
theorem shift_equivariance (dim0 dim1 dim2 batchdim : Nat) (f : List ℚ) (b : Bufs) (c : ℚ)
    (hd1 : 1 ≤ dim1) (hb : batchdim < dim0 * dim2) (hs : Sized dim0 dim1 dim2 f b) :
    (∃ bb k,
      buildPhase (offset1 dim1 dim2 batchdim) (offset2 dim1 dim2 batchdim) dim1 dim2 f b
        = some (bb, k) ∧
      buildPhase (offset1 dim1 dim2 batchdim) (offset2 dim1 dim2 batchdim) dim1 dim2
        (f.map (fun y => y + c)) b = some (bb, k)) ∧
    ∃ r r', BasinFinderCudaKernel dim0 dim1 dim2 f batchdim b = some r ∧
      BasinFinderCudaKernel dim0 dim1 dim2 (f.map (fun y => y + c)) batchdim b = some r' ∧
      r'.v = r.v ∧ r'.z = r.z ∧ r'.basins = r.basins ∧
      ∀ q, q < dim1 → ∃ y : ℚ,
        r.out[offset1 dim1 dim2 batchdim + q * dim2]? = some y ∧
        r'.out[offset1 dim1 dim2 batchdim + q * dim2]? = some (y + c) := by
  have hs' : Sized dim0 dim1 dim2 (f.map (fun y => y + c)) b :=
    ⟨by rw [List.length_map]; exact hs.f, hs.out, hs.z, hs.v, hs.basins⟩
  obtain ⟨bb, k, V, Z, r, j, hrun, hker⟩ := kernel_spec hd1 hb hs
  obtain ⟨bb', k', V', Z', r', j', hrun', hker'⟩ := kernel_spec hd1 hb hs'
  have hbuild : buildPhase (offset1 dim1 dim2 batchdim) (offset2 dim1 dim2 batchdim) dim1 dim2
      (f.map (fun y => y + c)) b = some (bb, k) := by
    rw [← hrun.build]
    exact sweep_shift _ _ _ _ f c b (dim1 - 1)
  have hsame : (bb', k') = (bb, k) := Option.some.inj (hrun'.build.symm.trans hbuild)
  have hbb : bb' = bb := congrArg Prod.fst hsame
  have hk : k' = k := congrArg Prod.snd hsame
  subst hbb
  subst hk
  have hV : ∀ i, i ≤ k' → V' i = V i := by
    intro i hi
    have h1 := hrun.stored.v i hi
    rw [hrun'.stored.v i hi] at h1
    exact_mod_cast Option.some.inj h1
  have hZ : ∀ i, i ≤ k' → Z' i = Z i := by
    intro i hi
    have h1 := hrun.stored.z i hi
    rw [hrun'.stored.z i hi] at h1
    exact Option.some.inj h1
  have hrowcell : ∀ q, q < dim1 → ∃ (y : ℚ) (p : Int),
      r.out[offset1 dim1 dim2 batchdim + q * dim2]? = some y ∧
      r'.out[offset1 dim1 dim2 batchdim + q * dim2]? = some (y + c) ∧
      r.basins[offset1 dim1 dim2 batchdim + q * dim2]? = some p ∧
      r'.basins[offset1 dim1 dim2 batchdim + q * dim2]? = some p := by
    intro q hq
    obtain ⟨j1, hc1, ho1, hb1⟩ := hrun.written q hq
    obtain ⟨j2, hc2, ho2, hb2⟩ := hrun'.written q hq
    have hc2' : CursorAt Z k' (q : ℚ) j2 := by
      refine ⟨hc2.1, fun i h1 h2 => ?_, fun h => ?_⟩
      · rw [← hZ i (by have := hc2.1; omega)]; exact hc2.2.1 i h1 h2
      · rw [← hZ (j2 + 1) (by omega)]; exact hc2.2.2 h
    have hj : j1 = j2 := cursor_unique hc1 hc2'
    subst hj
    have hvj : V j1 < dim1 := hrun.env.v_lt_top hc1.1
    refine ⟨_, _, ho1, ?_, hb1, ?_⟩
    · rw [ho2, hV j1 hc1.1]
      simp only [parabola, rowOf_shift c hb hs.f hvj]
      congr 1
      ring
    · rw [hb2, hV j1 hc1.1]
  refine ⟨⟨bb', k', hrun.build, hbuild⟩, r, r', hker, hker', ?_, ?_, ?_, ?_⟩
  · rw [hrun'.v_eq, hrun.v_eq]
  · rw [hrun'.z_eq, hrun.z_eq]
  · refine list_eq_of_row hrun.frame.basins hrun'.frame.basins rfl (fun q hq => ?_)
    obtain ⟨_, _, _, _, h1, h2⟩ := hrowcell q hq
    rw [h1, h2]
  · intro q hq
    obtain ⟨y, _, h1, h2, _, _⟩ := hrowcell q hq
    exact ⟨y, h1, h2⟩

/-- Witness for C20: the row `f = [0, 5, 0]` shifted by `c = 7`. -/
theorem shift_equivariance_witness :
    (1 ≤ 3 ∧ 0 < 1 * 1 ∧ Sized 1 3 1 [0, 5, 0] scratch3) ∧
    ((∃ bb k,
      buildPhase (offset1 3 1 0) (offset2 3 1 0) 3 1 [0, 5, 0] scratch3 = some (bb, k) ∧
      buildPhase (offset1 3 1 0) (offset2 3 1 0) 3 1
        (([0, 5, 0] : List ℚ).map (fun y => y + 7)) scratch3 = some (bb, k)) ∧
    ∃ r r', BasinFinderCudaKernel 1 3 1 [0, 5, 0] 0 scratch3 = some r ∧
      BasinFinderCudaKernel 1 3 1 (([0, 5, 0] : List ℚ).map (fun y => y + 7)) 0 scratch3
        = some r' ∧
      r'.v = r.v ∧ r'.z = r.z ∧ r'.basins = r.basins ∧
      ∀ q, q < 3 → ∃ y : ℚ,
        r.out[offset1 3 1 0 + q * 1]? = some y ∧
        r'.out[offset1 3 1 0 + q * 1]? = some (y + 7)) :=
  ⟨⟨by decide, by decide, ⟨rfl, rfl, rfl, rfl, rfl⟩⟩,
    shift_equivariance 1 3 1 0 [0, 5, 0] scratch3 7 (by decide) (by decide)
      ⟨rfl, rfl, rfl, rfl, rfl⟩⟩

/-! ## The machine reading on concrete inputs -/

theorem machine_big : Machine.big = F32.fin 300000000549775575777803994281145270272 := by
  decide!

theorem machine_tie_build :
    Machine.buildPhase (Machine.offset1 3 1 0) (Machine.offset2 3 1 0) 3 1 Machine.rowTie
        (Machine.zeros 3 4)
      = Except.ok (⟨[F32.fin 0, F32.fin 0, F32.fin 0],
          [F32.negInf, F32.fin (16777215 / 16777216), F32.posInf, F32.fin 0], [0, 2, 0],
          [0, 0, 0]⟩, 1) := by
  decide!

theorem machine_tie_kernel :
    Machine.BasinFinderCudaKernel 1 3 1 Machine.rowTie 0 (Machine.zeros 3 4)
      = Except.ok ⟨[F32.fin (7130317 / 4194304), F32.fin (11324621 / 4194304),
          F32.fin (7130317 / 4194304)],
          [F32.negInf, F32.fin (16777215 / 16777216), F32.posInf, F32.fin 0], [0, 2, 0],
          [0, 2, 2]⟩ := by
  decide!

/-- C2, as stated, fails in binary32 on the row `[1.7f, 5.4f, 1.7f]` (shape
`(1, 3, 1)`).  The kernel returns with `basins = [0, 2, 2]`.  At position `1` the
parabolas rooted at `0` and at `2` have the same value, the least of the row,
so the smallest argmin is `0`; the kernel stores `2`, because the crossover
`calcint(2, 0, ..)` is rounded to `1 - 2^-24 < 1`. -/
theorem smallest_argmin_refuted :
    ∃ b', Machine.BasinFinderCudaKernel 1 3 1 Machine.rowTie 0 (Machine.zeros 3 4)
        = Except.ok b' ∧
      ¬ (∀ q : Nat, q < 3 → ∃ p : Nat,
        b'.basins[q]? = some (p : Int) ∧ p < 3 ∧
        (∀ r : Nat, r < 3 → parabola (Machine.sample Machine.rowTie) p q
            ≤ parabola (Machine.sample Machine.rowTie) r q) ∧
        (∀ r : Nat, r < 3 → parabola (Machine.sample Machine.rowTie) r q
            = parabola (Machine.sample Machine.rowTie) p q → p ≤ r)) := by
  refine ⟨_, machine_tie_kernel, fun h => ?_⟩
  obtain ⟨p, hb, _, _, hsm⟩ := h 1 (by decide)
  have hp : p = 2 := by
    have e : ([0, 2, 2] : List Int)[1]? = some 2 := rfl
    rw [e] at hb
    have := Option.some.inj hb
    omega
  subst hp
  have h0 := hsm 0 (by decide) (by decide!)
  omega

/-- C11, as stated, fails in binary32 on the row `[1.7f, 5.4f, 1.7f]`.  After
all three samples are pushed (`q = 3`) the stack is `V = [0, 2]`,
`Z = [-inf, 1 - 2^-24, +inf]`, `k = 1`.  The abscissa `x = 1 - 2^-24` lies in the
segment `j = 1` (`Z[1] <= x <= Z[2]`), whose vertex is `V[1] = 2`, but there the
parabola rooted at `0` is strictly below the one rooted at `2`. -/
theorem envelope_refuted :
    ∃ bb, Machine.buildPhase (Machine.offset1 3 1 0) (Machine.offset2 3 1 0) 3 1
        Machine.rowTie (Machine.zeros 3 4) = Except.ok (bb, 1) ∧
      bb.v[1]? = some 2 ∧ bb.z[1]? = some (F32.fin (16777215 / 16777216)) ∧
      bb.z[2]? = some F32.posInf ∧
      F32.le (F32.fin (16777215 / 16777216)) (F32.fin (16777215 / 16777216)) = true ∧
      F32.le (F32.fin (16777215 / 16777216)) F32.posInf = true ∧
      parabola (Machine.sample Machine.rowTie) 0 (16777215 / 16777216)
        < parabola (Machine.sample Machine.rowTie) 2 (16777215 / 16777216) := by
  refine ⟨_, machine_tie_build, rfl, rfl, rfl, by decide!, by decide!, by decide!⟩

theorem machine_pair_thread0 :
    Machine.runThreads 2 2 1 Machine.pairInput [0] (Machine.zeros 4 6)
      = Except.ok ⟨[F32.fin 0, F32.fin 0, F32.fin 0, F32.fin 0],
          [F32.negInf, F32.fin (1 / 2), F32.posInf, F32.fin 0, F32.fin 0, F32.fin 0],
          [0, 1, 0, 0], [0, 1, 0, 0]⟩ := by
  decide!

theorem machine_pair_build :
    Machine.buildPhase (Machine.offset1 2 1 1) (Machine.offset2 2 1 1) 2 1 Machine.pairInput
        ⟨[F32.fin 0, F32.fin 0, F32.fin 0, F32.fin 0],
          [F32.negInf, F32.fin (1 / 2), F32.posInf, F32.fin 0, F32.fin 0, F32.fin 0],
          [0, 1, 0, 0], [0, 1, 0, 0]⟩
      = Except.ok (⟨[F32.fin 0, F32.fin 0, F32.fin 0, F32.fin 0],
          [F32.negInf, F32.fin (1 / 2), F32.posInf, F32.nan, F32.posInf, F32.fin 0],
          [0, 1, 1, 0], [0, 1, 0, 0]⟩, 0) := by
  decide!

theorem machine_pair_both :
    Machine.runThreads 2 2 1 Machine.pairInput [0, 1] (Machine.zeros 4 6)
      = Except.ok ⟨[F32.fin 0, F32.fin 0, Machine.negBig, Machine.negBig],
          [F32.negInf, F32.fin (1 / 2), F32.posInf, F32.nan, F32.posInf, F32.fin 0],
          [0, 1, 1, 0], [0, 1, 1, 1]⟩ := by
  decide!

/-- C10, failing input: the finite row `[3e38f, -3e38f]` (shape `(1, 2, 1)`,
buffers of the contract sizes).  In the machine reading, for candidate `q = 1`
the numerator of `calcint(1, 0, ..)` is `(-3e38f + 1) - (3e38f + 0)`, which
overflows, so `s = -inf`; the test `s <= Z[0]` against the sentinel
`Z[0] = -inf` holds, the bottom is popped, `k = -1`, and the next statement
reads `v[-1]`: logical index `-1` of `V`, a flat address outside the buffer. -/
theorem bottom_pop_leaves_scratch :
    Machine.calcint 1 0 Machine.negBig Machine.big = F32.negInf ∧
    F32.le F32.negInf F32.negInf = true ∧
    Machine.BasinFinderCudaKernel 1 2 1 [Machine.big, Machine.negBig] 0 (Machine.zeros 2 3)
      = Except.error (Machine.Fault.readV (-1)) := by
  refine ⟨by decide!, rfl, by decide!⟩

/-- C12, failing input: the input of shape `(2, 2, 1)` with the finite rows
`[0, 0]` and `[3e38f, -3e38f]`, thread `1` run after thread `0`.  The envelope
phase of thread `1` (its cells are `v[2..3]`, `z[3..5]`) ends with `k = 0` and
`V[0] = v[2] = 1`.  The bottom vertex `0` was popped and sample `1` written in
its place, so `V[0] = 0` does not hold. -/
theorem bottom_vertex_replaced :
    ∃ b1 bb, Machine.runThreads 2 2 1 Machine.pairInput [0] (Machine.zeros 4 6) = Except.ok b1 ∧
      Machine.buildPhase (Machine.offset1 2 1 1) (Machine.offset2 2 1 1) 2 1 Machine.pairInput b1
        = Except.ok (bb, 0) ∧
      Machine.offset1 2 1 1 = 2 ∧ bb.v[2]? = some 1 := by
  refine ⟨_, _, machine_pair_thread0, machine_pair_build, by decide, rfl⟩

/-- C13, failing input: the input of shape `(2, 2, 1)` with the finite rows
`[0, 0]` and `[3e38f, -3e38f]`, thread `1` run after thread `0`.  The envelope
phase of thread `1` ends with `k = 0`, `Z[0] = z[3] = NaN` and
`Z[1] = z[4] = +inf`.  So `Z[0]` is not `-infinity`, and the comparison
`Z[0] <= Z[1]` is false. -/
theorem bottom_boundary_unordered :
    ∃ b1 bb, Machine.runThreads 2 2 1 Machine.pairInput [0] (Machine.zeros 4 6) = Except.ok b1 ∧
      Machine.buildPhase (Machine.offset1 2 1 1) (Machine.offset2 2 1 1) 2 1 Machine.pairInput b1
        = Except.ok (bb, 0) ∧
      Machine.offset2 2 1 1 = 3 ∧ bb.z[3]? = some F32.nan ∧ bb.z[4]? = some F32.posInf ∧
      F32.le F32.nan F32.posInf = false := by
  refine ⟨_, _, machine_pair_thread0, machine_pair_build, by decide, rfl, rfl, rfl⟩

/-- C15, failing input: the input of shape `(2, 2, 1)` with the finite rows
`[0, 0]` and `[3e38f, -3e38f]`, thread `1` run after thread `0`.  When both
threads have finished, the bottom boundary of row `1` is `Z[0] = z[3] = NaN`,
not `-infinity`. -/
theorem finished_bottom_not_sentinel :
    ∃ b', Machine.runThreads 2 2 1 Machine.pairInput [0, 1] (Machine.zeros 4 6) = Except.ok b' ∧
      Machine.offset2 2 1 1 = 3 ∧ b'.z[3]? = some F32.nan ∧ F32.nan ≠ F32.negInf := by
  refine ⟨_, machine_pair_both, by decide, rfl, by decide⟩

theorem machine_triple_thread0 :
    Machine.runThreads 2 3 1 Machine.tripleInput [0] (Machine.zeros 6 8)
      = Except.ok ⟨[F32.fin 0, F32.fin 0, F32.fin 0, F32.fin 0, F32.fin 0, F32.fin 0],
          [F32.negInf, F32.fin (1 / 2), F32.fin (3 / 2), F32.posInf, F32.fin 0, F32.fin 0,
            F32.fin 0, F32.fin 0],
          [0, 1, 2, 0, 0, 0], [0, 1, 2, 0, 0, 0]⟩ := by
  decide!

theorem machine_triple_thread1 :
    Machine.BasinFinderCudaKernel 2 3 1 Machine.tripleInput 1
        ⟨[F32.fin 0, F32.fin 0, F32.fin 0, F32.fin 0, F32.fin 0, F32.fin 0],
          [F32.negInf, F32.fin (1 / 2), F32.fin (3 / 2), F32.posInf, F32.fin 0, F32.fin 0,
            F32.fin 0, F32.fin 0],
          [0, 1, 2, 0, 0, 0], [0, 1, 2, 0, 0, 0]⟩
      = Except.ok ⟨[F32.fin 0, F32.fin 0, F32.fin 0, F32.fin 4, F32.fin 1, F32.fin 0],
          [F32.negInf, F32.fin (1 / 2), F32.fin (3 / 2), F32.nan,
            F32.fin 150000000274887787888901997140572635136, F32.posInf, F32.fin 0, F32.fin 0],
          [0, 1, 1, 2, 0, 0], [0, 1, 2, 2, 2, 2]⟩ := by
  decide!

/-- C17, failing input: the input of shape `(2, 3, 1)` with the finite rows `[0, 0, 0]` and
`[3e38f, -3e38f, 0]`, thread `1` run after thread `0`.  Row `0` owns the cells
`v[0..2]` and `z[0..3]`, row `1` the cells `v[3..5]` and `z[4..7]`.  Thread `0`
leaves `v[2] = 2` and `z[3] = +inf`; thread `1` returns and leaves `v[2] = 1`
and `z[3] = NaN`: it has written two scratch cells of row `0`. -/
theorem thread_writes_other_row :
    ∃ b1 b2, Machine.runThreads 2 3 1 Machine.tripleInput [0] (Machine.zeros 6 8) = Except.ok b1 ∧
      Machine.BasinFinderCudaKernel 2 3 1 Machine.tripleInput 1 b1 = Except.ok b2 ∧
      Machine.offset1 3 1 0 + 2 * 1 = 2 ∧ Machine.offset2 3 1 0 + 3 * 1 = 3 ∧
      Machine.offset1 3 1 1 = 3 ∧ Machine.offset2 3 1 1 = 4 ∧
      b1.v[2]? = some 2 ∧ b2.v[2]? = some 1 ∧
      b1.z[3]? = some F32.posInf ∧ b2.z[3]? = some F32.nan := by
  refine ⟨_, _, machine_triple_thread0, machine_triple_thread1, by decide, by decide, by decide,
    by decide, rfl, rfl, rfl, rfl⟩

/-- C18, failing input: the input of shape `(2, 2, 1)` with the finite rows
`[0, 0]` and `[3e38f, -3e38f]`.  Thread `1`, started from two buffer states that differ only
in the incoming scratch cell contents `v[0]`, `v[1]`, returns with
`basins = [1, 1]`, `out = [-3e38f, -3e38f]` on its row in one case and with
`basins = [0, 0]`, `out = [3e38f, 3e38f]` in the other. -/
theorem scratch_dependent :
    Machine.BasinFinderCudaKernel 2 2 1 Machine.pairInput 1
        ⟨[F32.fin 0, F32.fin 0, F32.fin 0, F32.fin 0],
          [F32.fin 0, F32.fin 0, F32.fin 7, F32.fin 0, F32.fin 0, F32.fin 0],
          [0, 1, 0, 0], [0, 0, 0, 0]⟩
      = Except.ok ⟨[F32.fin 0, F32.fin 0, Machine.negBig, Machine.negBig],
          [F32.fin 0, F32.fin 0, F32.fin 7, F32.nan, F32.posInf, F32.fin 0],
          [0, 1, 1, 0], [0, 0, 1, 1]⟩ ∧
    Machine.BasinFinderCudaKernel 2 2 1 Machine.pairInput 1
        ⟨[F32.fin 0, F32.fin 0, F32.fin 0, F32.fin 0],
          [F32.fin 0, F32.fin 0, F32.fin 7, F32.fin 0, F32.fin 0, F32.fin 0],
          [1, 0, 0, 0], [0, 0, 0, 0]⟩
      = Except.ok ⟨[F32.fin 0, F32.fin 0, Machine.big, Machine.big],
          [F32.fin 0, F32.fin 0, F32.nan, F32.posInf, F32.posInf, F32.fin 0],
          [1, 1, 0, 0], [0, 0, 0, 0]⟩ := by
  refine ⟨by decide!, by decide!⟩

theorem machine_batch_a :
    Machine.runThreads 3 3 1 (Machine.batchInput (F32.fin (-11 / 2))) [0, 1, 2]
        (Machine.zeros 9 12)
      = Except.ok ⟨[F32.fin 0, F32.fin 0, F32.fin 0, F32.fin (-3 / 2), F32.fin (-9 / 2),
            F32.fin (-11 / 2), Machine.big, Machine.big, Machine.big],
          [F32.negInf, F32.fin (1 / 2), F32.fin (3 / 2), F32.posInf, F32.negInf, F32.nan,
            F32.posInf, F32.fin 0, F32.negInf, F32.posInf, F32.fin 0, F32.fin 0],
          [0, 1, 2, 2, 2, 0, 0, 0, 0], [0, 1, 2, 2, 2, 2, 0, 0, 0]⟩ := by
  decide!

theorem machine_batch_b :
    Machine.runThreads 3 3 1 (Machine.batchInput (F32.fin 0)) [0, 1, 2] (Machine.zeros 9 12)
      = Except.ok ⟨[F32.fin 0, F32.fin 0, F32.fin 0, F32.fin 0, F32.fin 0, F32.fin 0,
            F32.fin 4, F32.fin 1, F32.fin 0],
          [F32.negInf, F32.fin (1 / 2), F32.fin (3 / 2), F32.posInf, F32.negInf, F32.fin (1 / 2),
            F32.fin (3 / 2), F32.nan, F32.fin 150000000274887787888901997140572635136,
            F32.posInf, F32.fin 0, F32.fin 0],
          [0, 1, 2, 0, 1, 1, 2, 0, 0], [0, 1, 2, 0, 1, 2, 2, 2, 2]⟩ := by
  decide!

/-- C5, failing input: two inputs of shape `(3, 3, 1)` that agree on row `2`, the finite row
`[3e38f, -3e38f, 0]`, and differ only in the last sample of row `1` (`-5.5` or
`0`); threads `0`, `1`, `2` run in this order from zero buffers.  Row `2` of the
result (flat indices `6..8`) is `basins = [0, 0, 0]`, `out = [3e38f, ..]` for
the first input and `basins = [2, 2, 2]`, `out = [4, 1, 0]` for the second.
The same row alone (shape `(1, 3, 1)`) makes its thread read `v[-1]`. -/
theorem row_depends_on_neighbour :
    ∃ ba bb, Machine.runThreads 3 3 1 (Machine.batchInput (F32.fin (-11 / 2))) [0, 1, 2]
        (Machine.zeros 9 12) = Except.ok ba ∧
      Machine.runThreads 3 3 1 (Machine.batchInput (F32.fin 0)) [0, 1, 2] (Machine.zeros 9 12)
        = Except.ok bb ∧
      (Machine.batchInput (F32.fin (-11 / 2))).drop 6 = (Machine.batchInput (F32.fin 0)).drop 6 ∧
      Machine.offset1 3 1 2 = 6 ∧
      ba.basins.drop 6 = [0, 0, 0] ∧ bb.basins.drop 6 = [2, 2, 2] ∧
      ba.out.drop 6 = [Machine.big, Machine.big, Machine.big] ∧
      bb.out.drop 6 = [F32.fin 4, F32.fin 1, F32.fin 0] ∧
      Machine.BasinFinderCudaKernel 1 3 1 [Machine.big, Machine.negBig, F32.fin 0] 0
        (Machine.zeros 3 4) = Except.error (Machine.Fault.readV (-1)) := by
  refine ⟨_, _, machine_batch_a, machine_batch_b, rfl, by decide, rfl, rfl, rfl, rfl, by decide!⟩

/-- Line 92 at `q = 46341`, `thisv = 0`, `f[thisv] = 0`: the `int` product
`46341 * 46341 = 2147488281` exceeds `2^31 - 1` and wraps to `-2147479015`,
which converts to the `float` `-2147479040`. -/
theorem square_wraps :
    i32 (i32 (46341 - 0) * i32 (46341 - 0)) = -2147479015 ∧
    (46341 - 0 : Int) * (46341 - 0) = 2147488281 ∧
    Machine.outValue 46341 0 (F32.fin 0) = F32.fin (-2147479040) := by
  refine ⟨by decide, by decide, by decide!⟩

end FelzenszwalbEDT
